import Mathlib

/-!
# ohmygo: the transactional Dao (`dao/base.go`)

A shallow embedding of the Dao of `dao/base.go`: `Save`, `Delete`, `create`,
`update`, `failRetry` and `RunInTransaction` are state-passing functions over a
`World` that holds the Go heap (models), the database, the captured
`afterCalls` slices and an event log of every callback invocation, storage
write, transaction boundary and sleep.

On top of it come the read side of the Dao (`dao/user.go`, `dao/param.go`,
`dao/settings.go`), the issuing of user tokens (`tokens/user.go`), the app
(`core/base.go`: `RefreshSettings`, `Bootstrap`, `createDaoWithHooks`), the auth
endpoints (`api/auth.go`), the client address (`api/middleware.go`) and the
`Compare` validator (`forms/validators/string.go`). Read queries are answered
from the rows a handle sees; the storage engine may fail any of them.

Go function values are represented by the place that created them
(`BeforeFunc`, `AfterFunc`): either a callback the application assigned to a
Dao field, or one of the closures built inside `RunInTransaction`.
-/

namespace Ohmygo

/-! ## Go values -/

/-- A Go `error` value; `msg` is what `err.Error()` returns. A nil error is `none`.
Go compares error values with `==` and `!=` by identity, not by message:
`sentinel` is the name of the package-level variable that holds the value
(`sql.ErrNoRows`), and `none` for an error made where it is returned. Two errors
with the same message are different values unless they are the same sentinel. -/
structure GoError where
  msg : String
  sentinel : Option String
deriving DecidableEq, Repr

/-- Go `errors.New` at the place of use: an error that is no sentinel. -/
def errors.New (text : String) : GoError := ⟨text, none⟩

/-- Whether `p` is an initial segment of the first list. -/
def strings.hasPrefixChars : List Char → List Char → Bool
  | _, [] => true
  | [], _ :: _ => false
  | c :: cs, p :: ps => c == p && strings.hasPrefixChars cs ps

/-- Whether `sub` occurs somewhere in the first list. -/
def strings.containsChars : List Char → List Char → Bool
  | [], sub => strings.hasPrefixChars [] sub
  | c :: cs, sub => strings.hasPrefixChars (c :: cs) sub || strings.containsChars cs sub

/-- Go `strings.Contains(s, substr)`. -/
def strings.Contains (s substr : String) : Bool :=
  strings.containsChars s.data substr.data

/-- The `time.Millisecond` constant: a `time.Duration` counts nanoseconds. -/
def time.Millisecond : Int := 1000000

/-- A pointer to a model on the Go heap (`model.Model` values are pointers). -/
abbrev Ptr := Nat

/-! ## The model contract (`model.Model`) -/

/-- Modelled from the spec: `types.DateTime` (package `tools/types`) is missing;
the zero value is `none`, any other value is a clock reading. -/
abbrev DateTime := Option Nat

/-- Modelled from the spec: `DateTime.IsZero`. -/
def DateTime.IsZero (d : DateTime) : Bool := d.isNone

/-- A column value of a database row. -/
inductive Value where
  | str (s : String)
  | time (t : DateTime)
  | bool (b : Bool)
deriving DecidableEq, Repr

/-- Modelled from the spec: `model.BaseModel` and the `model.Model` interface
(`model/base.go`) are missing. Following section 3 of the spec a model has an
identifier, an "is new" flag, `created`/`updated` timestamps and a constant table
name; `columnValueMap` is the optional `ColumnValueMapper` capability (`none` when
the concrete type does not implement it) and `fields` are the remaining columns of
the concrete type. -/
structure Model where
  tableName : String
  Id : String
  isNew : Bool
  Created : DateTime
  Updated : DateTime
  columnValueMap : Option (List (String × Value))
  fields : List (String × Value)
deriving DecidableEq, Repr

/-- Modelled from the spec: `TableName()`. -/
def Model.TableName (m : Model) : String := m.tableName

/-- Modelled from the spec: `GetId()`. -/
def Model.GetId (m : Model) : String := m.Id

/-- Modelled from the spec: `HasId()`, the identifier is non-empty. -/
def Model.HasId (m : Model) : Bool := m.GetId != ""

/-- Modelled from the spec: `IsNew()`. -/
def Model.IsNew (m : Model) : Bool := m.isNew

/-- Modelled from the spec: `MarkAsNew()`. -/
def Model.MarkAsNew (m : Model) : Model := { m with isNew := true }

/-- Modelled from the spec: `MarkAsNotNew()`. -/
def Model.MarkAsNotNew (m : Model) : Model := { m with isNew := false }

/-- Modelled from the spec: `GetCreated()`. -/
def Model.GetCreated (m : Model) : DateTime := m.Created

/-- Modelled from the spec: `GetUpdated()`. -/
def Model.GetUpdated (m : Model) : DateTime := m.Updated

/-- Modelled from the spec: `security.RandomString(length)` (package
`tools/security`) is missing; a string of `length` letters drawn from the
generator state `seed`. -/
def security.RandomString (length seed : Nat) : String :=
  String.mk ((List.range length).map fun i => Char.ofNat (97 + (seed + i) % 26))

/-- Modelled from the spec: `RefreshId()` assigns an application-generated
identifier (15 random characters). -/
def Model.RefreshId (m : Model) (seed : Nat) : Model :=
  { m with Id := security.RandomString 15 seed }

/-- Modelled from the spec: `RefreshCreated()` stamps `created` with the current time. -/
def Model.RefreshCreated (m : Model) (now : Nat) : Model := { m with Created := some now }

/-- Modelled from the spec: `RefreshUpdated()` stamps `updated` with the current time. -/
def Model.RefreshUpdated (m : Model) (now : Nat) : Model := { m with Updated := some now }

/-- The columns written by a full-record `Model(m).Insert()` / `Model(m).Update()`. -/
def Model.record (m : Model) : List (String × Value) :=
  ("id", Value.str m.Id) :: ("created", Value.time m.Created) ::
    ("updated", Value.time m.Updated) :: m.fields

/-! ## Storage handles and Dao -/

/-- A `dbx.Builder` interface value: a plain `*dbx.DB` handle, a `*dbx.Tx`
transaction handle, or nil. -/
inductive Builder where
  | DB (conn : Nat)
  | Tx (id : Nat)
  | nil
deriving DecidableEq, Repr

/-- A Go function value of type `func(eventDao *Dao, m model.Model) error`.
`user name` is a callback assigned by the application; `forward f` is the
closure built at `base.go:110-122`, which calls the outer Dao's callback `f`. -/
inductive BeforeFunc where
  | user (name : String)
  | forward (f : BeforeFunc)
deriving DecidableEq, Repr

/-- A Go function value of type `func(eventDao *Dao, m model.Model)`.
`user name` is a callback assigned by the application; `collect action slot` is
the closure built at `base.go:126-138`, which appends to the `afterCalls`
variable `slot` of the `RunInTransaction` call that created it. -/
inductive AfterFunc where
  | user (name : String)
  | collect (action : String) (slot : Nat)
deriving DecidableEq, Repr

/-- The `Dao` struct (`base.go:29-40`); a nil callback is `none`. -/
structure Dao where
  concurrentDB : Builder
  nonconcurrentDB : Builder
  BeforeCreateFunc : Option BeforeFunc
  AfterCreateFunc : Option AfterFunc
  BeforeUpdateFunc : Option BeforeFunc
  AfterUpdateFunc : Option AfterFunc
  BeforeDeleteFunc : Option BeforeFunc
  AfterDeleteFunc : Option AfterFunc
deriving DecidableEq, Repr

/-- `DefaultMaxFailRetries` (`base.go:12`). -/
def DefaultMaxFailRetries : Int := 5

/-- `NewMultiDB` (`base.go:22-27`). -/
def NewMultiDB (concurrentDB nonconcurrentDB : Builder) : Dao :=
  { concurrentDB := concurrentDB
    nonconcurrentDB := nonconcurrentDB
    BeforeCreateFunc := none
    AfterCreateFunc := none
    BeforeUpdateFunc := none
    AfterUpdateFunc := none
    BeforeDeleteFunc := none
    AfterDeleteFunc := none }

/-- `New` (`base.go:16-18`). -/
def New (db : Builder) : Dao := NewMultiDB db db

/-- `Dao.ConcurrentDB` (`base.go:53-55`). -/
def Dao.ConcurrentDB (dao : Dao) : Builder := dao.concurrentDB

/-- `Dao.NonconcurrentDB` (`base.go:61-63`). -/
def Dao.NonconcurrentDB (dao : Dao) : Builder := dao.nonconcurrentDB

/-- `Dao.DB` (`base.go:45-47`). -/
def Dao.DB (dao : Dao) : Builder := dao.ConcurrentDB

/-- `afterCallGroup` (`base.go:78-82`). -/
structure afterCallGroup where
  Action : String
  EventDao : Dao
  Model : Ptr
deriving DecidableEq, Repr

/-! ## The world -/

/-- The three kinds of storage write the Dao issues. -/
inductive WriteKind where
  | insert
  | update
  | delete
deriving DecidableEq, Repr

/-- The Dao action a write belongs to, as spelled in `afterCallGroup.Action`. -/
def WriteKind.action : WriteKind → String
  | .insert => "create"
  | .update => "update"
  | .delete => "delete"

/-- What the event log records. -/
inductive Event where
  /-- the function value `f` was called as a before-callback with `(eventDao, m)` -/
  | beforeCall (f : BeforeFunc) (eventDao : Dao) (m : Ptr)
  /-- the function value `f` was called as an after-callback with `(eventDao, m)` -/
  | afterCall (f : AfterFunc) (eventDao : Dao) (m : Ptr)
  /-- a storage write for model `m` was issued through `db` and returned `err` -/
  | write (kind : WriteKind) (db : Builder) (m : Ptr) (err : Option GoError)
  /-- transaction `tx` was begun -/
  | begin (tx : Nat)
  /-- transaction `tx` was committed -/
  | commit (tx : Nat)
  /-- transaction `tx` was rolled back -/
  | rollback (tx : Nat)
  /-- `failRetry` called `op(retryDao)`; `attempt` is the value of `attempts` -/
  | opCall (attempt : Int) (retryDao : Dao)
  /-- the call of `op` made at `attempts = attempt` returned `err` -/
  | opReturn (attempt : Int) (err : Option GoError)
  /-- `time.Sleep(d)` -/
  | sleep (d : Int)
deriving DecidableEq, Repr

/-- A database row: its table and its columns. -/
structure Row where
  table : String
  cols : List (String × Value)
deriving DecidableEq, Repr

/-- Everything the Dao code reads or changes. -/
structure World where
  /-- the Go heap: the model each pointer refers to -/
  models : Ptr → Model
  /-- the committed rows of the database -/
  store : List Row
  /-- the open transaction, if any: its handle id and its working rows -/
  tx : Option (Nat × List Row)
  /-- how many transactions were begun so far (the next handle id) -/
  txCount : Nat
  /-- what the storage engine answers to the coming write attempts:
  `some e` fails the write with `e`, `none` (or an exhausted list) lets it succeed -/
  faults : List (Option GoError)
  /-- the `afterCalls` slices captured by the closures of `RunInTransaction` calls -/
  afterCalls : Nat → List afterCallGroup
  /-- how many `afterCalls` variables were allocated so far -/
  nextSlot : Nat
  /-- the wall clock, in nanoseconds -/
  clock : Nat
  /-- the state of the random generator behind `security.RandomString` -/
  seed : Nat
  /-- the event log, oldest first -/
  trace : List Event
  /-- what the storage engine answers to the coming read queries:
  `some e` fails the query with `e`, `none` (or an exhausted list) lets it run -/
  queryFaults : List (Option GoError)
  /-- the next free address of the Go heap -/
  nextPtr : Ptr
  /-- what the database server answers to the coming connection-level calls (open,
  ping, close): `some e` fails the call with `e`, `none` (or an exhausted list) lets
  it succeed -/
  dials : List (Option GoError)
  /-- how many connections were opened so far (the next plain handle) -/
  nextConn : Nat

/-- The behaviour of the callbacks the application assigns to a Dao. A callback
is handed the Dao and the model and may read the world; it may change the model
it was handed, and a before-callback returns an error or nil. Calls a callback
makes back into the Dao it was handed are outside this model. -/
structure Hooks where
  before : String → Dao → Model → World → Model × Option GoError
  after : String → Dao → Model → World → Model

/-! ## Primitive effects -/

/-- Append an event to the log. -/
def World.log (w : World) (e : Event) : World := { w with trace := w.trace ++ [e] }

/-- Store `v` into the model `m` points to. -/
def World.setModel (w : World) (m : Ptr) (v : Model) : World :=
  { w with models := Function.update w.models m v }

/-- The method call `m.RefreshId()`; it draws from the random generator. -/
def RefreshId (m : Ptr) (w : World) : World :=
  { w.setModel m ((w.models m).RefreshId w.seed) with seed := w.seed + 1 }

/-- The method call `m.MarkAsNew()`. -/
def MarkAsNew (m : Ptr) (w : World) : World := w.setModel m (w.models m).MarkAsNew

/-- The method call `m.MarkAsNotNew()`. -/
def MarkAsNotNew (m : Ptr) (w : World) : World := w.setModel m (w.models m).MarkAsNotNew

/-- The method call `m.RefreshCreated()`; it reads the clock. -/
def RefreshCreated (m : Ptr) (w : World) : World :=
  w.setModel m ((w.models m).RefreshCreated w.clock)

/-- The method call `m.RefreshUpdated()`; it reads the clock. -/
def RefreshUpdated (m : Ptr) (w : World) : World :=
  w.setModel m ((w.models m).RefreshUpdated w.clock)

/-- Go `time.Sleep(d)`: the clock advances by `d` (not at all when `d <= 0`). -/
def time.Sleep (d : Int) (w : World) : World :=
  ({ w with clock := w.clock + d.toNat }).log (.sleep d)

/-- Calling the function value `f` of a `Before...Func` field with `(eventDao, m)`. -/
def callBefore (env : Hooks) : BeforeFunc → Dao → Ptr → World → Option GoError × World
  | .user name, eventDao, m, w =>
    let w := w.log (.beforeCall (.user name) eventDao m)
    let r := env.before name eventDao (w.models m) w
    (r.2, w.setModel m r.1)
  | .forward f, eventDao, m, w =>
    -- return dao.BeforeCreateFunc(eventDao, m)
    callBefore env f eventDao m (w.log (.beforeCall (.forward f) eventDao m))

/-- Calling the function value `f` of an `After...Func` field with `(eventDao, m)`. -/
def callAfter (env : Hooks) : AfterFunc → Dao → Ptr → World → World
  | .user name, eventDao, m, w =>
    let w := w.log (.afterCall (.user name) eventDao m)
    w.setModel m (env.after name eventDao (w.models m) w)
  | .collect action slot, eventDao, m, w =>
    -- afterCalls = append(afterCalls, afterCallGroup{action, eventDao, m})
    let w := w.log (.afterCall (.collect action slot) eventDao m)
    { w with afterCalls :=
        Function.update w.afterCalls slot (w.afterCalls slot ++ [⟨action, eventDao, m⟩]) }

/-- The guarded call `if f != nil { if err := f(dao, m); err != nil { return err } }`:
the error to return, if any. -/
def runBefore (env : Hooks) (f : Option BeforeFunc) (dao : Dao) (m : Ptr) (w : World) :
    Option GoError × World :=
  match f with
  | some f => callBefore env f dao m w
  | none => (none, w)

/-- The guarded call `if f != nil { f(dao, m) }`. -/
def runAfter (env : Hooks) (f : Option AfterFunc) (dao : Dao) (m : Ptr) (w : World) : World :=
  match f with
  | some f => callAfter env f dao m w
  | none => w

/-! ## The storage engine (`dbx`) -/

/-- The value of the `id` column of a row. -/
def Row.id (r : Row) : Option Value := r.cols.lookup "id"

/-- Whether a row is the row of table `table` with identifier `id`. -/
def Row.is (r : Row) (table id : String) : Bool :=
  r.table == table && r.id == some (Value.str id)

/-- Modelled from the spec: the effect of a successful write on a set of rows
(package `dbx` is missing). An insert adds the row; an update overwrites the given
columns of the rows with that identifier; a delete removes those rows. -/
def applyWrite (kind : WriteKind) (table id : String) (cols : List (String × Value))
    (rows : List Row) : List Row :=
  match kind with
  | .insert => rows ++ [⟨table, cols⟩]
  | .update => rows.map fun r =>
      if r.is table id then
        { r with cols := cols ++ r.cols.filter fun c => !(cols.any fun d => d.1 == c.1) }
      else r
  | .delete => rows.filter fun r => !(r.is table id)

/-- Modelled from the spec: one write issued through a `dbx.Builder` (package `dbx`
is missing). The storage engine may fail any write (`World.faults`), for instance
with the "database is locked" error; a write through a transaction handle changes
the working rows of that transaction and fails once the transaction is over; a
write through a plain handle changes the committed rows. The attempt and its
result are logged. -/
def Builder.exec (db : Builder) (kind : WriteKind) (m : Ptr) (table id : String)
    (cols : List (String × Value)) (w : World) : Option GoError × World :=
  match db with
  | .nil =>
    let e := errors.New "invalid memory address or nil pointer dereference"
    (some e, w.log (.write kind db m (some e)))
  | .DB _ =>
    match w.faults.headD none with
    | some e => (some e, ({ w with faults := w.faults.tail }).log (.write kind db m (some e)))
    | none =>
      (none, ({ w with faults := w.faults.tail
                       store := applyWrite kind table id cols w.store }).log
        (.write kind db m none))
  | .Tx i =>
    if (w.tx.map Prod.fst) = some i then
      match w.faults.headD none with
      | some e => (some e, ({ w with faults := w.faults.tail }).log (.write kind db m (some e)))
      | none =>
        (none, ({ w with faults := w.faults.tail
                         tx := w.tx.map fun (t : Nat × List Row) =>
                           (t.1, applyWrite kind table id cols t.2) }).log
          (.write kind db m none))
    else
      let e := errors.New "sql: transaction has already been committed or rolled back"
      (some e, w.log (.write kind db m (some e)))

/-- Modelled from the spec: `db.Model(m).Insert()`, a full-record insert. -/
def Builder.ModelInsert (db : Builder) (m : Ptr) (w : World) : Option GoError × World :=
  db.exec .insert m (w.models m).TableName (w.models m).GetId (w.models m).record w

/-- Modelled from the spec: `db.Insert(table, dataMap).Execute()`. -/
def Builder.InsertExecute (db : Builder) (m : Ptr) (table : String)
    (dataMap : List (String × Value)) (w : World) : Option GoError × World :=
  db.exec .insert m table (w.models m).GetId dataMap w

/-- Modelled from the spec: `db.Model(m).Update()`, a full-record update of the row
with the model's identifier. -/
def Builder.ModelUpdate (db : Builder) (m : Ptr) (w : World) : Option GoError × World :=
  db.exec .update m (w.models m).TableName (w.models m).GetId (w.models m).record w

/-- Modelled from the spec: `db.Update(table, dataMap, dbx.HashExp{"id": id}).Execute()`. -/
def Builder.UpdateExecute (db : Builder) (m : Ptr) (table : String)
    (dataMap : List (String × Value)) (id : String) (w : World) : Option GoError × World :=
  db.exec .update m table id dataMap w

/-- Modelled from the spec: `db.Model(m).Delete()`, deleting the row with the
model's identifier. -/
def Builder.ModelDelete (db : Builder) (m : Ptr) (w : World) : Option GoError × World :=
  db.exec .delete m (w.models m).TableName (w.models m).GetId [] w

/-- Modelled from the spec: `(*dbx.DB).Transactional(f)`, the callback-style
"run in transaction" primitive (package `dbx` is missing): begin a transaction
over the committed rows, run `f` on its handle, commit when `f` returns nil and
roll back when it returns an error, which is then returned. -/
def Builder.Transactional (_db : Builder) (f : Builder → World → Option GoError × World)
    (w : World) : Option GoError × World :=
  let id := w.txCount
  let w := ({ w with tx := some (id, w.store), txCount := id + 1 }).log (.begin id)
  match f (.Tx id) w with
  | (some err, w) => (some err, ({ w with tx := none }).log (.rollback id))
  | (none, w) =>
    (none, ({ w with store := (w.tx.map Prod.snd).getD w.store, tx := none }).log (.commit id))

/-! ## The Dao operations (`dao/base.go`) -/

/-- The Dao `failRetry` switches to at `attempts == 2` (`base.go:302-305`): same
handles, same after-callbacks, no before-callbacks. -/
def Dao.withoutBeforeHooks (dao : Dao) : Dao :=
  { NewMultiDB dao.concurrentDB dao.nonconcurrentDB with
    AfterCreateFunc := dao.AfterCreateFunc
    AfterUpdateFunc := dao.AfterUpdateFunc
    AfterDeleteFunc := dao.AfterDeleteFunc }

/-- The `Retry:` loop of `failRetry` (`base.go:298-321`), from the label on, with
the loop variables `retryDao` and `attempts`. The first argument bounds the
number of `goto Retry` jumps still possible; `failRetry` starts it at
`maxRetries - 1`, which the test `attempts < maxRetries` never exceeds, so the
`0` branch is not reached (`failRetryLoop_fuel`). Each call of `op` and its result
are logged. `attempts` and the sleep duration are mathematical integers: every
caller passes `DefaultMaxFailRetries = 5`, so `200 * attempts` milliseconds stays
far inside the range of `int64` nanoseconds. -/
def Dao.failRetryLoop (dao : Dao) (op : Dao → World → Option GoError × World)
    (maxRetries : Int) : Nat → Dao → Int → World → Option GoError × World
  | fuel, retryDao, attempts, w =>
    let retryDao := if attempts = 2 then dao.withoutBeforeHooks else retryDao
    -- execute
    match op retryDao (w.log (.opCall attempts retryDao)) with
    | (none, w) => (none, w.log (.opReturn attempts none))
    | (some err, w) =>
      let w := w.log (.opReturn attempts (some err))
      if attempts < maxRetries ∧ strings.Contains err.msg "database is locked" then
        match fuel with
        | 0 => (some err, w)
        | fuel + 1 =>
          -- wait and retry
          Dao.failRetryLoop dao op maxRetries fuel retryDao (attempts + 1)
            (time.Sleep (200 * attempts * time.Millisecond) w)
      else (some err, w)

/-- `Dao.failRetry` (`base.go:294-322`). -/
def Dao.failRetry (dao : Dao) (op : Dao → World → Option GoError × World)
    (maxRetries : Int) (w : World) : Option GoError × World :=
  dao.failRetryLoop op maxRetries (maxRetries - 1).toNat dao 1 w

/-- `Dao.update` (`base.go:203-243`). -/
def Dao.update (env : Hooks) (dao : Dao) (m : Ptr) (w : World) : Option GoError × World :=
  if !(w.models m).HasId then (some (errors.New "ID is not set"), w)
  else
    let w := if (w.models m).GetCreated.IsZero then RefreshCreated m w else w
    let w := RefreshUpdated m w
    match runBefore env dao.BeforeUpdateFunc dao m w with
    | (some err, w) => (some err, w)
    | (none, w) =>
      let r := match (w.models m).columnValueMap with
        | some dataMap =>
          dao.NonconcurrentDB.UpdateExecute m (w.models m).TableName dataMap (w.models m).GetId w
        | none => dao.NonconcurrentDB.ModelUpdate m w
      match r with
      | (some err, w) => (some err, w)
      | (none, w) => (none, runAfter env dao.AfterUpdateFunc dao m w)

/-- `Dao.create` (`base.go:245-292`). -/
def Dao.create (env : Hooks) (dao : Dao) (m : Ptr) (w : World) : Option GoError × World :=
  -- auto generate id
  let w := if !(w.models m).HasId then RefreshId m w else w
  -- mark the model as "new" since the model now always has an ID
  let w := MarkAsNew m w
  let w := if (w.models m).GetCreated.IsZero then RefreshCreated m w else w
  let w := if (w.models m).GetUpdated.IsZero then RefreshUpdated m w else w
  match runBefore env dao.BeforeCreateFunc dao m w with
  | (some err, w) => (some err, w)
  | (none, w) =>
    let r := match (w.models m).columnValueMap with
      | some dataMap =>
        let dataMap :=
          if (dataMap.lookup "id").isNone then dataMap ++ [("id", Value.str (w.models m).GetId)]
          else dataMap
        dao.NonconcurrentDB.InsertExecute m (w.models m).TableName dataMap w
      | none => dao.NonconcurrentDB.ModelInsert m w
    match r with
    | (some err, w) => (some err, w)
    | (none, w) =>
      -- clears the "new" model flag
      let w := MarkAsNotNew m w
      (none, runAfter env dao.AfterCreateFunc dao m w)

/-- The closure `Dao.Delete` passes to `failRetry` (`base.go:171-187`). -/
def Dao.deleteOp (env : Hooks) (m : Ptr) (retryDao : Dao) (w : World) : Option GoError × World :=
  match runBefore env retryDao.BeforeDeleteFunc retryDao m w with
  | (some err, w) => (some err, w)
  | (none, w) =>
    match retryDao.NonconcurrentDB.ModelDelete m w with
    | (some err, w) => (some err, w)
    | (none, w) => (none, runAfter env retryDao.AfterDeleteFunc retryDao m w)

/-- `Dao.Delete` (`base.go:166-188`). -/
def Dao.Delete (env : Hooks) (dao : Dao) (m : Ptr) (w : World) : Option GoError × World :=
  if !(w.models m).HasId then (some (errors.New "ID is not set"), w)
  else dao.failRetry (Dao.deleteOp env m) DefaultMaxFailRetries w

/-- `Dao.Save` (`base.go:191-201`). -/
def Dao.Save (env : Hooks) (dao : Dao) (m : Ptr) (w : World) : Option GoError × World :=
  if (w.models m).IsNew then
    dao.failRetry (fun retryDao => retryDao.create env m) DefaultMaxFailRetries w
  else
    dao.failRetry (fun retryDao => retryDao.update env m) DefaultMaxFailRetries w

/-- The Dao built in the `*dbx.Tx` case of `RunInTransaction` (`base.go:94-100`):
bound to the transaction handle, with the six callbacks of `dao`. -/
def Dao.nestedTxDao (dao : Dao) (txOrDB : Builder) : Dao :=
  { New txOrDB with
    BeforeCreateFunc := dao.BeforeCreateFunc
    BeforeUpdateFunc := dao.BeforeUpdateFunc
    BeforeDeleteFunc := dao.BeforeDeleteFunc
    AfterCreateFunc := dao.AfterCreateFunc
    AfterUpdateFunc := dao.AfterUpdateFunc
    AfterDeleteFunc := dao.AfterDeleteFunc }

/-- The Dao built inside the `Transactional` callback of `RunInTransaction`
(`base.go:107-139`): bound to the new transaction handle; each non-nil
before-callback of `dao` is wrapped in a forwarding closure and each non-nil
after-callback is replaced by a closure that appends to the `afterCalls`
variable `slot`. -/
def Dao.topTxDao (dao : Dao) (slot : Nat) (tx : Builder) : Dao :=
  { New tx with
    BeforeCreateFunc := dao.BeforeCreateFunc.map BeforeFunc.forward
    BeforeUpdateFunc := dao.BeforeUpdateFunc.map BeforeFunc.forward
    BeforeDeleteFunc := dao.BeforeDeleteFunc.map BeforeFunc.forward
    AfterCreateFunc := dao.AfterCreateFunc.map fun _ => AfterFunc.collect "create" slot
    AfterUpdateFunc := dao.AfterUpdateFunc.map fun _ => AfterFunc.collect "update" slot
    AfterDeleteFunc := dao.AfterDeleteFunc.map fun _ => AfterFunc.collect "delete" slot }

/-- The replay loop of `RunInTransaction` (`base.go:147-156`). Calling a nil
function panics in Go; `runAfter` leaves the world as it is in that case, which
the collecting closures rule out (a group is recorded only for a non-nil
callback). -/
def Dao.replayAfterCalls (env : Hooks) (dao : Dao) : List afterCallGroup → World → World
  | [], w => w
  | call :: rest, w =>
    let w :=
      if call.Action = "create" then runAfter env dao.AfterCreateFunc dao call.Model w
      else if call.Action = "update" then runAfter env dao.AfterUpdateFunc dao call.Model w
      else if call.Action = "delete" then runAfter env dao.AfterDeleteFunc dao call.Model w
      else w
    Dao.replayAfterCalls env dao rest w

/-- `Dao.RunInTransaction` (`base.go:87-163`). -/
def Dao.RunInTransaction (env : Hooks) (dao : Dao) (fn : Dao → World → Option GoError × World)
    (w : World) : Option GoError × World :=
  match dao.NonconcurrentDB with
  | .Tx id =>
    -- nested transactions are not supported by default
    -- so execute the function within the current transaction
    fn (dao.nestedTxDao (.Tx id)) w
  | .DB conn =>
    -- afterCalls := []afterCallGroup{}
    let slot := w.nextSlot
    let w := { w with afterCalls := Function.update w.afterCalls slot [], nextSlot := slot + 1 }
    match (Builder.DB conn).Transactional (fun tx => fn (dao.topTxDao slot tx)) w with
    | (none, w) =>
      -- execute after event calls on successful transaction
      (none, dao.replayAfterCalls env (w.afterCalls slot) w)
    | (some txError, w) => (some txError, w)
  | .nil =>
    (some (errors.New "failed to start transaction (unknown dao.NonconcurrentDB() instance)"), w)

/-! ## Transaction bodies -/

/-- The code of a function `fn func(txDao *Dao) error` handed to `RunInTransaction`,
as far as it uses the Dao it is given: it returns, or it calls `Save`, `Delete`
or `RunInTransaction` on that Dao and goes on depending on the result and on
what it reads from the world. `RunInTransaction` itself takes any state-passing
function; the statements about what happens inside a body are about bodies of
this form. -/
inductive Script where
  | ret (err : Option GoError)
  | save (m : Ptr) (next : Option GoError → World → Script)
  | delete (m : Ptr) (next : Option GoError → World → Script)
  | runInTransaction (inner : Script) (next : Option GoError → World → Script)

/-- Running a transaction body on the Dao it is given. -/
def Script.run (env : Hooks) : Script → Dao → World → Option GoError × World
  | .ret err, _, w => (err, w)
  | .save m next, txDao, w =>
    let r := txDao.Save env m w
    (next r.1 r.2).run env txDao r.2
  | .delete m next, txDao, w =>
    let r := txDao.Delete env m w
    (next r.1 r.2).run env txDao r.2
  | .runInTransaction inner next, txDao, w =>
    let r := txDao.RunInTransaction env (fun innerDao => inner.run env innerDao) w
    (next r.1 r.2).run env txDao r.2

/-! ## Vocabulary of the statements and sample inputs -/

def Event.isRetryEvent : Event → Bool
  | .opCall _ _ => true
  | .opReturn _ _ => true
  | .sleep _ => true
  | _ => false

/-- The calls of `op`, their returns and the sleeps in a stretch of the log. -/
def retryLog (evs : List Event) : List Event := evs.filter Event.isRetryEvent

/-- The error test of `failRetry` (`base.go:314`): the message contains
"database is locked". -/
def isLocked (e : GoError) : Bool := strings.Contains e.msg "database is locked"

/-- An `op` that leaves the log it finds in place and adds no call, return or sleep
event of its own: it does not go through `failRetry` itself. The closures `Save` and
`Delete` pass are of this kind (`attempt_quiet`). -/
def QuietOp (op : Dao → World → Option GoError × World) : Prop :=
  ∀ d w, ∃ evs, (op d w).2.trace = w.trace ++ evs ∧ retryLog evs = []

/-- The calls, returns and sleeps `failRetry` logs from attempt `a` on when the
attempts that were retried failed with `errs` and the last attempt returned `res`. -/
def retrySkeleton (dao : Dao) (res : Option GoError) : Dao → Int → List GoError → List Event
  | retryDao, a, [] =>
    [.opCall a (if a = 2 then dao.withoutBeforeHooks else retryDao), .opReturn a res]
  | retryDao, a, e :: es =>
    [.opCall a (if a = 2 then dao.withoutBeforeHooks else retryDao), .opReturn a (some e),
      .sleep (200 * a * time.Millisecond)] ++
      retrySkeleton dao res (if a = 2 then dao.withoutBeforeHooks else retryDao) (a + 1) es

/-- The before-callback of a Dao for a kind of write. -/
def Dao.beforeFor (dao : Dao) : WriteKind → Option BeforeFunc
  | .insert => dao.BeforeCreateFunc
  | .update => dao.BeforeUpdateFunc
  | .delete => dao.BeforeDeleteFunc

/-- The after-callback of a Dao for a kind of write. -/
def Dao.afterFor (dao : Dao) : WriteKind → Option AfterFunc
  | .insert => dao.AfterCreateFunc
  | .update => dao.AfterUpdateFunc
  | .delete => dao.AfterDeleteFunc

/-- The closure handed to `failRetry` for each kind of write. -/
def attempt (env : Hooks) (kind : WriteKind) (m : Ptr) (retryDao : Dao) (w : World) :
    Option GoError × World :=
  match kind with
  | .insert => retryDao.create env m w
  | .update => retryDao.update env m w
  | .delete => Dao.deleteOp env m retryDao w

/-- Whether the attempt stops at its identifier check (`base.go:204-206`). -/
def guardFails (kind : WriteKind) (m : Ptr) (w : World) : Bool :=
  match kind with
  | .update => !(w.models m).HasId
  | _ => false

/-- What an attempt does to the model before it calls the before-callback
(`base.go:246-260` for an insert, `base.go:208-212` for an update). -/
def prelude (kind : WriteKind) (m : Ptr) (w : World) : World :=
  match kind with
  | .insert =>
    let w := if !(w.models m).HasId then RefreshId m w else w
    let w := MarkAsNew m w
    let w := if (w.models m).GetCreated.IsZero then RefreshCreated m w else w
    if (w.models m).GetUpdated.IsZero then RefreshUpdated m w else w
  | .update =>
    let w := if (w.models m).GetCreated.IsZero then RefreshCreated m w else w
    RefreshUpdated m w
  | .delete => w

/-- The storage write of an attempt (`base.go:268-282`, `220-236`, `178`). -/
def opWrite (kind : WriteKind) (dao : Dao) (m : Ptr) (w : World) : Option GoError × World :=
  match kind with
  | .insert =>
    match (w.models m).columnValueMap with
    | some dataMap =>
      dao.NonconcurrentDB.InsertExecute m (w.models m).TableName
        (if (dataMap.lookup "id").isNone then dataMap ++ [("id", Value.str (w.models m).GetId)]
          else dataMap) w
    | none => dao.NonconcurrentDB.ModelInsert m w
  | .update =>
    match (w.models m).columnValueMap with
    | some dataMap =>
      dao.NonconcurrentDB.UpdateExecute m (w.models m).TableName dataMap (w.models m).GetId w
    | none => dao.NonconcurrentDB.ModelUpdate m w
  | .delete => dao.NonconcurrentDB.ModelDelete m w

/-- What an attempt does to the model after a successful write (`base.go:285`). -/
def postWrite (kind : WriteKind) (m : Ptr) (w : World) : World :=
  match kind with
  | .insert => MarkAsNotNew m w
  | _ => w

/-- The events one call of a before-callback logs. -/
def beforeChain : BeforeFunc → Dao → Ptr → List Event
  | .user name, d, m => [.beforeCall (.user name) d m]
  | .forward f, d, m => .beforeCall (.forward f) d m :: beforeChain f d m

/-- The events the guarded call of a before-callback logs. -/
def beforeEvents (f : Option BeforeFunc) (d : Dao) (m : Ptr) : List Event :=
  match f with
  | some f => beforeChain f d m
  | none => []

/-- The events the guarded call of an after-callback logs. -/
def afterEvents (f : Option AfterFunc) (d : Dao) (m : Ptr) : List Event :=
  match f with
  | some f => [.afterCall f d m]
  | none => []

/-- Whether writes through a handle reach the storage engine: a plain handle, or
the handle of the transaction that is open. -/
def Builder.usable (db : Builder) (w : World) : Bool :=
  match db with
  | .DB _ => true
  | .Tx i => w.tx.map Prod.fst = some i
  | .nil => false

/-- What an after-callback does to the captured `afterCalls` slices. -/
def collectInto (f : Option AfterFunc) (d : Dao) (m : Ptr)
    (slots : Nat → List afterCallGroup) : Nat → List afterCallGroup :=
  match f with
  | some (.collect action slot) => Function.update slots slot (slots slot ++ [⟨action, d, m⟩])
  | _ => slots

/-- Whether an event is a call of `op` made by `failRetry`. -/
def Event.isOpCall : Event → Bool
  | .opCall _ _ => true
  | _ => false

/-- How many times `failRetry` called `op` in a stretch of the log. -/
def opCalls (evs : List Event) : Nat := (evs.filter Event.isOpCall).length

/-- The durations of the `time.Sleep` calls in a stretch of the log, in order. -/
def sleepsOf (evs : List Event) : List Int :=
  evs.filterMap fun e => match e with
    | .sleep d => some d
    | _ => none

/-- The linear backoff: `n` sleeps, the first after attempt `a`. -/
def backoffs : Int → Nat → List Int
  | _, 0 => []
  | a, n + 1 => 200 * a * time.Millisecond :: backoffs (a + 1) n

/-- Which write `Save` issues for a model. -/
def saveKind (mv : Model) : WriteKind := if mv.IsNew then .insert else .update

/-- A sample model: a new `Param` record without identifier. -/
def sampleModel : Model := ⟨"params", "", true, none, none, none, []⟩

/-- Sample callbacks: no before-callback aborts, no callback changes the model. -/
def sampleHooks : Hooks := ⟨fun _ _ mv _ => (mv, none), fun _ _ mv _ => mv⟩

/-- A sample world: an empty database, no open transaction, a storage engine that
fails no write. -/
def sampleWorld : World :=
  { models := fun _ => sampleModel
    store := []
    tx := none
    txCount := 0
    faults := []
    afterCalls := fun _ => []
    nextSlot := 0
    clock := 1000
    seed := 7
    trace := []
    queryFaults := []
    nextPtr := 100
    dials := []
    nextConn := 2 }

/-- A sample application Dao: two plain handles and all six callbacks set. -/
def sampleDao : Dao :=
  { concurrentDB := .DB 0
    nonconcurrentDB := .DB 1
    BeforeCreateFunc := some (.user "beforeCreate")
    AfterCreateFunc := some (.user "afterCreate")
    BeforeUpdateFunc := some (.user "beforeUpdate")
    AfterUpdateFunc := some (.user "afterUpdate")
    BeforeDeleteFunc := some (.user "beforeDelete")
    AfterDeleteFunc := some (.user "afterDelete") }

/-- The lock-contention error of the storage engine. -/
def lockedError : GoError := errors.New "database is locked"

/-- A permanent storage error. -/
def constraintError : GoError := errors.New "UNIQUE constraint failed: params.key"

/-- The events of a stretch of the log that are not calls, returns or sleeps of
`failRetry`: callback invocations, storage writes, transaction boundaries. -/
def hookLog (evs : List Event) : List Event := evs.filter fun e => !e.isRetryEvent

/-- Whether an event is a storage write. -/
def Event.isWrite : Event → Bool
  | .write _ _ _ _ => true
  | _ => false

/-- Whether an event is a storage write that succeeded. -/
def Event.isOkWrite : Event → Bool
  | .write _ _ _ none => true
  | _ => false

/-- Whether an event is the invocation of an after-callback. -/
def Event.isAfterCall : Event → Bool
  | .afterCall _ _ _ => true
  | _ => false

/-- Whether an event is an invocation of the before-callback `f`. -/
def Event.isBeforeCallOf (f : BeforeFunc) : Event → Bool
  | .beforeCall g _ _ => decide (g = f)
  | _ => false

/-- Whether an event is an invocation of the after-callback `g`. -/
def Event.isAfterCallOf (g : AfterFunc) : Event → Bool
  | .afterCall f _ _ => decide (f = g)
  | _ => false

/-- The result of the before-callback in the first attempt of an operation that
issues a write of kind `kind`. -/
def firstBeforeResult (env : Hooks) (dao : Dao) (kind : WriteKind) (m : Ptr) (w : World) :
    Option GoError :=
  (runBefore env (dao.beforeFor kind) dao m (prelude kind m (w.log (.opCall 1 dao)))).1

/-- The Dao operation that issues a write of kind `kind`: `Delete` for a delete,
`Save` for an insert or an update. -/
def Dao.perform (env : Hooks) (dao : Dao) (kind : WriteKind) (m : Ptr) (w : World) :
    Option GoError × World :=
  match kind with
  | .delete => dao.Delete env m w
  | _ => dao.Save env m w

/-- How deeply a before-callback is wrapped in forwarding closures. -/
def BeforeFunc.depth : BeforeFunc → Nat
  | .user _ => 0
  | .forward f => f.depth + 1

/-- A sample model that was saved before: it has an identifier and is not new. -/
def storedModel : Model :=
  ⟨"params", "abcdefghijklmno", false, some 500, some 500, none, [("key", .str "settings")]⟩

/-- Sample callbacks whose before-callbacks all return the error `e`. -/
def abortingHooks (e : GoError) : Hooks := ⟨fun _ _ mv _ => (mv, some e), fun _ _ mv _ => mv⟩

/-- Whether an event is a transaction boundary. -/
def Event.isTxBoundary : Event → Bool
  | .begin _ => true
  | .commit _ => true
  | .rollback _ => true
  | _ => false

/-- The storage writes that succeeded in a stretch of the log, in order: their
kind and the model written. -/
def okWrites (evs : List Event) : List (WriteKind × Ptr) :=
  evs.filterMap fun e => match e with
    | .write kind _ m none => some (kind, m)
    | _ => none

/-- The groups the collecting closures of the `afterCalls` variable `slot` recorded
in a stretch of the log, in order. -/
def collected (slot : Nat) (evs : List Event) : List afterCallGroup :=
  evs.filterMap fun e => match e with
    | .afterCall (.collect action s) d m => if s = slot then some ⟨action, d, m⟩ else none
    | _ => none

/-- The callback the replay loop of `RunInTransaction` calls for a recorded action
(`base.go:148-155`). -/
def Dao.afterForAction (dao : Dao) (action : String) : Option AfterFunc :=
  if action = "create" then dao.AfterCreateFunc
  else if action = "update" then dao.AfterUpdateFunc
  else if action = "delete" then dao.AfterDeleteFunc
  else none

/-- The after-callback invocations the replay loop logs for the recorded groups. -/
def replayEvents (dao : Dao) (calls : List afterCallGroup) : List Event :=
  calls.flatMap fun g => afterEvents (dao.afterForAction g.Action) dao g.Model

/-- The after-callback invocations owed to the successful writes of a transaction
body: for each one, in order, the Dao's own callback for that kind of write (if it
is set), called with the Dao itself. -/
def owedAfterCalls (dao : Dao) (evs : List Event) : List Event :=
  (okWrites evs).flatMap fun p => afterEvents (dao.afterFor p.1) dao p.2

/-- A Dao as the body of a top-level `RunInTransaction` of `dao` sees it: bound to
the transaction handle `tx`, its after-callbacks the closures collecting into
`slot` (where `dao` has a callback). -/
def IsBodyDao (dao : Dao) (slot tx : Nat) (d : Dao) : Prop :=
  d.nonconcurrentDB = .Tx tx ∧
  ∀ kind, d.afterFor kind = (dao.afterFor kind).map fun _ => AfterFunc.collect kind.action slot

/-- What a stretch of the log of a transaction body looks like: every after-callback
invoked is a collecting closure of `slot`, the groups collected are those the
successful writes owe, and no transaction begins or ends. -/
def GoodBody (dao : Dao) (slot : Nat) (evs : List Event) : Prop :=
  (∀ f d m, Event.afterCall f d m ∈ evs → ∃ action, f = .collect action slot) ∧
  replayEvents dao (collected slot evs) = owedAfterCalls dao evs ∧
  (∀ ev ∈ evs, ev.isTxBoundary = false)

/-- How the world changes while a transaction body runs. -/
def BodyStep (dao : Dao) (slot : Nat) (w v : World) : Prop :=
  v.store = w.store ∧ v.nextSlot = w.nextSlot ∧ v.txCount = w.txCount ∧
  v.tx.map Prod.fst = w.tx.map Prod.fst ∧
  ∃ evs, v.trace = w.trace ++ evs ∧ GoodBody dao slot evs ∧
    v.afterCalls slot = w.afterCalls slot ++ collected slot evs

/-- The world in which the body of a top-level `RunInTransaction` starts
(`base.go:104-107`): a fresh `afterCalls` variable is allocated and a transaction
over the committed rows is begun. -/
def txStart (w : World) : World :=
  ({ w with afterCalls := Function.update w.afterCalls w.nextSlot []
            nextSlot := w.nextSlot + 1
            tx := some (w.txCount, w.store)
            txCount := w.txCount + 1 }).log (.begin w.txCount)

/-- A body that saves the model at pointer 0 and returns the result. -/
def saveBody : Script := .save 0 fun r _ => .ret r

/-- A body that saves the model at pointer 0 and then fails. -/
def failingBody : Script := .save 0 fun _ _ => .ret (some constraintError)

/-- A body that saves, runs `failingBody` in a nested `RunInTransaction` and returns
the result of the nested call. -/
def propagatingBody : Script :=
  .save 1 fun _ _ => .runInTransaction failingBody fun r _ => .ret r

/-- A body that saves, runs `failingBody` in a nested `RunInTransaction`, ignores
its error and returns nil. -/
def swallowingBody : Script :=
  .save 1 fun _ _ => .runInTransaction failingBody fun _ _ => .ret none

/-- A sample Dao bound to the transaction handle 0, with application callbacks. -/
def sampleTxDao : Dao := { sampleDao with concurrentDB := .Tx 0, nonconcurrentDB := .Tx 0 }

/-- A body that runs `saveBody` in a nested `RunInTransaction` and returns its result. -/
def nestedSaveBody : Script := .runInTransaction saveBody fun r _ => .ret r

/-- The callbacks leave a feature `proj` of the model they are handed as it is. -/
def HooksKeep {α : Type} (env : Hooks) (proj : Model → α) : Prop :=
  ∀ name d mv v, proj (env.before name d mv v).1 = proj mv ∧ proj (env.after name d mv v) = proj mv

/-- What the steps of an attempt before the before-callback make of the model:
`prelude` on the model alone, given the generator state and the clock. -/
def preludeModel (kind : WriteKind) (mv : Model) (seed clock : Nat) : Model :=
  match kind with
  | .insert =>
    let a := if !mv.HasId then mv.RefreshId seed else mv
    let b := a.MarkAsNew
    let c := if b.GetCreated.IsZero then b.RefreshCreated clock else b
    if c.GetUpdated.IsZero then c.RefreshUpdated clock else c
  | .update =>
    let a := if mv.GetCreated.IsZero then mv.RefreshCreated clock else mv
    a.RefreshUpdated clock
  | .delete => mv

/-- What a successful write makes of the model (`base.go:285`). -/
def postModel (kind : WriteKind) (mv : Model) : Model :=
  match kind with
  | .insert => mv.MarkAsNotNew
  | _ => mv

/-- The sample world with the stored model at every pointer. -/
def storedWorld : World := { sampleWorld with models := fun _ => storedModel }

/-- The stored model with an `updated` timestamp and the new flag set: what a caller
builds when it fills the timestamps itself before the first `Save`. -/
def presetModel : Model := { storedModel with isNew := true, Updated := some 5 }

/-- The sample world with the preset model at every pointer. -/
def presetWorld : World := { sampleWorld with models := fun _ => presetModel }

/-! ## Read queries (`dbx.SelectQuery`) -/

/-- Go `sql.ErrNoRows`, the package-level value
`errors.New("sql: no rows in result set")` of `database/sql`. An error with the
same message that is not this value is not equal to it. -/
def sql.ErrNoRows : GoError := ⟨"sql: no rows in result set", some "sql.ErrNoRows"⟩

/-- The Go run-time error of a method call through a nil pointer, as an error value. -/
def nilDereference : GoError := errors.New "invalid memory address or nil pointer dereference"

/-- The composite literal `&T{...}`: a new object on the Go heap. -/
def World.alloc (w : World) (v : Model) : Ptr × World :=
  (w.nextPtr, { w.setModel w.nextPtr v with nextPtr := w.nextPtr + 1 })

/-- Modelled from the spec: a `dbx.SelectQuery` (package `dbx` is missing): the
handle it runs on, the selected columns, the table, the `dbx.HashExp` conditions
joined by AND, and the limit. -/
structure SelectQuery where
  db : Builder
  selects : List String
  table : String
  conds : List (String × Value)
  limit : Option Nat
deriving DecidableEq, Repr

/-- Modelled from the spec: `db.Select(cols...)`. -/
def Builder.Select (db : Builder) (cols : List String) : SelectQuery :=
  { db := db, selects := cols, table := "", conds := [], limit := none }

/-- Modelled from the spec: `q.Select(cols...)`, which replaces the selection. -/
def SelectQuery.Select (q : SelectQuery) (cols : List String) : SelectQuery :=
  { q with selects := cols }

/-- Modelled from the spec: `q.From(table)`. -/
def SelectQuery.From (q : SelectQuery) (table : String) : SelectQuery :=
  { q with table := table }

/-- Modelled from the spec: `q.AndWhere(dbx.HashExp{col: v})`. -/
def SelectQuery.AndWhere (q : SelectQuery) (cond : String × Value) : SelectQuery :=
  { q with conds := q.conds ++ [cond] }

/-- Modelled from the spec: `q.Limit(n)`. -/
def SelectQuery.Limit (q : SelectQuery) (n : Nat) : SelectQuery :=
  { q with limit := some n }

/-- Whether a row belongs to the table of the query and meets all its conditions. -/
def SelectQuery.selectsRow (q : SelectQuery) (r : Row) : Bool :=
  r.table == q.table && q.conds.all fun c => r.cols.lookup c.1 == some c.2

/-- Modelled from the spec: the rows a read through a handle sees (package `dbx`
is missing): the committed rows through a plain handle, the working rows of the
open transaction through its handle, nothing through a nil handle or the handle of
a transaction that is over. -/
def Builder.rows (db : Builder) (w : World) : Option (List Row) :=
  match db with
  | .nil => none
  | .DB _ => some w.store
  | .Tx i => if w.tx.map Prod.fst = some i then w.tx.map Prod.snd else none

/-- Modelled from the spec: running a read query (package `dbx` is missing). The
storage engine may fail any query (`World.queryFaults`); otherwise the answer is
the rows the handle sees that the query selects, in stored order. -/
def SelectQuery.run (q : SelectQuery) (w : World) : (List Row × Option GoError) × World :=
  match q.db.rows w with
  | none =>
    (([], some (if q.db = .nil then nilDereference
      else errors.New "sql: transaction has already been committed or rolled back")), w)
  | some rows =>
    match w.queryFaults.headD none with
    | some e => (([], some e), { w with queryFaults := w.queryFaults.tail })
    | none => ((rows.filter q.selectsRow, none), { w with queryFaults := w.queryFaults.tail })

/-- Modelled from the spec: populating the fields of a model from the columns of a
row, by column name. The new flag is not a column and is left as it is. -/
def Model.scan (mv : Model) (cols : List (String × Value)) : Model :=
  { mv with
    Id := match cols.lookup "id" with
      | some (.str s) => s
      | _ => mv.Id
    Created := match cols.lookup "created" with
      | some (.time t) => t
      | _ => mv.Created
    Updated := match cols.lookup "updated" with
      | some (.time t) => t
      | _ => mv.Updated
    fields := mv.fields.map fun f => (f.1, (cols.lookup f.1).getD f.2) }

/-- Modelled from the spec: `q.One(m)`, which scans the first row of the answer
into `m` and returns `sql.ErrNoRows` when the answer is empty. -/
def SelectQuery.One (q : SelectQuery) (m : Ptr) (w : World) : Option GoError × World :=
  match q.run w with
  | ((_, some err), w) => (some err, w)
  | (([], none), w) => (some sql.ErrNoRows, w)
  | ((r :: _, none), w) => (none, w.setModel m ((w.models m).scan r.cols))

/-- Modelled from the spec: `q.Row(&total)` for a `count(*)` selection, the only use
the Dao makes of `Row`: the number of rows the query selects; `total` keeps its
zero value when the query fails. -/
def SelectQuery.Row (q : SelectQuery) (w : World) : (Int × Option GoError) × World :=
  match q.run w with
  | ((_, some err), w) => ((0, some err), w)
  | ((rows, none), w) => ((rows.length, none), w)

/-! ## Users, params and settings (`dao/user.go`, `dao/param.go`, `dao/settings.go`) -/

/-- The zero value `model.User{}` (`model/user.go:11-20`); a model is new when
constructed. -/
def model.User : Model :=
  { tableName := "users"
    Id := ""
    isNew := true
    Created := none
    Updated := none
    columnValueMap := none
    fields := [("email", .str ""), ("tokenKey", .str ""), ("passwordHash", .str ""),
      ("isAdmin", .bool false), ("isSuperadmin", .bool false),
      ("lastResetSentAt", .time none)] }

/-- The literal `model.Param{Key: key}` (`model/param.go:11-16`); a model is new when
constructed. -/
def model.Param (key : String) : Model :=
  { tableName := "params"
    Id := ""
    isNew := true
    Created := none
    Updated := none
    columnValueMap := none
    fields := [("key", .str key), ("value", .str "")] }

/-- The constant `model.ParamAppSettings` (`model/param.go:8`). -/
def model.ParamAppSettings : String := "settings"

/-- A string field of a model; the zero value when there is none. -/
def Model.stringField (m : Model) (name : String) : String :=
  match m.fields.lookup name with
  | some (.str s) => s
  | _ => ""

/-- The field `TokenKey` of a `model.User`. -/
def Model.TokenKey (m : Model) : String := m.stringField "tokenKey"

/-- The field `Value` of a `model.Param`, the JSON text. -/
def Model.Value (m : Model) : String := m.stringField "value"

/-- The assignment `param.Value = v`. -/
def Model.setValue (m : Model) (v : String) : Model :=
  { m with fields := m.fields.map fun f => if f.1 = "value" then (f.1, Value.str v) else f }

/-- `Dao.ModelQuery` (`base.go:67-70`). -/
def Dao.ModelQuery (dao : Dao) (m : Model) : SelectQuery :=
  let tableName := m.TableName
  (dao.DB.Select ["\x7b\x7b" ++ tableName ++ "\x7d\x7d.*"]).From tableName

/-- `Dao.UserQuery` (`user.go:13-15`). -/
def Dao.UserQuery (dao : Dao) : SelectQuery := dao.ModelQuery model.User

/-- `Dao.ParamQuery` (`param.go:10-12`). -/
def Dao.ParamQuery (dao : Dao) : SelectQuery := dao.ModelQuery (model.Param "")

/-- `Dao.FindUserById` (`user.go:18-33`). A `*model.User` result is `none` when nil. -/
def Dao.FindUserById (dao : Dao) (id : String) (w : World) :
    (Option Ptr × Option GoError) × World :=
  match w.alloc model.User with
  | (model, w) =>
    match ((dao.UserQuery.AndWhere ("id", .str id)).Limit 1).One model w with
    | (some err, w) => ((none, some err), w)
    | (none, w) => ((some model, none), MarkAsNotNew model w)

/-- `Dao.TotalUsers` (`user.go:87-93`). -/
def Dao.TotalUsers (dao : Dao) (w : World) : (Int × Option GoError) × World :=
  (dao.UserQuery.Select ["count(*)"]).Row w

/-- `Dao.DeleteUser` (`user.go:118-129`). -/
def Dao.DeleteUser (env : Hooks) (dao : Dao) (user : Ptr) (w : World) :
    Option GoError × World :=
  match dao.TotalUsers w with
  | ((_, some err), w) => (some err, w)
  | ((total, none), w) =>
    if total = 1 then (some (errors.New "you cannot delete the only existing user"), w)
    else dao.Delete env user w

/-- A value of a JWT claim. -/
inductive ClaimValue where
  | str (s : String)
  | num (n : Int)
deriving DecidableEq, Repr

/-- Go `jwt.MapClaims`, a map from claim names to values. -/
abbrev jwt.MapClaims := List (String × ClaimValue)

/-- The type assertion `s, _ := claims[key].(string)`: the zero value when the claim
is absent or not a string. -/
def jwt.MapClaims.stringAt (claims : jwt.MapClaims) (key : String) : String :=
  match claims.lookup key with
  | some (.str s) => s
  | _ => ""

/-- Modelled from the spec: the JWT functions of package `tools/security`, which is
missing; section 1 of the spec treats token signing as an opaque capability.
`ParseUnverifiedJWT(token)` reads the claims without checking the signature,
`ParseJWT(token, key)` checks signature and expiry, `NewToken(claims, key, duration)`
issues a token. -/
structure security.Jwt where
  ParseUnverifiedJWT : String → jwt.MapClaims × Option GoError
  ParseJWT : String → String → jwt.MapClaims × Option GoError
  NewToken : jwt.MapClaims → String → Int → String × Option GoError

/-- `Dao.FindUserByToken` (`user.go:56-84`). -/
def Dao.FindUserByToken (sec : security.Jwt) (dao : Dao) (token baseTokenKey : String)
    (w : World) : (Option Ptr × Option GoError) × World :=
  match sec.ParseUnverifiedJWT token with
  | (_, some err) => ((none, some err), w)
  | (unverifiedClaims, none) =>
    -- check required claims
    let id := unverifiedClaims.stringAt "id"
    if id = "" then ((none, some (errors.New "missing or invalid token claims")), w)
    else
      match dao.FindUserById id w with
      | ((_, some err), w) => ((none, some err), w)
      | ((none, none), w) => ((none, none), w)
      | ((some user, none), w) =>
        let verificationKey := (w.models user).TokenKey ++ baseTokenKey
        -- verify token signature
        match (sec.ParseJWT token verificationKey).2 with
        | some err => ((none, some err), w)
        | none => ((some user, none), MarkAsNotNew user w)

/-- `Dao.FindParamByKey` (`param.go:15-29`). -/
def Dao.FindParamByKey (dao : Dao) (key : String) (w : World) :
    (Option Ptr × Option GoError) × World :=
  match w.alloc (model.Param "") with
  | (param, w) =>
    match ((dao.ParamQuery.AndWhere ("key", .str key)).Limit 1).One param w with
    | (some err, w) => ((none, some err), w)
    | (none, w) => ((some param, none), w)

/-- Modelled from the spec: a token configuration of the settings (package
`model/settings` is missing). -/
structure settings.TokenConfig where
  Secret : String
  Duration : Int
deriving DecidableEq, Repr

/-- Modelled from the spec: `settings.Settings` (package `model/settings` is
missing); of its fields the token configurations the embedded code reads are kept,
the others are `other`. -/
structure settings.Settings where
  UserAuthToken : settings.TokenConfig
  UserPasswordResetToken : settings.TokenConfig
  other : List (String × String)
deriving DecidableEq, Repr

/-- Modelled from the spec: the functions on settings of the missing packages
`model/settings`, `tools/types` and `encoding/json`. `New()` are the default
settings; `Merge(s, other)` is `s.Merge(other)`, giving the new value of `s`;
`Unmarshal(data, s)` is `json.Unmarshal(data, s)`, giving the new value of `s`;
`Scan(v)` is `types.JsonRaw.Scan(v)`, the JSON text of `v`. -/
structure settings.Lib where
  New : settings.Settings
  Merge : settings.Settings → settings.Settings → settings.Settings × Option GoError
  Unmarshal : String → settings.Settings → settings.Settings × Option GoError
  Scan : settings.Settings → String × Option GoError

/-- `Dao.SaveParam` (`param.go:33-48`), for a settings value. -/
def Dao.SaveParam (env : Hooks) (lib : settings.Lib) (dao : Dao) (key : String)
    (value : settings.Settings) (w : World) : Option GoError × World :=
  match dao.FindParamByKey key w with
  | ((found, _), w) =>
    match (match found with
      | some param => (param, w)
      | none => w.alloc (model.Param key)) with
    | (param, w) =>
      match lib.Scan value with
      | (_, some err) => (some err, w)
      | (encodedValue, none) =>
        dao.Save env param (w.setModel param ((w.models param).setValue encodedValue))

/-- `Dao.FindSettings` (`settings.go:14-27`). -/
def Dao.FindSettings (lib : settings.Lib) (d : Dao) (w : World) :
    (Option settings.Settings × Option GoError) × World :=
  match d.FindParamByKey model.ParamAppSettings w with
  | ((_, some err), w) => ((none, some err), w)
  | ((none, none), w) => ((none, some nilDereference), w)
  | ((some param, none), w) =>
    match lib.Unmarshal (w.models param).Value lib.New with
    | (_, some _) => ((none, some (errors.New "failed to load the stored app settings")), w)
    | (result, none) => ((some result, none), w)

/-- `Dao.SaveSettings` (`settings.go:30-32`). -/
def Dao.SaveSettings (env : Hooks) (lib : settings.Lib) (dao : Dao)
    (newSettings : settings.Settings) (w : World) : Option GoError × World :=
  dao.SaveParam env lib model.ParamAppSettings newSettings w

/-! ## The application (`core/base.go`, `tokens/user.go`) -/

/-- The `BaseApp` struct (`core/base.go:27-60`): the configuration, the loaded
settings and the Dao; a nil pointer is `none`. The event hooks of the app take the
app as an argument and are kept apart, in `AppHooks`; the cache is left out. -/
structure BaseApp where
  isDebug : Bool
  databaseUrl : String
  dataMaxOpenConns : Int
  dataMaxIdleConns : Int
  settings : Option settings.Settings
  dao : Option Dao

/-- `BaseApp.Dao` (`core/base.go:185-187`). -/
def BaseApp.Dao (app : BaseApp) : Option Dao := app.dao

/-- `BaseApp.Settings` (`core/base.go:196-198`). -/
def BaseApp.Settings (app : BaseApp) : Option settings.Settings := app.settings

/-- `BaseApp.RefreshSettings` (`core/base.go:244-265`); the result is the error, the
app after the call and the world after the call. A call through a nil Dao is a
run-time error. The test `err != sql.ErrNoRows` compares the error value with the
sentinel itself, not the messages. -/
def BaseApp.RefreshSettings (env : Hooks) (lib : settings.Lib) (app : BaseApp) (w : World) :
    Option GoError × BaseApp × World :=
  let current := app.settings.getD lib.New
  let app := { app with settings := some current }
  match app.Dao with
  | none => (some nilDereference, app, w)
  | some dao =>
    match dao.FindSettings lib w with
    | ((storedSettings, err), w) =>
      if err ≠ none ∧ err ≠ some sql.ErrNoRows then (err, app, w)
      else
        match storedSettings with
        | none =>
          -- no settings were previously stored
          match dao.SaveSettings env lib current w with
          | (r, w) => (r, app, w)
        | some storedSettings =>
          -- load the settings from the stored param into the app ones
          match lib.Merge current storedSettings with
          | (merged, some err) => (some err, { app with settings := some merged }, w)
          | (merged, none) => (none, { app with settings := some merged }, w)

/-- Modelled from the spec: the constant `tokens.TypeUser`, whose declaration is
missing. -/
def tokens.TypeUser : String := "user"

/-- `NewUserAuthToken` (`tokens/user.go:11-17`). Reading the settings of an app
that has none is a run-time error. -/
def tokens.NewUserAuthToken (sec : security.Jwt) (app : BaseApp) (user : Model) :
    String × Option GoError :=
  match app.Settings with
  | none => ("", some nilDereference)
  | some s =>
    sec.NewToken [("id", .str user.Id), ("type", .str tokens.TypeUser)]
      (user.TokenKey ++ s.UserAuthToken.Secret) s.UserAuthToken.Duration

/-- The user records among some rows. -/
def userRows (rows : List Row) : List Row := rows.filter fun r => r.table == "users"

/-- What a read leaves alone: the database, the pending answers to writes, the
log, the captured slices, the clock and the random generator. A read may allocate
models and uses up an answer to a query. -/
def ReadOnly (w v : World) : Prop :=
  v.store = w.store ∧ v.tx = w.tx ∧ v.txCount = w.txCount ∧ v.faults = w.faults ∧
  v.trace = w.trace ∧ v.afterCalls = w.afterCalls ∧ v.nextSlot = w.nextSlot ∧
  v.clock = w.clock ∧ v.seed = w.seed

/-- The world once the storage engine has answered one read query. -/
def World.answered (w : World) : World := { w with queryFaults := w.queryFaults.tail }

/-- A stored user record. -/
def userRow (id tokenKey : String) : Row :=
  ⟨"users", [("id", .str id), ("created", .time (some 500)), ("updated", .time (some 500)),
    ("email", .str (id ++ "@example.com")), ("tokenKey", .str tokenKey),
    ("passwordHash", .str "hash"), ("isAdmin", .bool false), ("isSuperadmin", .bool false),
    ("lastResetSentAt", .time none)]⟩

/-- The user model that `userRow id tokenKey` is the record of. -/
def userModel (id tokenKey : String) : Model :=
  { tableName := "users"
    Id := id
    isNew := false
    Created := some 500
    Updated := some 500
    columnValueMap := none
    fields := [("email", .str (id ++ "@example.com")), ("tokenKey", .str tokenKey),
      ("passwordHash", .str "hash"), ("isAdmin", .bool false), ("isSuperadmin", .bool false),
      ("lastResetSentAt", .time none)] }

/-- A sample world with two stored users; every pointer refers to the model of the
first. -/
def usersWorld : World :=
  { sampleWorld with
    models := fun _ => userModel "u1" "k1"
    store := [userRow "u1" "k1", userRow "u2" "k2"] }

/-- A sample world with one stored user. -/
def oneUserWorld : World :=
  { sampleWorld with
    models := fun _ => userModel "u1" "k1"
    store := [userRow "u1" "k1"] }

/-- Sample settings. -/
def sampleSettings : settings.Settings := ⟨⟨"secret", 3600⟩, ⟨"reset", 1800⟩, []⟩

/-- A sample app with settings and Dao. -/
def sampleApp : BaseApp :=
  { isDebug := false
    databaseUrl := "root@tcp(127.0.0.1:3306)/app"
    dataMaxOpenConns := 0
    dataMaxIdleConns := 0
    settings := some sampleSettings
    dao := some sampleDao }

/-- A sample token scheme for the user "u1": the token is the identifier followed by
the signing key, and verifies under that key only. -/
def sampleJwt : security.Jwt :=
  { NewToken := fun claims key _ =>
      if claims.stringAt "id" = "u1" then ("u1." ++ key, none)
      else ("", some (errors.New "cannot sign"))
    ParseUnverifiedJWT := fun token =>
      if token.data.take 3 = ['u', '1', '.'] then
        ([("id", .str "u1"), ("type", .str "user")], none)
      else ([], some (errors.New "token is malformed"))
    ParseJWT := fun token key =>
      if token = "u1." ++ key then ([("id", .str "u1"), ("type", .str "user")], none)
      else ([], some (errors.New "signature is invalid")) }

/-- Whether a row is the stored `Param` record with key `key`. -/
def Row.isParam (r : Row) (key : String) : Bool :=
  r.table == "params" && r.cols.lookup "key" == some (Value.str key)

/-- Sample settings functions: the JSON text of a settings value is its secret;
decoding fails on the empty text; merging takes the other settings. -/
def sampleLib : settings.Lib :=
  { New := sampleSettings
    Merge := fun _ other => (other, none)
    Unmarshal := fun data s =>
      if data = "" then (s, some (errors.New "unexpected end of JSON input"))
      else ({ s with UserAuthToken := ⟨data, s.UserAuthToken.Duration⟩ }, none)
    Scan := fun s => (s.UserAuthToken.Secret, none) }

/-! ## Form validators (`forms/validators/string.go`) -/

/-- A Go value of the interface type `any`, as far as a type assertion to `string`
tells values apart. -/
inductive GoAny where
  | null
  | str (s : String)
  | int (n : Int)
  | bool (b : Bool)
deriving DecidableEq, Repr

/-- The type assertion `v, _ := value.(string)`: the zero value when `value` is not
a string. -/
def GoAny.string (value : GoAny) : String :=
  match value with
  | .str s => s
  | _ => ""

/-- Whether a value is a string. -/
def GoAny.isString (value : GoAny) : Bool :=
  match value with
  | .str _ => true
  | _ => false

/-- Modelled from the spec: `validation.Error` (package `validation` is missing), an
error with a code and a message. -/
structure validation.Error where
  code : String
  message : String
deriving DecidableEq, Repr

/-- Modelled from the spec: `validation.NewError(code, message)`. -/
def validation.NewError (code message : String) : validation.Error := ⟨code, message⟩

/-- `Compare` (`forms/validators/string.go:10-20`); the result is the rule. -/
def validators.Compare (valueToCompare : String) : GoAny → Option validation.Error :=
  fun value =>
    let v := value.string
    if v != valueToCompare then
      some (validation.NewError "validation_values_mismatch" "Values don\x27t match.")
    else none

/-! ## The client address (`api/middleware.go`) -/

/-- Go `unicode.IsSpace`. -/
def unicode.IsSpace (c : Char) : Bool :=
  c.toNat == 0x09 || c.toNat == 0x0A || c.toNat == 0x0B || c.toNat == 0x0C || c.toNat == 0x0D ||
  c.toNat == 0x20 || c.toNat == 0x85 || c.toNat == 0xA0 || c.toNat == 0x1680 ||
  (0x2000 ≤ c.toNat && c.toNat ≤ 0x200A) || c.toNat == 0x2028 || c.toNat == 0x2029 ||
  c.toNat == 0x202F || c.toNat == 0x205F || c.toNat == 0x3000

/-- Go `strings.TrimSpace` on the characters of a string. -/
def strings.trimSpaceChars (cs : List Char) : List Char :=
  ((cs.dropWhile unicode.IsSpace).reverse.dropWhile unicode.IsSpace).reverse

/-- Go `strings.TrimSpace`. -/
def strings.TrimSpace (s : String) : String := String.mk (strings.trimSpaceChars s.data)

/-- Splitting a list of characters at every occurrence of `sep`. -/
def strings.splitChars (sep : Char) : List Char → List (List Char)
  | [] => [[]]
  | c :: cs =>
    if c = sep then [] :: strings.splitChars sep cs
    else
      match strings.splitChars sep cs with
      | [] => [[c]]
      | h :: t => (c :: h) :: t

/-- Go `strings.Split(s, sep)` for a separator of one character. -/
def strings.Split (s : String) (sep : Char) : List String :=
  (strings.splitChars sep s.data).map String.mk

/-- Whether a character may occur in a header name (`textproto`: a token character). -/
def textproto.validHeaderFieldChar (c : Char) : Bool :=
  c.isAlphanum ||
    "!#$%&\x27*+-.^_|~".data.contains c || c.toNat == 0x60

/-- The canonical spelling of the characters of a header name: the first letter and
every letter after a hyphen in upper case, the others in lower case. -/
def textproto.canonicalChars (upper : Bool) : List Char → List Char
  | [] => []
  | c :: cs =>
    (if upper then c.toUpper else c.toLower) :: textproto.canonicalChars (c == '-') cs

/-- Go `textproto.CanonicalMIMEHeaderKey`; a name with a character that is not a
token character is left as it is. -/
def textproto.CanonicalMIMEHeaderKey (s : String) : String :=
  if s.data.all textproto.validHeaderFieldChar then
    String.mk (textproto.canonicalChars true s.data)
  else s

/-- Go `http.Header`: the values of each header, by canonical name. -/
abbrev http.Header := List (String × List String)

/-- Go `http.Header.Get`: the first value of the header, the empty string when there
is none. -/
def http.Header.Get (h : http.Header) (key : String) : String :=
  match h.lookup (textproto.CanonicalMIMEHeaderKey key) with
  | some (v :: _) => v
  | _ => ""

/-- Go `http.Request`, of which the headers are read. -/
structure http.Request where
  Header : http.Header

/-- The loop `for i := len(ips) - 1; i >= 0; i--` of `realUserIp`
(`api/middleware.go:84-89`), with `n = i + 1` entries still to visit: the value
returned from inside the loop, if any. -/
def realUserIp.loop (ips : List String) : Nat → Option String
  | 0 => none
  | i + 1 =>
    let ip := strings.TrimSpace (ips.getD i "")
    if ip != "" then some ip else realUserIp.loop ips i

/-- `realUserIp` (`api/middleware.go:73-94`). -/
def realUserIp (r : http.Request) (fallbackIp : String) : String :=
  let ip := r.Header.Get "CF-Connecting-IP"
  if ip != "" then ip
  else
    let ip := r.Header.Get "X-Real-IP"
    if ip != "" then ip
    else
      let ipsList := r.Header.Get "X-Forwarded-For"
      let found :=
        if ipsList != "" then
          let ips := strings.Split ipsList ','
          -- extract the rightmost ip
          realUserIp.loop ips ips.length
        else none
      match found with
      | some ip => ip
      | none => fallbackIp

/-- A sample request that came through two proxies. -/
def sampleRequest : http.Request :=
  ⟨[("X-Forwarded-For", ["203.0.113.7, 10.0.0.1 , "])]⟩

/-- The Dao that `failRetry` hands to `op` at the attempt numbered `k`
(`base.go:295-306`): the Dao itself at the first attempt, the Dao without
before-callbacks from the second attempt on. -/
def Dao.retryDaoAt (dao : Dao) (k : Int) : Dao :=
  if k = 1 then dao else dao.withoutBeforeHooks

/-- Whether both handles of a Dao are the handle of transaction `tx`. -/
def Dao.boundTo (d : Dao) (tx : Nat) : Prop :=
  d.concurrentDB = .Tx tx ∧ d.nonconcurrentDB = .Tx tx

/-- Whether a callback invocation in the log, if the event is one, was made with a
Dao bound to transaction `tx`. -/
def Event.calledIn (tx : Nat) : Event → Prop
  | .beforeCall _ d _ => d.boundTo tx
  | .afterCall _ d _ => d.boundTo tx
  | _ => True

/-- How the log grows while a transaction body runs, as to the Daos the callbacks
are called with. -/
def CallsIn (tx : Nat) (w v : World) : Prop :=
  ∃ evs, v.trace = w.trace ++ evs ∧ ∀ ev ∈ evs, ev.calledIn tx

/-! ## Event hooks (`tools/hook`) and the app (`core/base.go`) -/

/-- Modelled from the spec: the sentinel error `hook.StopPropagation` (package
`tools/hook` is missing): a handler returns it to stop the chain without failure. -/
def hook.StopPropagation : GoError :=
  ⟨"Event hook propagation stopped", some "hook.StopPropagation"⟩

/-- Modelled from the spec: `Hook.Trigger(event, finalHandler...)` (package
`tools/hook` is missing; section 4.1 of the spec). The bound handlers run in the
order of registration on the same mutable event, here the state `s`. An error
aborts the chain and is returned; the stop marker aborts the chain and nil is
returned; when every handler returned nil the terminal handler, if there is one,
runs last and its result is returned. -/
def hook.Trigger {σ : Type} (handlers : List (σ → σ × Option GoError))
    (final : Option (σ → σ × Option GoError)) (s : σ) : σ × Option GoError :=
  match handlers with
  | [] =>
    match final with
    | some f => f s
    | none => (s, none)
  | h :: rest =>
    match h s with
    | (s, some err) => if err = hook.StopPropagation then (s, none) else (s, some err)
    | (s, none) => hook.Trigger rest final s

/-- A handler of a hook on `core.ModelEvent` (`core/events.go:30-33`): it is handed
the Dao and the model of the event, may read the world and change the model, and
returns an error or nil. -/
abbrev ModelHandler := Dao → World → Model → Model × Option GoError

/-- A handler of a hook on `core.BootstrapEvent` (`core/events.go:14-16`): it is
handed the app and may call its methods. -/
abbrev BootstrapHandler := BaseApp × World → (BaseApp × World) × Option GoError

/-- The hook fields of `BaseApp` that the embedded code triggers
(`core/base.go:41-59`), each with its bound handlers in the order of
registration. -/
structure AppHooks where
  onBeforeBootstrap : List BootstrapHandler
  onAfterBootstrap : List BootstrapHandler
  onModelBeforeCreate : List ModelHandler
  onModelAfterCreate : List ModelHandler
  onModelBeforeUpdate : List ModelHandler
  onModelAfterUpdate : List ModelHandler
  onModelBeforeDelete : List ModelHandler
  onModelAfterDelete : List ModelHandler

/-- The call `hook.Trigger(&ModelEvent{eventDao, m})` of a model hook. -/
def triggerModel (handlers : List ModelHandler) (eventDao : Dao) (mv : Model) (w : World) :
    Model × Option GoError :=
  hook.Trigger (handlers.map fun h => h eventDao w) none mv

/-- `BaseApp.createDaoWithHooks` (`core/base.go:390-427`): the six callbacks are
closures over the app, named here after the hook each one triggers. -/
def BaseApp.createDaoWithHooks (_app : BaseApp) (concurrentDB nonconcurrentDB : Builder) :
    Ohmygo.Dao :=
  { NewMultiDB concurrentDB nonconcurrentDB with
    BeforeCreateFunc := some (.user "OnModelBeforeCreate")
    AfterCreateFunc := some (.user "OnModelAfterCreate")
    BeforeUpdateFunc := some (.user "OnModelBeforeUpdate")
    AfterUpdateFunc := some (.user "OnModelAfterUpdate")
    BeforeDeleteFunc := some (.user "OnModelBeforeDelete")
    AfterDeleteFunc := some (.user "OnModelAfterDelete") }

/-- The bodies of the six closures of `createDaoWithHooks` (`core/base.go:393-424`).
A before-closure returns what the hook returns. An after-closure drops the error of
the hook; in debug mode it prints it, which is not part of the world. -/
def AppHooks.callbacks (hooks : AppHooks) : Hooks :=
  { before := fun name eventDao mv w =>
      if name = "OnModelBeforeCreate" then triggerModel hooks.onModelBeforeCreate eventDao mv w
      else if name = "OnModelBeforeUpdate" then
        triggerModel hooks.onModelBeforeUpdate eventDao mv w
      else if name = "OnModelBeforeDelete" then
        triggerModel hooks.onModelBeforeDelete eventDao mv w
      else (mv, none)
    after := fun name eventDao mv w =>
      if name = "OnModelAfterCreate" then (triggerModel hooks.onModelAfterCreate eventDao mv w).1
      else if name = "OnModelAfterUpdate" then
        (triggerModel hooks.onModelAfterUpdate eventDao mv w).1
      else if name = "OnModelAfterDelete" then
        (triggerModel hooks.onModelAfterDelete eventDao mv w).1
      else mv }

/-- The `BaseAppConfig` struct (`core/base.go:63-70`), of which `NewBaseApp` reads
these fields into the app. -/
structure BaseAppConfig where
  IsDebug : Bool
  DatabaseURL : String
  DataMaxOpenConns : Int
  DataMaxIdleConns : Int

/-- `NewBaseApp` (`core/base.go:76-116`): the settings are the defaults, there is no
Dao yet, every hook is empty. -/
def NewBaseApp (lib : settings.Lib) (config : BaseAppConfig) : BaseApp :=
  { isDebug := config.IsDebug
    databaseUrl := config.DatabaseURL
    dataMaxOpenConns := config.DataMaxOpenConns
    dataMaxIdleConns := config.DataMaxIdleConns
    settings := some lib.New
    dao := none }

/-- The hooks of an app `NewBaseApp` returns: no handler is bound
(`registerDefaultHooks` is empty, `core/base.go:429-430`). -/
def noHooks : AppHooks := ⟨[], [], [], [], [], [], [], []⟩

/-- `BaseApp.IsBootstrapped` (`core/base.go:121-123`). -/
def BaseApp.IsBootstrapped (app : BaseApp) : Bool := app.dao.isSome && app.settings.isSome

/-- `BaseApp.IsDebug` (`core/base.go:191-193`). -/
def BaseApp.IsDebug (app : BaseApp) : Bool := app.isDebug

/-- Modelled from the spec: `dbx.Open(driverName, dsn)` (package `dbx` is missing):
a new plain handle, unless the database server refuses. -/
def dbx.Open (_driverName _dsn : String) (w : World) : (Option Builder × Option GoError) × World :=
  match w.dials.headD none with
  | some e => ((none, some e), { w with dials := w.dials.tail })
  | none =>
    ((some (.DB w.nextConn), none), { w with dials := w.dials.tail, nextConn := w.nextConn + 1 })

/-- Modelled from the spec: `db.DB().Ping()`. -/
def Builder.Ping (_db : Builder) (w : World) : Option GoError × World :=
  (w.dials.headD none, { w with dials := w.dials.tail })

/-- Modelled from the spec: `db.Close()`; what closing does to later uses of the
handle is left out. -/
def Builder.Close (_db : Builder) (w : World) : Option GoError × World :=
  (w.dials.headD none, { w with dials := w.dials.tail })

/-- `connectDB` (`core/db.go:8-21`). -/
def connectDB (dsn : String) (w : World) : (Option Builder × Option GoError) × World :=
  match dbx.Open "mysql" dsn w with
  | ((_, some err), w) => ((none, some err), w)
  | ((none, none), w) => ((none, some nilDereference), w)
  | ((some db, none), w) =>
    match db.Ping w with
    | (some err, w) => ((none, some err), (db.Close w).2)
    | (none, w) => ((some db, none), w)

/-- `BaseApp.initDB` (`core/base.go:347-388`); the pool limits and the debug log
functions it sets on the handles are not part of the world. -/
def BaseApp.initDB (app : BaseApp) (w : World) : Option GoError × BaseApp × World :=
  match connectDB app.databaseUrl w with
  | ((_, some err), w) => (some err, app, w)
  | ((none, none), w) => (some nilDereference, app, w)
  | ((some concurrentDB, none), w) =>
    match connectDB app.databaseUrl w with
    | ((_, some err), w) => (some err, app, w)
    | ((none, none), w) => (some nilDereference, app, w)
    | ((some nonconcurrentDB, none), w) =>
      (none, { app with dao := some (app.createDaoWithHooks concurrentDB nonconcurrentDB) }, w)

/-- The type assertion `b.(*dbx.DB)` followed by `Close()`
(`core/base.go:156-161`); the assertion panics on another kind of handle, which is
returned as an error here. -/
def Builder.closeDB (b : Builder) (w : World) : Option GoError × World :=
  match b with
  | .DB conn => (Builder.DB conn).Close w
  | _ => (some (errors.New "interface conversion: dbx.Builder is not *dbx.DB"), w)

/-- `BaseApp.ResetBootstrapState` (`core/base.go:154-168`). -/
def BaseApp.ResetBootstrapState (app : BaseApp) (w : World) : Option GoError × BaseApp × World :=
  let closed : Option GoError × World :=
    match app.Dao with
    | some dao =>
      match dao.ConcurrentDB.closeDB w with
      | (some err, w) => (some err, w)
      | (none, w) => dao.NonconcurrentDB.closeDB w
    | none => (none, w)
  match closed with
  | (some err, w) => (some err, app, w)
  | (none, w) => (none, { app with dao := none, settings := none }, w)

/-- `BaseApp.Bootstrap` (`core/base.go:129-150`). The error of the after-bootstrap
hook is dropped; in debug mode it is printed, which is not part of the world. -/
def BaseApp.Bootstrap (hooks : AppHooks) (app : BaseApp) (w : World) :
    Option GoError × BaseApp × World :=
  match hook.Trigger hooks.onBeforeBootstrap none (app, w) with
  | ((app, w), some err) => (some err, app, w)
  | ((app, w), none) =>
    -- clear resources of previous core state (if any)
    match app.ResetBootstrapState w with
    | (some err, app, w) => (some err, app, w)
    | (none, app, w) =>
      match app.initDB w with
      | (some err, app, w) => (some err, app, w)
      | (none, app, w) =>
        match hook.Trigger hooks.onAfterBootstrap none (app, w) with
        | ((app, w), _) => (none, app, w)

/-- A sample configuration. -/
def sampleConfig : BaseAppConfig := ⟨false, "root@tcp(127.0.0.1:3306)/app", 0, 0⟩

/-- What the storage of two worlds has in common when they differ at most in the
models on the heap. -/
def SameStorage (v u : World) : Prop :=
  v.store = u.store ∧ v.tx = u.tx ∧ v.txCount = u.txCount ∧ v.faults = u.faults ∧
  v.trace = u.trace ∧ v.afterCalls = u.afterCalls ∧ v.nextSlot = u.nextSlot ∧
  v.clock = u.clock ∧ v.seed = u.seed

/-! ## The auth endpoints (`api/auth.go`) -/

/-- The assignment `m.TokenKey = v`. -/
def Model.setTokenKey (m : Model) (v : String) : Model :=
  { m with fields := m.fields.map fun f => if f.1 = "tokenKey" then (f.1, Value.str v) else f }

/-- `User.RefreshTokenKey` (`model/user.go:61-64`); it draws from the random
generator. -/
def RefreshTokenKey (m : Ptr) (w : World) : World :=
  { w.setModel m ((w.models m).setTokenKey (security.RandomString 50 w.seed)) with
    seed := w.seed + 1 }

/-- The response a handler wrote through its `echo.Context`: the status code and,
for the JSON body of the auth endpoints, the token and the user. -/
structure echo.Response where
  code : Nat
  token : Option String
  user : Option Ptr
deriving DecidableEq, Repr

/-- Go `echo.Context`, as far as the auth handlers use it: the user that
`LoadAuthContext` stored under `ContextUserKey`, and the response written so far. -/
structure echo.Context where
  user : Option Ptr
  response : Option echo.Response
deriving DecidableEq, Repr

/-- Go `c.NoContent(code)`. -/
def echo.Context.NoContent (c : echo.Context) (code : Nat) : echo.Context :=
  { c with response := some ⟨code, none, none⟩ }

/-- Go `c.JSON(code, map[string]any{"token": token, "user": user})`. -/
def echo.Context.JSON (c : echo.Context) (code : Nat) (token : String) (user : Ptr) :
    echo.Context :=
  { c with response := some ⟨code, some token, some user⟩ }

/-- Modelled from the spec: `ApiError` (`api/errors.go` is missing), an error with a
status code and a message. -/
structure ApiError where
  Code : Nat
  Message : String
deriving DecidableEq, Repr

/-- Modelled from the spec: `NewNotFoundError(message, data)`. -/
def NewNotFoundError (message : String) : ApiError := ⟨404, message⟩

/-- Modelled from the spec: `NewBadRequestError(message, data)`. -/
def NewBadRequestError (message : String) : ApiError := ⟨400, message⟩

/-- What a handler returns: nil, an `ApiError`, or another error. -/
inductive HandlerError where
  | api (e : ApiError)
  | other (e : GoError)
deriving DecidableEq, Repr

/-- The `UserAuthEvent` struct (`core/events.go:57-61`). -/
structure UserAuthEvent where
  HttpContext : echo.Context
  User : Ptr
  Token : String
deriving DecidableEq, Repr

/-- `authApi.authResponse` (`api/auth.go:28-46`), with the handlers bound to
`OnUserAuthRequest`. -/
def authApi.authResponse (sec : security.Jwt)
    (onUserAuthRequest : List (UserAuthEvent → UserAuthEvent × Option GoError))
    (app : BaseApp) (c : echo.Context) (user : Ptr) (w : World) :
    Option HandlerError × echo.Context :=
  match tokens.NewUserAuthToken sec app (w.models user) with
  | (_, some _) => (some (.api (NewBadRequestError "Failed to create auth token.")), c)
  | (token, none) =>
    let event : UserAuthEvent := ⟨c, user, token⟩
    match hook.Trigger onUserAuthRequest
        (some fun e => ({ e with HttpContext := e.HttpContext.JSON 200 e.Token e.User }, none))
        event with
    | (e, some err) => (some (.other err), e.HttpContext)
    | (e, none) => (none, e.HttpContext)

/-- `authApi.authRefresh` (`api/auth.go:61-72`). A call through a nil Dao is a
run-time error. -/
def authApi.authRefresh (env : Hooks) (sec : security.Jwt)
    (onUserAuthRequest : List (UserAuthEvent → UserAuthEvent × Option GoError))
    (app : BaseApp) (c : echo.Context) (w : World) :
    (Option HandlerError × echo.Context) × World :=
  match c.user with
  | none => ((some (.api (NewNotFoundError "Missing auth user context.")), c), w)
  | some user =>
    -- destroy previous tokens
    let w := RefreshTokenKey user w
    match app.Dao with
    | none => ((some (.other nilDereference), c), w)
    | some dao =>
      let w := (dao.Save env user w).2
      (authApi.authResponse sec onUserAuthRequest app c user w, w)

/-- `authApi.logout` (`api/auth.go:74-85`). A call through a nil Dao is a run-time
error. -/
def authApi.logout (env : Hooks) (app : BaseApp) (c : echo.Context) (w : World) :
    (Option HandlerError × echo.Context) × World :=
  match c.user with
  | none => ((some (.api (NewNotFoundError "Missing auth user context.")), c), w)
  | some user =>
    -- destroy previous tokens
    let w := RefreshTokenKey user w
    match app.Dao with
    | none => ((some (.other nilDereference), c), w)
    | some dao =>
      let w := (dao.Save env user w).2
      ((none, c.NoContent 200), w)

/-- A stored `Param` record. -/
def paramRow (id key value : String) : Row :=
  ⟨"params", [("id", .str id), ("created", .time (some 500)), ("updated", .time (some 500)),
    ("key", .str key), ("value", .str value)]⟩

/-- A sample world whose store holds the settings record. -/
def settingsWorld : World :=
  { sampleWorld with store := [paramRow "abcdefghijklmno" "settings" "old"] }

/-- A request context of the user at pointer 0. -/
def sampleContext : echo.Context := ⟨some 0, none⟩

/-- An error of the storage engine that is not lock contention. -/
def connectionError : GoError := errors.New "driver: bad connection"

/-- The sample world with two users in which the storage engine fails the next
write. -/
def brokenUsersWorld : World := { usersWorld with faults := [some connectionError] }

/-- An error with the message of `sql.ErrNoRows` that is not that value, as a
driver or a wrapper may return. -/
def noRowsLookalike : GoError := errors.New "sql: no rows in result set"

/-- The sample world in which the storage engine fails the next read with an error
that has the message of `sql.ErrNoRows` and is not that value. -/
def lookalikeWorld : World := { sampleWorld with queryFaults := [some noRowsLookalike] }

/-! ## Lemmas -/

theorem attempt_eq (env : Hooks) (kind : WriteKind) (m : Ptr) (d : Dao) (w : World) :
    attempt env kind m d w =
      if guardFails kind m w then (some (errors.New "ID is not set"), w)
      else
        match runBefore env (d.beforeFor kind) d m (prelude kind m w) with
        | (some err, w1) => (some err, w1)
        | (none, w1) =>
          match opWrite kind d m w1 with
          | (some err, w2) => (some err, w2)
          | (none, w2) => (none, runAfter env (d.afterFor kind) d m (postWrite kind m w2)) := by
  cases kind
  · simp only [attempt, Dao.create, guardFails, prelude, opWrite, postWrite, Dao.beforeFor,
      Dao.afterFor]
    rfl
  · simp only [attempt, Dao.update, guardFails, prelude, opWrite, postWrite, Dao.beforeFor,
      Dao.afterFor]
  · simp only [attempt, Dao.deleteOp, guardFails, prelude, opWrite, postWrite, Dao.beforeFor,
      Dao.afterFor]
    rfl

@[simp] theorem World.log_trace (w : World) (e : Event) : (w.log e).trace = w.trace ++ [e] := rfl

@[simp] theorem time.Sleep_trace (d : Int) (w : World) :
    (time.Sleep d w).trace = w.trace ++ [.sleep d] := rfl

theorem callBefore_fields (env : Hooks) (f : BeforeFunc) (d : Dao) (m : Ptr) (w : World) :
    (callBefore env f d m w).2.trace = w.trace ++ beforeChain f d m ∧
    (callBefore env f d m w).2.store = w.store ∧
    (callBefore env f d m w).2.tx = w.tx ∧
    (callBefore env f d m w).2.txCount = w.txCount ∧
    (callBefore env f d m w).2.faults = w.faults ∧
    (callBefore env f d m w).2.afterCalls = w.afterCalls ∧
    (callBefore env f d m w).2.nextSlot = w.nextSlot := by
  induction f generalizing w with
  | user name => simp [callBefore, beforeChain, World.setModel, World.log]
  | forward f ih =>
    rw [callBefore]
    obtain ⟨h1, h2, h3, h4, h5, h6, h7⟩ := ih (w.log (.beforeCall (.forward f) d m))
    refine ⟨?_, h2, h3, h4, h5, h6, h7⟩
    rw [h1]; simp [beforeChain]

theorem runBefore_fields (env : Hooks) (f : Option BeforeFunc) (d : Dao) (m : Ptr) (w : World) :
    (runBefore env f d m w).2.trace = w.trace ++ beforeEvents f d m ∧
    (runBefore env f d m w).2.store = w.store ∧
    (runBefore env f d m w).2.tx = w.tx ∧
    (runBefore env f d m w).2.txCount = w.txCount ∧
    (runBefore env f d m w).2.faults = w.faults ∧
    (runBefore env f d m w).2.afterCalls = w.afterCalls ∧
    (runBefore env f d m w).2.nextSlot = w.nextSlot := by
  cases f with
  | none => simp [runBefore, beforeEvents]
  | some f => exact callBefore_fields env f d m w

theorem runAfter_fields (env : Hooks) (f : Option AfterFunc) (d : Dao) (m : Ptr) (w : World) :
    (runAfter env f d m w).trace = w.trace ++ afterEvents f d m ∧
    (runAfter env f d m w).store = w.store ∧
    (runAfter env f d m w).tx = w.tx ∧
    (runAfter env f d m w).txCount = w.txCount ∧
    (runAfter env f d m w).faults = w.faults ∧
    (runAfter env f d m w).nextSlot = w.nextSlot := by
  cases f with
  | none => simp [runAfter, afterEvents]
  | some f =>
    cases f <;> simp [runAfter, callAfter, afterEvents, World.setModel, World.log]

theorem prelude_fields (kind : WriteKind) (m : Ptr) (w : World) :
    (prelude kind m w).trace = w.trace ∧
    (prelude kind m w).store = w.store ∧
    (prelude kind m w).tx = w.tx ∧
    (prelude kind m w).txCount = w.txCount ∧
    (prelude kind m w).faults = w.faults ∧
    (prelude kind m w).afterCalls = w.afterCalls ∧
    (prelude kind m w).nextSlot = w.nextSlot := by
  cases kind
  · simp only [prelude]
    split <;> split <;> split <;>
      simp [RefreshId, MarkAsNew, RefreshCreated, RefreshUpdated, World.setModel]
  · simp only [prelude]
    split <;> simp [RefreshId, MarkAsNew, RefreshCreated, RefreshUpdated, World.setModel]
  · simp [prelude]

theorem postWrite_fields (kind : WriteKind) (m : Ptr) (w : World) :
    (postWrite kind m w).trace = w.trace ∧
    (postWrite kind m w).store = w.store ∧
    (postWrite kind m w).tx = w.tx ∧
    (postWrite kind m w).txCount = w.txCount ∧
    (postWrite kind m w).faults = w.faults ∧
    (postWrite kind m w).afterCalls = w.afterCalls ∧
    (postWrite kind m w).nextSlot = w.nextSlot := by
  cases kind <;> simp [postWrite, MarkAsNotNew, World.setModel]

theorem exec_fields (db : Builder) (kind : WriteKind) (m : Ptr) (table id : String)
    (cols : List (String × Value)) (w : World) :
    (db.exec kind m table id cols w).2.trace =
      w.trace ++ [.write kind db m (db.exec kind m table id cols w).1] ∧
    (db.exec kind m table id cols w).2.tx.map Prod.fst = w.tx.map Prod.fst ∧
    (db.exec kind m table id cols w).2.txCount = w.txCount ∧
    (db.exec kind m table id cols w).2.afterCalls = w.afterCalls ∧
    (db.exec kind m table id cols w).2.nextSlot = w.nextSlot ∧
    ((∀ c, db ≠ .DB c) → (db.exec kind m table id cols w).2.store = w.store) ∧
    (db.usable w = true → (db.exec kind m table id cols w).1 = w.faults.headD none ∧
      (db.exec kind m table id cols w).2.faults = w.faults.tail) := by
  cases db with
  | nil => simp [Builder.exec, Builder.usable, World.log]
  | DB c =>
    simp only [Builder.exec, Builder.usable]
    split <;> simp_all [World.log]
  | Tx i =>
    simp only [Builder.exec, Builder.usable]
    split
    · split <;> cases htx : w.tx <;> simp_all [World.log]
    · simp_all [World.log]

theorem exec_models (db : Builder) (kind : WriteKind) (m : Ptr) (table id : String)
    (cols : List (String × Value)) (w : World) :
    (db.exec kind m table id cols w).2.models = w.models := by
  cases db with
  | nil => rfl
  | DB c =>
    simp only [Builder.exec]
    split <;> rfl
  | Tx i =>
    simp only [Builder.exec]
    split
    · split <;> rfl
    · rfl

theorem opWrite_eq_exec (kind : WriteKind) (d : Dao) (m : Ptr) (w : World) :
    ∃ table id cols, opWrite kind d m w = d.nonconcurrentDB.exec kind m table id cols w := by
  cases kind <;> simp only [opWrite, Builder.ModelInsert, Builder.InsertExecute,
    Builder.ModelUpdate, Builder.UpdateExecute, Builder.ModelDelete, Dao.NonconcurrentDB] <;>
    (try split) <;> exact ⟨_, _, _, rfl⟩

theorem failRetryLoop_step (dao : Dao) (op : Dao → World → Option GoError × World)
    (maxRetries : Int) (fuel : Nat) (retryDao : Dao) (attempts : Int) (w : World) :
    dao.failRetryLoop op maxRetries fuel retryDao attempts w =
      match op (if attempts = 2 then dao.withoutBeforeHooks else retryDao)
          (w.log (.opCall attempts (if attempts = 2 then dao.withoutBeforeHooks else retryDao))) with
      | (none, w1) => (none, w1.log (.opReturn attempts none))
      | (some err, w1) =>
        if attempts < maxRetries ∧ isLocked err = true then
          match fuel with
          | 0 => (some err, w1.log (.opReturn attempts (some err)))
          | fuel + 1 =>
            dao.failRetryLoop op maxRetries fuel
              (if attempts = 2 then dao.withoutBeforeHooks else retryDao) (attempts + 1)
              (time.Sleep (200 * attempts * time.Millisecond)
                (w1.log (.opReturn attempts (some err))))
        else (some err, w1.log (.opReturn attempts (some err))) := by
  cases fuel <;> rw [Dao.failRetryLoop] <;> rfl

theorem retryLog_append (xs ys : List Event) : retryLog (xs ++ ys) = retryLog xs ++ retryLog ys := by
  simp [retryLog]

theorem retryLog_attempt (a : Int) (d : Dao) (r : Option GoError) (evs0 : List Event)
    (h : retryLog evs0 = []) :
    retryLog ([.opCall a d] ++ evs0 ++ [.opReturn a r]) = [.opCall a d, .opReturn a r] := by
  rw [retryLog_append, retryLog_append, h]; rfl

theorem failRetryLoop_log (dao : Dao) (op : Dao → World → Option GoError × World)
    (maxRetries : Int) (hq : QuietOp op) :
    ∀ (fuel : Nat) (retryDao : Dao) (a : Int) (w : World), (maxRetries - a).toNat ≤ fuel →
      ∃ errs evs,
        (dao.failRetryLoop op maxRetries fuel retryDao a w).2.trace = w.trace ++ evs ∧
        retryLog evs =
          retrySkeleton dao (dao.failRetryLoop op maxRetries fuel retryDao a w).1 retryDao a errs ∧
        (∀ e ∈ errs, isLocked e = true) ∧
        (errs ≠ [] → a + errs.length ≤ maxRetries) ∧
        (∀ e, (dao.failRetryLoop op maxRetries fuel retryDao a w).1 = some e →
          isLocked e = true → maxRetries ≤ a + errs.length) ∧
        (∃ d v, (dao.failRetryLoop op maxRetries fuel retryDao a w).1 = (op d v).1) := by
  intro fuel
  induction fuel with
  | zero =>
    intro retryDao a w hfuel
    have hle : maxRetries ≤ a := by omega
    obtain ⟨evs0, h0, hq0⟩ := hq (if a = 2 then dao.withoutBeforeHooks else retryDao)
      (w.log (.opCall a (if a = 2 then dao.withoutBeforeHooks else retryDao)))
    rw [failRetryLoop_step]
    rcases hop : op (if a = 2 then dao.withoutBeforeHooks else retryDao)
      (w.log (.opCall a (if a = 2 then dao.withoutBeforeHooks else retryDao))) with ⟨r, w1⟩
    rw [hop] at h0
    cases r with
    | none =>
      refine ⟨[], [.opCall a (if a = 2 then dao.withoutBeforeHooks else retryDao)] ++ evs0 ++
        [.opReturn a none], ?_, ?_, ?_, ?_, ?_, ?_⟩
      · simp at h0 ⊢; rw [h0]; simp
      · rw [retryLog_attempt _ _ _ _ hq0]; rfl
      · simp
      · simp
      · simp
      · exact ⟨_, _, by rw [hop]⟩
    | some err =>
      have hc : ¬ (a < maxRetries ∧ isLocked err = true) := fun h => absurd h.1 (not_lt.mpr hle)
      simp only [hc, if_false]
      refine ⟨[], [.opCall a (if a = 2 then dao.withoutBeforeHooks else retryDao)] ++ evs0 ++
        [.opReturn a (some err)], ?_, ?_, ?_, ?_, ?_, ?_⟩
      · simp at h0 ⊢; rw [h0]; simp
      · rw [retryLog_attempt _ _ _ _ hq0]; rfl
      · simp
      · simp
      · intro e _ _; simpa using hle
      · exact ⟨_, _, by rw [hop]⟩
  | succ n ih =>
    intro retryDao a w hfuel
    obtain ⟨evs0, h0, hq0⟩ := hq (if a = 2 then dao.withoutBeforeHooks else retryDao)
      (w.log (.opCall a (if a = 2 then dao.withoutBeforeHooks else retryDao)))
    rw [failRetryLoop_step]
    rcases hop : op (if a = 2 then dao.withoutBeforeHooks else retryDao)
      (w.log (.opCall a (if a = 2 then dao.withoutBeforeHooks else retryDao))) with ⟨r, w1⟩
    rw [hop] at h0
    cases r with
    | none =>
      refine ⟨[], [.opCall a (if a = 2 then dao.withoutBeforeHooks else retryDao)] ++ evs0 ++
        [.opReturn a none], ?_, ?_, ?_, ?_, ?_, ?_⟩
      · simp at h0 ⊢; rw [h0]; simp
      · rw [retryLog_attempt _ _ _ _ hq0]; rfl
      · simp
      · simp
      · simp
      · exact ⟨_, _, by rw [hop]⟩
    | some err =>
      by_cases hc : a < maxRetries ∧ isLocked err = true
      · simp only [hc, and_self, if_true]
        obtain ⟨errs, evs, h1, h2, h3, h4, h5, h6⟩ :=
          ih (if a = 2 then dao.withoutBeforeHooks else retryDao) (a + 1)
            (time.Sleep (200 * a * time.Millisecond) (w1.log (.opReturn a (some err))))
            (by omega)
        refine ⟨err :: errs, [.opCall a (if a = 2 then dao.withoutBeforeHooks else retryDao)] ++
          evs0 ++ [.opReturn a (some err), .sleep (200 * a * time.Millisecond)] ++ evs,
          ?_, ?_, ?_, ?_, ?_, ?_⟩
        · rw [h1]; simp at h0 ⊢; rw [h0]; simp
        · simp only [retryLog_append, hq0, h2]
          simp [retryLog, retrySkeleton, Event.isRetryEvent]
        · intro e he
          rcases List.mem_cons.mp he with rfl | he
          · exact hc.2
          · exact h3 e he
        · intro _
          by_cases hne : errs = []
          · subst hne; simp; omega
          · have := h4 hne; simp; omega
        · intro e he hl
          have := h5 e he hl
          simp; omega
        · exact h6
      · simp only [hc, if_false]
        refine ⟨[], [.opCall a (if a = 2 then dao.withoutBeforeHooks else retryDao)] ++ evs0 ++
          [.opReturn a (some err)], ?_, ?_, ?_, ?_, ?_, ?_⟩
        · simp at h0 ⊢; rw [h0]; simp
        · rw [retryLog_attempt _ _ _ _ hq0]; rfl
        · simp
        · simp
        · intro e he hl
          simp at he; subst he
          simp only [not_and] at hc
          simp
          by_contra hlt
          exact hc (by omega) hl
        · exact ⟨_, _, by rw [hop]⟩

theorem runAfter_afterCalls (env : Hooks) (f : Option AfterFunc) (d : Dao) (m : Ptr) (w : World) :
    (runAfter env f d m w).afterCalls = collectInto f d m w.afterCalls := by
  cases f with
  | none => rfl
  | some f => cases f <;> simp [runAfter, callAfter, collectInto, World.setModel, World.log]

theorem usable_congr (db : Builder) (w v : World) (h : v.tx.map Prod.fst = w.tx.map Prod.fst) :
    db.usable v = db.usable w := by
  cases db <;> simp [Builder.usable, h]

theorem attempt_cases (env : Hooks) (kind : WriteKind) (m : Ptr) (d : Dao) (w : World) :
    (attempt env kind m d w).2.txCount = w.txCount ∧
    (attempt env kind m d w).2.nextSlot = w.nextSlot ∧
    (attempt env kind m d w).2.tx.map Prod.fst = w.tx.map Prod.fst ∧
    ((∀ c, d.nonconcurrentDB ≠ .DB c) → (attempt env kind m d w).2.store = w.store) ∧
    ((guardFails kind m w = true ∧
        attempt env kind m d w = (some (errors.New "ID is not set"), w)) ∨
     (guardFails kind m w = false ∧
        ∃ e, (runBefore env (d.beforeFor kind) d m (prelude kind m w)).1 = some e ∧
          (attempt env kind m d w).1 = some e ∧
          (attempt env kind m d w).2.trace = w.trace ++ beforeEvents (d.beforeFor kind) d m ∧
          (attempt env kind m d w).2.afterCalls = w.afterCalls ∧
          (attempt env kind m d w).2.faults = w.faults ∧
          (attempt env kind m d w).2.store = w.store ∧
          (attempt env kind m d w).2.tx = w.tx ∧
          (attempt env kind m d w).2.models =
            (runBefore env (d.beforeFor kind) d m (prelude kind m w)).2.models) ∨
     (guardFails kind m w = false ∧
        (runBefore env (d.beforeFor kind) d m (prelude kind m w)).1 = none ∧
        ∃ e, (attempt env kind m d w).1 = some e ∧
          (attempt env kind m d w).2.trace = w.trace ++ beforeEvents (d.beforeFor kind) d m ++
            [.write kind d.nonconcurrentDB m (some e)] ∧
          (attempt env kind m d w).2.afterCalls = w.afterCalls ∧
          (attempt env kind m d w).2.models =
            (runBefore env (d.beforeFor kind) d m (prelude kind m w)).2.models ∧
          (d.nonconcurrentDB.usable w = true →
            w.faults.headD none = some e ∧ (attempt env kind m d w).2.faults = w.faults.tail)) ∨
     (guardFails kind m w = false ∧
        (runBefore env (d.beforeFor kind) d m (prelude kind m w)).1 = none ∧
        (attempt env kind m d w).1 = none ∧
          (attempt env kind m d w).2.trace = w.trace ++ beforeEvents (d.beforeFor kind) d m ++
            [.write kind d.nonconcurrentDB m none] ++ afterEvents (d.afterFor kind) d m ∧
          (attempt env kind m d w).2.afterCalls = collectInto (d.afterFor kind) d m w.afterCalls ∧
          (d.nonconcurrentDB.usable w = true →
            w.faults.headD none = none ∧ (attempt env kind m d w).2.faults = w.faults.tail))) := by
  rw [attempt_eq]
  obtain ⟨p1, p2, p3, p4, p5, p6, p7⟩ := prelude_fields kind m w
  obtain ⟨b1, b2, b3, b4, b5, b6, b7⟩ :=
    runBefore_fields env (d.beforeFor kind) d m (prelude kind m w)
  by_cases hg : guardFails kind m w = true
  · simp [hg]
  · have hg : guardFails kind m w = false := by simpa using hg
    simp only [hg, Bool.false_eq_true, if_false, false_and, true_and, false_or]
    rcases hb : runBefore env (d.beforeFor kind) d m (prelude kind m w) with ⟨rb, w1⟩
    rw [hb] at b1 b2 b3 b4 b5 b6 b7
    simp only at b1 b2 b3 b4 b5 b6 b7
    cases rb with
    | some e =>
      simp only
      refine ⟨by rw [b4, p4], by rw [b7, p7], by rw [b3, p3], fun _ => by rw [b2, p2], ?_⟩
      left
      exact ⟨e, rfl, rfl, by rw [b1, p1], by rw [b6, p6], by rw [b5, p5], by rw [b2, p2],
        by rw [b3, p3], trivial⟩
    | none =>
      simp only
      obtain ⟨table, id, cols, hw⟩ := opWrite_eq_exec kind d m w1
      obtain ⟨x1, x2, x3, x4, x5, x6, x7⟩ := exec_fields d.nonconcurrentDB kind m table id cols w1
      rw [← hw] at x1 x2 x3 x4 x5 x6 x7
      have hus : d.nonconcurrentDB.usable w1 = d.nonconcurrentDB.usable w :=
        usable_congr _ _ _ (by rw [b3, p3])
      rcases hx : opWrite kind d m w1 with ⟨rx, w2⟩
      rw [hx] at x1 x2 x3 x4 x5 x6 x7
      simp only at x1 x2 x3 x4 x5 x6 x7
      cases rx with
      | some e =>
        simp only
        refine ⟨by rw [x3, b4, p4], by rw [x5, b7, p7], by rw [x2, b3, p3],
          fun h => by rw [x6 h, b2, p2], ?_⟩
        right; left
        have hmod : w2.models = w1.models := by
          have := exec_models d.nonconcurrentDB kind m table id cols w1
          rw [← hw, hx] at this
          exact this
        refine ⟨trivial, e, rfl, by rw [x1, b1, p1], by rw [x4, b6, p6], hmod, fun hu => ?_⟩
        have := x7 (hus ▸ hu)
        rw [b5, p5] at this
        exact ⟨this.1.symm, this.2⟩
      | none =>
        simp only
        obtain ⟨q1, q2, q3, q4, q5, q6, q7⟩ := postWrite_fields kind m w2
        obtain ⟨a1, a2, a3, a4, a5, a6⟩ :=
          runAfter_fields env (d.afterFor kind) d m (postWrite kind m w2)
        refine ⟨by rw [a4, q4, x3, b4, p4], by rw [a6, q7, x5, b7, p7],
          by rw [a3, q3, x2, b3, p3], fun h => by rw [a2, q2, x6 h, b2, p2], ?_⟩
        right; right
        refine ⟨trivial, trivial, by rw [a1, q1, x1, b1, p1], ?_, fun hu => ?_⟩
        · rw [runAfter_afterCalls, q6, x4, b6, p6]
        · have := x7 (hus ▸ hu)
          rw [b5, p5] at this
          exact ⟨this.1.symm, by rw [a5, q5, this.2]⟩

theorem failRetryLoop_fuel (dao : Dao) (op : Dao → World → Option GoError × World)
    (maxRetries : Int) :
    ∀ (fuel fuel2 : Nat) (retryDao : Dao) (a : Int) (w : World),
      (maxRetries - a).toNat ≤ fuel → (maxRetries - a).toNat ≤ fuel2 →
      dao.failRetryLoop op maxRetries fuel retryDao a w =
        dao.failRetryLoop op maxRetries fuel2 retryDao a w := by
  intro fuel
  induction fuel with
  | zero =>
    intro fuel2 retryDao a w h1 _
    have hle : maxRetries ≤ a := by omega
    rw [failRetryLoop_step, failRetryLoop_step dao op maxRetries fuel2]
    rcases op (if a = 2 then dao.withoutBeforeHooks else retryDao)
      (w.log (.opCall a (if a = 2 then dao.withoutBeforeHooks else retryDao))) with ⟨r, w1⟩
    cases r with
    | none => rfl
    | some err =>
      have hc : ¬ (a < maxRetries ∧ isLocked err = true) := fun h => absurd h.1 (not_lt.mpr hle)
      simp only [hc, if_false]
  | succ n ih =>
    intro fuel2 retryDao a w h1 h2
    rw [failRetryLoop_step, failRetryLoop_step dao op maxRetries fuel2]
    rcases op (if a = 2 then dao.withoutBeforeHooks else retryDao)
      (w.log (.opCall a (if a = 2 then dao.withoutBeforeHooks else retryDao))) with ⟨r, w1⟩
    cases r with
    | none => rfl
    | some err =>
      by_cases hc : a < maxRetries ∧ isLocked err = true
      · simp only [hc, and_self, if_true]
        cases fuel2 with
        | zero => omega
        | succ k => exact ih k _ _ _ (by omega) (by omega)
      · simp only [hc, if_false]

theorem failRetry_log (dao : Dao) (op : Dao → World → Option GoError × World)
    (maxRetries : Int) (hq : QuietOp op) (w : World) :
    ∃ errs evs,
      (dao.failRetry op maxRetries w).2.trace = w.trace ++ evs ∧
      retryLog evs = retrySkeleton dao (dao.failRetry op maxRetries w).1 dao 1 errs ∧
      (∀ e ∈ errs, isLocked e = true) ∧
      (errs ≠ [] → 1 + (errs.length : Int) ≤ maxRetries) ∧
      (∀ e, (dao.failRetry op maxRetries w).1 = some e →
        isLocked e = true → maxRetries ≤ 1 + (errs.length : Int)) ∧
      (∃ d v, (dao.failRetry op maxRetries w).1 = (op d v).1) :=
  failRetryLoop_log dao op maxRetries hq (maxRetries - 1).toNat dao 1 w (le_refl _)

theorem opCalls_retryLog (evs : List Event) : opCalls (retryLog evs) = opCalls evs := by
  unfold opCalls retryLog
  rw [List.filter_filter]
  congr 1
  apply List.filter_congr
  intro e _
  cases e <;> rfl

theorem sleepsOf_retryLog (evs : List Event) : sleepsOf (retryLog evs) = sleepsOf evs := by
  unfold sleepsOf retryLog
  induction evs with
  | nil => rfl
  | cons e es ih =>
    cases e <;> simp [List.filter_cons, List.filterMap_cons, Event.isRetryEvent, ih]

theorem opCalls_retrySkeleton (dao : Dao) (res : Option GoError) (errs : List GoError) :
    ∀ (rd : Dao) (a : Int), opCalls (retrySkeleton dao res rd a errs) = errs.length + 1 := by
  induction errs with
  | nil => intro rd a; rfl
  | cons e es ih =>
    intro rd a
    have := ih (if a = 2 then dao.withoutBeforeHooks else rd) (a + 1)
    simp only [opCalls] at this ⊢
    simp [retrySkeleton, List.filter_cons, Event.isOpCall, this]

theorem sleepsOf_retrySkeleton (dao : Dao) (res : Option GoError) (errs : List GoError) :
    ∀ (rd : Dao) (a : Int), sleepsOf (retrySkeleton dao res rd a errs) = backoffs a errs.length := by
  induction errs with
  | nil => intro rd a; rfl
  | cons e es ih =>
    intro rd a
    have := ih (if a = 2 then dao.withoutBeforeHooks else rd) (a + 1)
    simp only [sleepsOf] at this ⊢
    simp [retrySkeleton, List.filterMap_cons, backoffs, this]

theorem getLast_retrySkeleton (dao : Dao) (res : Option GoError) (errs : List GoError) :
    ∀ (rd : Dao) (a : Int),
      (retrySkeleton dao res rd a errs).getLast? = some (.opReturn (a + errs.length) res) := by
  induction errs with
  | nil => intro rd a; simp [retrySkeleton]
  | cons e es ih =>
    intro rd a
    have := ih (if a = 2 then dao.withoutBeforeHooks else rd) (a + 1)
    rw [retrySkeleton, List.getLast?_append, this]
    simp
    omega

theorem retryLog_beforeChain (f : BeforeFunc) (d : Dao) (m : Ptr) :
    retryLog (beforeChain f d m) = [] := by
  induction f with
  | user name => rfl
  | forward f ih =>
    simp only [beforeChain, retryLog] at ih ⊢
    simp [List.filter_cons, Event.isRetryEvent, ih]

theorem retryLog_beforeEvents (f : Option BeforeFunc) (d : Dao) (m : Ptr) :
    retryLog (beforeEvents f d m) = [] := by
  cases f with
  | none => rfl
  | some f => exact retryLog_beforeChain f d m

theorem retryLog_afterEvents (f : Option AfterFunc) (d : Dao) (m : Ptr) :
    retryLog (afterEvents f d m) = [] := by
  cases f <;> rfl

theorem attempt_quiet (env : Hooks) (kind : WriteKind) (m : Ptr) : QuietOp (attempt env kind m) := by
  intro d w
  obtain ⟨_, _, _, _, h⟩ := attempt_cases env kind m d w
  rcases h with ⟨_, h⟩ | ⟨_, e, _, _, ht, _⟩ | ⟨_, _, e, _, ht, _⟩ | ⟨_, _, _, ht, _⟩
  · exact ⟨[], by rw [h]; simp, rfl⟩
  · exact ⟨_, ht, retryLog_beforeEvents _ _ _⟩
  · refine ⟨_, by rw [ht, List.append_assoc], ?_⟩
    rw [retryLog_append, retryLog_beforeEvents]; rfl
  · refine ⟨_, by rw [ht, List.append_assoc, List.append_assoc], ?_⟩
    rw [retryLog_append, retryLog_append, retryLog_beforeEvents, retryLog_afterEvents]; rfl

theorem Save_eq (env : Hooks) (dao : Dao) (m : Ptr) (w : World) :
    dao.Save env m w =
      dao.failRetry (attempt env (saveKind (w.models m)) m) DefaultMaxFailRetries w := by
  unfold Dao.Save saveKind
  split <;> rfl

theorem Delete_eq (env : Hooks) (dao : Dao) (m : Ptr) (w : World) :
    dao.Delete env m w =
      if !(w.models m).HasId then (some (errors.New "ID is not set"), w)
      else dao.failRetry (attempt env .delete m) DefaultMaxFailRetries w := rfl

/-- C8: `failRetry` is total and bounded. For every `op` that logs no retry events
of its own (as the closures of `Save` and `Delete` do) and every `maxRetries >= 1`,
`failRetry` calls `op` at least once and at most `maxRetries` times, and any fuel
from `maxRetries - 1` on gives the same result; when `op` fails with the lock error
on every call it is called exactly `maxRetries` times and the error returned is the
one returned by the last call. `Save` and `Delete` run it with
`DefaultMaxFailRetries = 5`. -/
theorem C8_failRetry_bounded (env : Hooks) (dao : Dao)
    (op : Dao → World → Option GoError × World) (maxRetries : Int) (m : Ptr) (w : World)
    (hq : QuietOp op) (hmax : 1 ≤ maxRetries) :
    (∀ fuel, (maxRetries - 1).toNat ≤ fuel →
      dao.failRetryLoop op maxRetries fuel dao 1 w = dao.failRetry op maxRetries w) ∧
    (∃ evs, (dao.failRetry op maxRetries w).2.trace = w.trace ++ evs ∧
      1 ≤ opCalls evs ∧ (opCalls evs : Int) ≤ maxRetries ∧
      ((∀ d v, ∃ e, (op d v).1 = some e ∧ isLocked e = true) →
        (opCalls evs : Int) = maxRetries ∧
        (retryLog evs).getLast? =
          some (.opReturn maxRetries (dao.failRetry op maxRetries w).1) ∧
        ∃ e, (dao.failRetry op maxRetries w).1 = some e ∧ isLocked e = true)) ∧
    DefaultMaxFailRetries = 5 ∧
    ((w.models m).IsNew = true →
      dao.Save env m w = dao.failRetry (fun retryDao => retryDao.create env m) 5 w) ∧
    ((w.models m).IsNew = false →
      dao.Save env m w = dao.failRetry (fun retryDao => retryDao.update env m) 5 w) ∧
    ((w.models m).HasId = true →
      dao.Delete env m w = dao.failRetry (Dao.deleteOp env m) 5 w) ∧
    QuietOp (fun retryDao => retryDao.create env m) ∧
    QuietOp (fun retryDao => retryDao.update env m) ∧
    QuietOp (Dao.deleteOp env m) := by
  refine ⟨fun fuel hf => ?_, ?_, rfl, ?_, ?_, ?_, attempt_quiet env .insert m,
    attempt_quiet env .update m, attempt_quiet env .delete m⟩
  · exact failRetryLoop_fuel dao op maxRetries fuel _ dao 1 w (by simpa using hf) (le_refl _)
  · obtain ⟨errs, evs, h1, h2, _, h4, h5, d, v, h6⟩ := failRetry_log dao op maxRetries hq w
    have hcount : opCalls evs = errs.length + 1 := by
      rw [← opCalls_retryLog, h2, opCalls_retrySkeleton]
    have hle : ((errs.length + 1 : Nat) : Int) ≤ maxRetries := by
      by_cases hne : errs = []
      · subst hne; simpa using hmax
      · have := h4 hne; push_cast; omega
    refine ⟨evs, h1, by omega, by rw [hcount]; exact hle, fun hall => ?_⟩
    obtain ⟨e, he, hl⟩ := hall d v
    have hres : (dao.failRetry op maxRetries w).1 = some e := by rw [h6, he]
    have hge := h5 e hres hl
    have heq : ((errs.length + 1 : Nat) : Int) = maxRetries := by
      push_cast at hle ⊢; omega
    refine ⟨by rw [hcount]; exact heq, ?_, e, hres, hl⟩
    rw [h2, getLast_retrySkeleton]
    congr 2
    push_cast at heq; omega
  · intro h; unfold Dao.Save; rw [if_pos h]; rfl
  · intro h; unfold Dao.Save; rw [if_neg (by simp [h])]; rfl
  · intro h; unfold Dao.Delete; rw [if_neg (by simp [h])]; rfl

/-- C8 at a sample input: an `op` that is always locked, run with `maxRetries = 3`,
is called exactly three times. -/
theorem C8_failRetry_bounded_witness :
    QuietOp (fun (_ : Dao) (v : World) => (some lockedError, v)) ∧ (1 : Int) ≤ 3 ∧
    ∃ evs, (sampleDao.failRetry (fun _ v => (some lockedError, v)) 3 sampleWorld).2.trace =
        sampleWorld.trace ++ evs ∧ (opCalls evs : Int) = 3 := by
  have hq : QuietOp (fun (_ : Dao) (v : World) => (some lockedError, v)) :=
    fun _ v => ⟨[], by simp, rfl⟩
  obtain ⟨_, ⟨evs, h1, _, _, h4⟩, _⟩ :=
    C8_failRetry_bounded sampleHooks sampleDao (fun _ v => (some lockedError, v)) 3 0
      sampleWorld hq (by decide)
  exact ⟨hq, by decide, evs, h1, (h4 (fun _ _ => ⟨lockedError, rfl, by decide⟩)).1⟩

/-- C10: an error that is not the lock error is returned at once. When the first
call of `op` returns an error whose message does not contain "database is locked",
`failRetry` returns that error and the world is the one `op` left (one call, no
sleep, the return logged); and at any attempt a nil result ends the loop: nil is
returned and the world is the one that call of `op` left. -/
theorem C10_no_retry_on_other_errors (dao : Dao) (op : Dao → World → Option GoError × World)
    (maxRetries : Int) (w : World) :
    (∀ e, (op dao (w.log (.opCall 1 dao))).1 = some e → isLocked e = false →
      dao.failRetry op maxRetries w =
        (some e, (op dao (w.log (.opCall 1 dao))).2.log (.opReturn 1 (some e)))) ∧
    (∀ (fuel : Nat) (retryDao : Dao) (attempts : Int) (v : World),
      (op (if attempts = 2 then dao.withoutBeforeHooks else retryDao)
        (v.log (.opCall attempts
          (if attempts = 2 then dao.withoutBeforeHooks else retryDao)))).1 = none →
      dao.failRetryLoop op maxRetries fuel retryDao attempts v =
        (none, (op (if attempts = 2 then dao.withoutBeforeHooks else retryDao)
          (v.log (.opCall attempts
            (if attempts = 2 then dao.withoutBeforeHooks else retryDao)))).2.log
          (.opReturn attempts none))) := by
  constructor
  · intro e he hl
    unfold Dao.failRetry
    rw [failRetryLoop_step]
    simp only [show ¬ ((1 : Int) = 2) by decide, if_false]
    rcases hop : op dao (w.log (.opCall 1 dao)) with ⟨r, w1⟩
    rw [hop] at he
    simp only at he
    subst he
    simp [hl]
  · intro fuel retryDao attempts v h
    rw [failRetryLoop_step]
    rcases hop : op (if attempts = 2 then dao.withoutBeforeHooks else retryDao)
      (v.log (.opCall attempts (if attempts = 2 then dao.withoutBeforeHooks else retryDao)))
      with ⟨r, w1⟩
    rw [hop] at h
    simp only at h
    subst h
    rfl

/-- C10 at a sample input: an `op` failing with a constraint violation is called
once and its error is returned. -/
theorem C10_no_retry_on_other_errors_witness :
    isLocked constraintError = false ∧
    sampleDao.failRetry (fun _ v => (some constraintError, v)) 5 sampleWorld =
      (some constraintError,
        ((sampleWorld.log (.opCall 1 sampleDao)).log (.opReturn 1 (some constraintError)))) :=
  ⟨by decide,
    (C10_no_retry_on_other_errors sampleDao (fun _ v => (some constraintError, v)) 5
      sampleWorld).1 constraintError rfl (by decide)⟩

theorem failRetry_first_error (dao : Dao) (op : Dao → World → Option GoError × World)
    (maxRetries : Int) (w : World) (e : GoError)
    (he : (op dao (w.log (.opCall 1 dao))).1 = some e) (hl : isLocked e = false) :
    dao.failRetry op maxRetries w =
      (some e, (op dao (w.log (.opCall 1 dao))).2.log (.opReturn 1 (some e))) := by
  unfold Dao.failRetry
  rw [failRetryLoop_step]
  simp only [show ¬ ((1 : Int) = 2) by decide, if_false]
  rcases hop : op dao (w.log (.opCall 1 dao)) with ⟨r, w1⟩
  rw [hop] at he
  simp only at he
  subst he
  simp [hl]

theorem hookLog_append (xs ys : List Event) : hookLog (xs ++ ys) = hookLog xs ++ hookLog ys := by
  simp [hookLog]

theorem hookLog_afterEvents (f : Option AfterFunc) (d : Dao) (m : Ptr) :
    hookLog (afterEvents f d m) = afterEvents f d m := by
  cases f <;> rfl

theorem beforeChain_mem (f : BeforeFunc) (d : Dao) (m : Ptr) (ev : Event)
    (h : ev ∈ beforeChain f d m) : ∃ g, ev = .beforeCall g d m ∧ g.depth ≤ f.depth := by
  induction f with
  | user name =>
    simp only [beforeChain, List.mem_singleton] at h
    exact ⟨_, h, le_refl _⟩
  | forward f ih =>
    simp only [beforeChain, List.mem_cons] at h
    rcases h with h | h
    · exact ⟨_, h, le_refl _⟩
    · obtain ⟨g, hg, hd⟩ := ih h
      exact ⟨g, hg, by simp only [BeforeFunc.depth]; omega⟩

theorem hookLog_beforeChain (f : BeforeFunc) (d : Dao) (m : Ptr) :
    hookLog (beforeChain f d m) = beforeChain f d m := by
  apply List.filter_eq_self.mpr
  intro ev hev
  obtain ⟨g, hg, _⟩ := beforeChain_mem f d m ev hev
  subst hg
  rfl

theorem hookLog_beforeEvents (f : Option BeforeFunc) (d : Dao) (m : Ptr) :
    hookLog (beforeEvents f d m) = beforeEvents f d m := by
  cases f with
  | none => rfl
  | some f => exact hookLog_beforeChain f d m

theorem beforeEvents_mem (f : Option BeforeFunc) (d : Dao) (m : Ptr) (ev : Event)
    (h : ev ∈ beforeEvents f d m) : ∃ g, ev = .beforeCall g d m := by
  cases f with
  | none => cases h
  | some f =>
    obtain ⟨g, hg, _⟩ := beforeChain_mem f d m ev h
    exact ⟨g, hg⟩

theorem count_beforeChain_self (f : BeforeFunc) (d : Dao) (m : Ptr) :
    ((beforeChain f d m).filter (Event.isBeforeCallOf f)).length = 1 := by
  cases f with
  | user name => simp [beforeChain, Event.isBeforeCallOf]
  | forward f =>
    have htail : (beforeChain f d m).filter (Event.isBeforeCallOf (.forward f)) = [] := by
      apply List.filter_eq_nil_iff.mpr
      intro ev hev
      obtain ⟨g, hg, hd⟩ := beforeChain_mem f d m ev hev
      subst hg
      simp only [Event.isBeforeCallOf, decide_eq_true_eq]
      intro hgf
      subst hgf
      simp only [BeforeFunc.depth] at hd
      omega
    simp [beforeChain, List.filter_cons, Event.isBeforeCallOf, htail]

theorem callBefore_nil (env : Hooks) (hnil : ∀ name d mv v, (env.before name d mv v).2 = none)
    (f : BeforeFunc) (d : Dao) (m : Ptr) (w : World) : (callBefore env f d m w).1 = none := by
  induction f generalizing w with
  | user name => simp [callBefore, hnil]
  | forward f ih => rw [callBefore]; exact ih _

theorem runBefore_nil (env : Hooks) (hnil : ∀ name d mv v, (env.before name d mv v).2 = none)
    (f : Option BeforeFunc) (d : Dao) (m : Ptr) (w : World) : (runBefore env f d m w).1 = none := by
  cases f with
  | none => rfl
  | some f => exact callBefore_nil env hnil f d m w

theorem callBefore_id (env : Hooks)
    (hid : ∀ name d mv v, (env.before name d mv v).1.Id = mv.Id)
    (f : BeforeFunc) (d : Dao) (m : Ptr) (w : World) :
    ((callBefore env f d m w).2.models m).Id = (w.models m).Id := by
  induction f generalizing w with
  | user name => simp [callBefore, World.setModel, World.log, hid]
  | forward f ih => rw [callBefore, ih]; rfl

theorem runBefore_id (env : Hooks)
    (hid : ∀ name d mv v, (env.before name d mv v).1.Id = mv.Id)
    (f : Option BeforeFunc) (d : Dao) (m : Ptr) (w : World) :
    ((runBefore env f d m w).2.models m).Id = (w.models m).Id := by
  cases f with
  | none => rfl
  | some f => exact callBefore_id env hid f d m w

theorem guardFails_congr (kind : WriteKind) (m : Ptr) (w v : World)
    (h : (v.models m).Id = (w.models m).Id) : guardFails kind m v = guardFails kind m w := by
  cases kind <;> simp [guardFails, Model.HasId, Model.GetId, h]

theorem prelude_id (kind : WriteKind) (m : Ptr) (w : World) (hk : kind ≠ .insert) :
    ((prelude kind m w).models m).Id = (w.models m).Id := by
  cases kind
  · exact absurd rfl hk
  · simp only [prelude]
    split <;> simp [RefreshCreated, RefreshUpdated, World.setModel, Model.RefreshCreated,
      Model.RefreshUpdated]
  · rfl

theorem prelude_guard (kind : WriteKind) (m : Ptr) (w : World) :
    guardFails kind m (prelude kind m w) = guardFails kind m w := by
  cases kind
  · rfl
  · exact guardFails_congr _ _ _ _ (prelude_id _ _ _ (by decide))
  · rfl

theorem failRetryLoop_nil (dao : Dao) (op : Dao → World → Option GoError × World)
    (maxRetries : Int) (fuel : Nat) (retryDao : Dao) (attempts : Int) (v : World)
    (h : (op (if attempts = 2 then dao.withoutBeforeHooks else retryDao)
      (v.log (.opCall attempts
        (if attempts = 2 then dao.withoutBeforeHooks else retryDao)))).1 = none) :
    dao.failRetryLoop op maxRetries fuel retryDao attempts v =
      (none, (op (if attempts = 2 then dao.withoutBeforeHooks else retryDao)
        (v.log (.opCall attempts
          (if attempts = 2 then dao.withoutBeforeHooks else retryDao)))).2.log
        (.opReturn attempts none)) := by
  rw [failRetryLoop_step]
  rcases hop : op (if attempts = 2 then dao.withoutBeforeHooks else retryDao)
    (v.log (.opCall attempts (if attempts = 2 then dao.withoutBeforeHooks else retryDao)))
    with ⟨r, w1⟩
  rw [hop] at h
  simp only at h
  subst h
  rfl

theorem failRetryLoop_retry (dao : Dao) (op : Dao → World → Option GoError × World)
    (maxRetries : Int) (fuel : Nat) (retryDao : Dao) (attempts : Int) (v : World) (e : GoError)
    (h : (op (if attempts = 2 then dao.withoutBeforeHooks else retryDao)
      (v.log (.opCall attempts
        (if attempts = 2 then dao.withoutBeforeHooks else retryDao)))).1 = some e)
    (hlt : attempts < maxRetries) (hl : isLocked e = true) :
    dao.failRetryLoop op maxRetries (fuel + 1) retryDao attempts v =
      dao.failRetryLoop op maxRetries fuel
        (if attempts = 2 then dao.withoutBeforeHooks else retryDao) (attempts + 1)
        (time.Sleep (200 * attempts * time.Millisecond)
          ((op (if attempts = 2 then dao.withoutBeforeHooks else retryDao)
            (v.log (.opCall attempts
              (if attempts = 2 then dao.withoutBeforeHooks else retryDao)))).2.log
            (.opReturn attempts (some e)))) := by
  rw [failRetryLoop_step]
  rcases hop : op (if attempts = 2 then dao.withoutBeforeHooks else retryDao)
    (v.log (.opCall attempts (if attempts = 2 then dao.withoutBeforeHooks else retryDao)))
    with ⟨r, w1⟩
  rw [hop] at h
  simp only at h
  subst h
  simp [hlt, hl]

theorem attempt_fail (env : Hooks) (kind : WriteKind) (m : Ptr) (d : Dao) (w : World)
    (e : GoError) (hg : guardFails kind m w = false)
    (hb : (runBefore env (d.beforeFor kind) d m (prelude kind m w)).1 = none)
    (hu : d.nonconcurrentDB.usable w = true) (hf : w.faults.headD none = some e) :
    (attempt env kind m d w).1 = some e ∧
    (attempt env kind m d w).2.trace = w.trace ++ beforeEvents (d.beforeFor kind) d m ++
      [.write kind d.nonconcurrentDB m (some e)] ∧
    (attempt env kind m d w).2.faults = w.faults.tail ∧
    (attempt env kind m d w).2.models =
      (runBefore env (d.beforeFor kind) d m (prelude kind m w)).2.models ∧
    (attempt env kind m d w).2.tx.map Prod.fst = w.tx.map Prod.fst := by
  obtain ⟨_, _, h3, _, h⟩ := attempt_cases env kind m d w
  rcases h with ⟨h, _⟩ | ⟨_, e2, h, _⟩ | ⟨_, _, e2, h1, h2, _, h4, h5⟩ | ⟨_, _, _, _, _, h5⟩
  · rw [hg] at h; cases h
  · rw [hb] at h; cases h
  · obtain ⟨h6, h7⟩ := h5 hu
    rw [hf] at h6
    injection h6 with h6
    subst h6
    exact ⟨h1, h2, h7, h4, h3⟩
  · have := (h5 hu).1
    rw [hf] at this; cases this

theorem attempt_ok (env : Hooks) (kind : WriteKind) (m : Ptr) (d : Dao) (w : World)
    (hg : guardFails kind m w = false)
    (hb : (runBefore env (d.beforeFor kind) d m (prelude kind m w)).1 = none)
    (hu : d.nonconcurrentDB.usable w = true) (hf : w.faults.headD none = none) :
    (attempt env kind m d w).1 = none ∧
    (attempt env kind m d w).2.trace = w.trace ++ beforeEvents (d.beforeFor kind) d m ++
      [.write kind d.nonconcurrentDB m none] ++ afterEvents (d.afterFor kind) d m := by
  obtain ⟨_, _, _, _, h⟩ := attempt_cases env kind m d w
  rcases h with ⟨h, _⟩ | ⟨_, e2, h, _⟩ | ⟨_, _, e2, _, _, _, _, h5⟩ | ⟨_, _, h1, h2, _⟩
  · rw [hg] at h; cases h
  · rw [hb] at h; cases h
  · have := (h5 hu).1
    rw [hf] at this; cases this
  · exact ⟨h1, h2⟩

theorem withoutBeforeHooks_beforeFor (dao : Dao) (kind : WriteKind) :
    dao.withoutBeforeHooks.beforeFor kind = none := by
  cases kind <;> rfl

theorem withoutBeforeHooks_afterFor (dao : Dao) (kind : WriteKind) :
    dao.withoutBeforeHooks.afterFor kind = dao.afterFor kind := by
  cases kind <;> rfl

theorem guardFails_models (kind : WriteKind) (m : Ptr) (w v : World)
    (h : v.models = w.models) : guardFails kind m v = guardFails kind m w := by
  cases kind <;> simp [guardFails, h]

theorem retry_tail (env : Hooks) (dao : Dao) (kind : WriteKind) (m : Ptr) (maxRetries : Int)
    (rest : List (Option GoError)) :
    ∀ (errs : List GoError) (fuel : Nat) (rd : Dao) (a : Int) (v : World),
      (a = 2 ∨ rd = dao.withoutBeforeHooks) →
      a + (errs.length : Int) ≤ maxRetries → errs.length ≤ fuel →
      (∀ e ∈ errs, isLocked e = true) →
      v.faults = errs.map some ++ none :: rest →
      dao.nonconcurrentDB.usable v = true →
      guardFails kind m v = false →
      (dao.failRetryLoop (attempt env kind m) maxRetries fuel rd a v).1 = none ∧
      ∃ evs, (dao.failRetryLoop (attempt env kind m) maxRetries fuel rd a v).2.trace =
          v.trace ++ evs ∧
        hookLog evs = errs.map (fun e => Event.write kind dao.nonconcurrentDB m (some e)) ++
          [.write kind dao.nonconcurrentDB m none] ++
          afterEvents (dao.afterFor kind) dao.withoutBeforeHooks m := by
  intro errs
  induction errs with
  | nil =>
    intro fuel rd a v ha _ _ _ hf hu hg
    have hd : (if a = 2 then dao.withoutBeforeHooks else rd) = dao.withoutBeforeHooks := by
      rcases ha with h | h
      · simp [h]
      · simp [h]
    have hok := attempt_ok env kind m dao.withoutBeforeHooks
      (v.log (.opCall a dao.withoutBeforeHooks)) hg
      (by rw [withoutBeforeHooks_beforeFor]; rfl) hu (by
        show v.faults.headD none = none
        rw [hf]; rfl)
    rw [failRetryLoop_nil _ _ _ _ _ _ _ (by rw [hd]; exact hok.1), hd]
    refine ⟨rfl, [.opCall a dao.withoutBeforeHooks] ++
      (beforeEvents (dao.withoutBeforeHooks.beforeFor kind) dao.withoutBeforeHooks m ++
        [.write kind dao.withoutBeforeHooks.nonconcurrentDB m none] ++
        afterEvents (dao.withoutBeforeHooks.afterFor kind) dao.withoutBeforeHooks m) ++
      [.opReturn a none], ?_, ?_⟩
    · rw [World.log_trace, hok.2, World.log_trace]
      simp only [List.append_assoc]
    · rw [withoutBeforeHooks_beforeFor, withoutBeforeHooks_afterFor,
        show dao.withoutBeforeHooks.nonconcurrentDB = dao.nonconcurrentDB from rfl]
      simp only [hookLog_append, hookLog_afterEvents, beforeEvents]
      simp [hookLog, Event.isRetryEvent]
  | cons e es ih =>
    intro fuel rd a v ha hlen hfuel hlock hf hu hg
    have hd : (if a = 2 then dao.withoutBeforeHooks else rd) = dao.withoutBeforeHooks := by
      rcases ha with h | h
      · simp [h]
      · simp [h]
    simp only [List.length_cons, Nat.cast_add, Nat.cast_one] at hlen
    obtain ⟨n, rfl⟩ : ∃ n, fuel = n + 1 := ⟨fuel - 1, by simp at hfuel; omega⟩
    obtain ⟨f1, f2, f3, f4, f5⟩ := attempt_fail env kind m dao.withoutBeforeHooks
      (v.log (.opCall a dao.withoutBeforeHooks)) e hg
      (by rw [withoutBeforeHooks_beforeFor]; rfl) hu (by
        show v.faults.headD none = some e
        rw [hf]; rfl)
    rw [failRetryLoop_retry _ _ _ _ _ _ _ e (by rw [hd]; exact f1) (by omega)
      (hlock e (List.mem_cons_self _ _)), hd]
    obtain ⟨r1, evs, r2, r3⟩ := ih n dao.withoutBeforeHooks (a + 1)
      (time.Sleep (200 * a * time.Millisecond)
        ((attempt env kind m dao.withoutBeforeHooks
          (v.log (.opCall a dao.withoutBeforeHooks))).2.log (.opReturn a (some e))))
      (Or.inr rfl) (by omega) (by simp at hfuel; omega)
      (fun x hx => hlock x (List.mem_cons_of_mem _ hx))
      (by
        show (attempt env kind m dao.withoutBeforeHooks
          (v.log (.opCall a dao.withoutBeforeHooks))).2.faults = _
        rw [f3]
        show v.faults.tail = _
        rw [hf]; rfl)
      (by
        rw [← hu]
        exact usable_congr _ _ _ f5)
      (by
        rw [guardFails_models kind m
          (prelude kind m (v.log (.opCall a dao.withoutBeforeHooks))) _
          (by
            show (attempt env kind m dao.withoutBeforeHooks
              (v.log (.opCall a dao.withoutBeforeHooks))).2.models = _
            rw [f4, withoutBeforeHooks_beforeFor]
            rfl), prelude_guard]
        exact hg)
    refine ⟨r1, [.opCall a dao.withoutBeforeHooks] ++
      (beforeEvents (dao.withoutBeforeHooks.beforeFor kind) dao.withoutBeforeHooks m ++
        [.write kind dao.withoutBeforeHooks.nonconcurrentDB m (some e)]) ++
      [.opReturn a (some e), .sleep (200 * a * time.Millisecond)] ++ evs, ?_, ?_⟩
    · rw [r2, time.Sleep_trace, World.log_trace, f2, World.log_trace]
      simp only [List.append_assoc, List.cons_append, List.nil_append]
    · rw [withoutBeforeHooks_beforeFor,
        show dao.withoutBeforeHooks.nonconcurrentDB = dao.nonconcurrentDB from rfl]
      simp only [hookLog_append, r3, beforeEvents]
      simp [hookLog, Event.isRetryEvent]

theorem retry_until_success (env : Hooks) (dao : Dao) (kind : WriteKind) (m : Ptr)
    (maxRetries : Int) (w : World) (errs : List GoError) (rest : List (Option GoError))
    (hN : (errs.length : Int) < maxRetries)
    (hlocked : ∀ e ∈ errs, isLocked e = true)
    (hfaults : w.faults = errs.map some ++ none :: rest)
    (husable : dao.nonconcurrentDB.usable w = true)
    (hnil : ∀ name d mv v, (env.before name d mv v).2 = none)
    (hid : ∀ name d mv v, (env.before name d mv v).1.Id = mv.Id)
    (hguard : guardFails kind m w = false) :
    (dao.failRetry (attempt env kind m) maxRetries w).1 = none ∧
    ∃ evs, (dao.failRetry (attempt env kind m) maxRetries w).2.trace = w.trace ++ evs ∧
      hookLog evs = beforeEvents (dao.beforeFor kind) dao m ++
        errs.map (fun e => Event.write kind dao.nonconcurrentDB m (some e)) ++
        [.write kind dao.nonconcurrentDB m none] ++
        afterEvents (dao.afterFor kind) (if errs = [] then dao else dao.withoutBeforeHooks) m := by
  have hd : (if (1 : Int) = 2 then dao.withoutBeforeHooks else dao) = dao := by simp
  have hb := runBefore_nil env hnil (dao.beforeFor kind) dao m
    (prelude kind m (w.log (.opCall 1 dao)))
  unfold Dao.failRetry
  cases errs with
  | nil =>
    have hok := attempt_ok env kind m dao (w.log (.opCall 1 dao)) hguard hb husable (by
      show w.faults.headD none = none
      rw [hfaults]; rfl)
    rw [failRetryLoop_nil _ _ _ _ _ _ _ (by rw [hd]; exact hok.1), hd]
    refine ⟨rfl, [.opCall 1 dao] ++
      (beforeEvents (dao.beforeFor kind) dao m ++ [.write kind dao.nonconcurrentDB m none] ++
        afterEvents (dao.afterFor kind) dao m) ++ [.opReturn 1 none], ?_, ?_⟩
    · rw [World.log_trace, hok.2, World.log_trace]
      simp only [List.append_assoc]
    · simp only [hookLog_append, hookLog_afterEvents, hookLog_beforeEvents]
      simp [hookLog, Event.isRetryEvent]
  | cons e es =>
    simp only [List.length_cons, Nat.cast_add, Nat.cast_one] at hN
    obtain ⟨f1, f2, f3, f4, f5⟩ := attempt_fail env kind m dao (w.log (.opCall 1 dao)) e
      hguard hb husable (by
        show w.faults.headD none = some e
        rw [hfaults]; rfl)
    obtain ⟨n, hn⟩ : ∃ n, (maxRetries - 1).toNat = n + 1 :=
      ⟨(maxRetries - 1).toNat - 1, by omega⟩
    rw [hn, failRetryLoop_retry _ _ _ _ _ _ _ e (by rw [hd]; exact f1) (by omega)
      (hlocked e (List.mem_cons_self _ _)), hd]
    obtain ⟨r1, evs, r2, r3⟩ := retry_tail env dao kind m maxRetries rest es n dao (1 + 1)
      (time.Sleep (200 * 1 * time.Millisecond)
        ((attempt env kind m dao (w.log (.opCall 1 dao))).2.log (.opReturn 1 (some e))))
      (Or.inl rfl) (by omega) (by omega)
      (fun x hx => hlocked x (List.mem_cons_of_mem _ hx))
      (by
        show (attempt env kind m dao (w.log (.opCall 1 dao))).2.faults = _
        rw [f3]
        show w.faults.tail = _
        rw [hfaults]; rfl)
      (by
        rw [← husable]
        exact usable_congr _ _ _ f5)
      (by
        cases kind
        · rfl
        · rw [← hguard]
          apply guardFails_congr
          show ((attempt env .update m dao (w.log (.opCall 1 dao))).2.models m).Id = _
          rw [f4, runBefore_id env hid, prelude_id _ _ _ (by decide)]
          rfl
        · rfl)
    refine ⟨r1, [.opCall 1 dao] ++
      (beforeEvents (dao.beforeFor kind) dao m ++ [.write kind dao.nonconcurrentDB m (some e)]) ++
      [.opReturn 1 (some e), .sleep (200 * 1 * time.Millisecond)] ++ evs, ?_, ?_⟩
    · rw [r2, time.Sleep_trace, World.log_trace, f2, World.log_trace]
      simp only [List.append_assoc, List.cons_append, List.nil_append]
    · simp only [hookLog_append, r3, hookLog_beforeEvents]
      simp [hookLog, Event.isRetryEvent]

theorem filter_hookLog (p : Event → Bool) (hp : ∀ e, p e = true → e.isRetryEvent = false)
    (evs : List Event) : (hookLog evs).filter p = evs.filter p := by
  unfold hookLog
  rw [List.filter_filter]
  apply List.filter_congr
  intro e _
  cases h : p e
  · simp
  · simp [hp e h]

theorem filter_beforeEvents_nil (p : Event → Bool) (hp : ∀ g d m, p (.beforeCall g d m) = false)
    (f : Option BeforeFunc) (d : Dao) (m : Ptr) : (beforeEvents f d m).filter p = [] := by
  apply List.filter_eq_nil_iff.mpr
  intro ev hev
  obtain ⟨g, hg⟩ := beforeEvents_mem f d m ev hev
  subst hg
  simp [hp]

theorem filter_failedWrites_nil (p : Event → Bool)
    (hp : ∀ k db m e, p (.write k db m (some e)) = false)
    (kind : WriteKind) (db : Builder) (m : Ptr) (errs : List GoError) :
    (errs.map (fun e => Event.write kind db m (some e))).filter p = [] := by
  apply List.filter_eq_nil_iff.mpr
  intro ev hev
  obtain ⟨e, _, he⟩ := List.mem_map.mp hev
  subst he
  simp [hp]

theorem filter_afterEvents_nil (p : Event → Bool) (hp : ∀ g d m, p (.afterCall g d m) = false)
    (f : Option AfterFunc) (d : Dao) (m : Ptr) : (afterEvents f d m).filter p = [] := by
  cases f with
  | none => rfl
  | some f => simp [afterEvents, hp]

theorem perform_eq (env : Hooks) (dao : Dao) (kind : WriteKind) (m : Ptr) (w : World)
    (hkind : kind = .delete ∨ kind = saveKind (w.models m))
    (hguard : kind ≠ .insert → (w.models m).HasId = true) :
    guardFails kind m w = false ∧
    dao.perform env kind m w = dao.failRetry (attempt env kind m) DefaultMaxFailRetries w := by
  cases kind with
  | insert =>
    refine ⟨rfl, ?_⟩
    rcases hkind with h | h
    · cases h
    · show dao.Save env m w = _
      rw [Save_eq, ← h]
  | update =>
    refine ⟨by simp [guardFails, hguard (by decide)], ?_⟩
    rcases hkind with h | h
    · cases h
    · show dao.Save env m w = _
      rw [Save_eq, ← h]
  | delete =>
    refine ⟨rfl, ?_⟩
    show dao.Delete env m w = _
    rw [Delete_eq, if_neg (by simp [hguard (by decide)])]

/-- C7: retrying is invisible to the callbacks. Let the storage engine fail the
first `N < 5` writes with the lock error and let the next write succeed, on a
usable handle, for an operation whose identifier check passes and whose
before-callbacks return nil and leave the identifier alone. Then `Save`/`Delete`
returns nil; the writes logged are the `N` failures followed by one success; the
before-callback of the Dao is invoked exactly once (in the first attempt, with the
Dao itself) and the after-callback exactly once, whatever `N` is. -/
theorem C7_retry_until_success (env : Hooks) (dao : Dao) (kind : WriteKind) (m : Ptr)
    (w : World) (N : Nat) (errs : List GoError) (rest : List (Option GoError))
    (hN : N < 5) (hlen : errs.length = N)
    (hlocked : ∀ e ∈ errs, isLocked e = true)
    (hfaults : w.faults = errs.map some ++ none :: rest)
    (husable : dao.nonconcurrentDB.usable w = true)
    (hkind : kind = .delete ∨ kind = saveKind (w.models m))
    (hguard : kind ≠ .insert → (w.models m).HasId = true)
    (hnil : ∀ name d mv v, (env.before name d mv v).2 = none)
    (hid : ∀ name d mv v, (env.before name d mv v).1.Id = mv.Id) :
    (dao.perform env kind m w).1 = none ∧
    ∃ evs, (dao.perform env kind m w).2.trace = w.trace ++ evs ∧
      hookLog evs = beforeEvents (dao.beforeFor kind) dao m ++
        errs.map (fun e => Event.write kind dao.nonconcurrentDB m (some e)) ++
        [.write kind dao.nonconcurrentDB m none] ++
        afterEvents (dao.afterFor kind) (if N = 0 then dao else dao.withoutBeforeHooks) m ∧
      (evs.filter Event.isOkWrite).length = 1 ∧
      (evs.filter Event.isWrite).length = N + 1 ∧
      (∀ f, dao.beforeFor kind = some f → (evs.filter (Event.isBeforeCallOf f)).length = 1) ∧
      (∀ g, dao.afterFor kind = some g → (evs.filter (Event.isAfterCallOf g)).length = 1) := by
  obtain ⟨hg, hp⟩ := perform_eq env dao kind m w hkind hguard
  rw [hp]
  obtain ⟨h1, evs, h2, h3⟩ := retry_until_success env dao kind m DefaultMaxFailRetries w errs
    rest (by rw [hlen]; show (N : Int) < 5; omega) hlocked hfaults husable hnil hid hg
  have hif : (if errs = [] then dao else dao.withoutBeforeHooks) =
      (if N = 0 then dao else dao.withoutBeforeHooks) := by
    subst hlen
    cases errs <;> simp
  rw [hif] at h3
  refine ⟨h1, evs, h2, h3, ?_, ?_, ?_, ?_⟩
  · rw [← filter_hookLog _ (by intro e he; cases e <;> simp_all [Event.isOkWrite,
      Event.isRetryEvent]), h3]
    simp only [List.filter_append]
    rw [filter_beforeEvents_nil _ (by intros; rfl), filter_failedWrites_nil _ (by intros; rfl),
      filter_afterEvents_nil _ (by intros; rfl)]
    rfl
  · rw [← filter_hookLog _ (by intro e he; cases e <;> simp_all [Event.isWrite,
      Event.isRetryEvent]), h3]
    simp only [List.filter_append]
    rw [filter_beforeEvents_nil _ (by intros; rfl), filter_afterEvents_nil _ (by intros; rfl)]
    have : (errs.map (fun e => Event.write kind dao.nonconcurrentDB m (some e))).filter
        Event.isWrite = errs.map (fun e => Event.write kind dao.nonconcurrentDB m (some e)) := by
      apply List.filter_eq_self.mpr
      intro ev hev
      obtain ⟨e, _, he⟩ := List.mem_map.mp hev
      subst he
      rfl
    rw [this]
    simp [Event.isWrite, hlen]
  · intro f hf
    rw [← filter_hookLog _ (by intro e he; cases e <;> simp_all [Event.isBeforeCallOf,
      Event.isRetryEvent]), h3]
    simp only [List.filter_append]
    rw [filter_failedWrites_nil _ (by intros; rfl), filter_afterEvents_nil _ (by intros; rfl), hf]
    simp [beforeEvents, Event.isBeforeCallOf, count_beforeChain_self]
  · intro g hgf
    rw [← filter_hookLog _ (by intro e he; cases e <;> simp_all [Event.isAfterCallOf,
      Event.isRetryEvent]), h3]
    simp only [List.filter_append]
    rw [filter_beforeEvents_nil _ (by intros; rfl), filter_failedWrites_nil _ (by intros; rfl),
      hgf]
    simp [afterEvents, Event.isAfterCallOf]

/-- C7 at a sample input: the first write is locked, the second succeeds (`N = 1`). -/
theorem C7_retry_until_success_witness :
    (sampleDao.perform sampleHooks .insert 0
      { sampleWorld with faults := [some lockedError, none] }).1 = none :=
  (C7_retry_until_success sampleHooks sampleDao .insert 0
    { sampleWorld with faults := [some lockedError, none] } 1 [lockedError] []
    (by decide) rfl (by decide) rfl rfl (Or.inr rfl) (fun h => absurd rfl h)
    (fun _ _ _ _ => rfl) (fun _ _ _ _ => rfl)).1

theorem before_error_aborts (env : Hooks) (dao : Dao) (kind : WriteKind) (m : Ptr) (w : World)
    (maxRetries : Int) (e : GoError) (hl : isLocked e = false)
    (hg : guardFails kind m w = false)
    (hb : firstBeforeResult env dao kind m w = some e) :
    (dao.failRetry (attempt env kind m) maxRetries w).1 = some e ∧
    (dao.failRetry (attempt env kind m) maxRetries w).2.store = w.store ∧
    (dao.failRetry (attempt env kind m) maxRetries w).2.tx = w.tx ∧
    (dao.failRetry (attempt env kind m) maxRetries w).2.trace =
      w.trace ++ ([.opCall 1 dao] ++ beforeEvents (dao.beforeFor kind) dao m ++
        [.opReturn 1 (some e)]) := by
  obtain ⟨_, _, _, _, h⟩ := attempt_cases env kind m dao (w.log (.opCall 1 dao))
  have hb2 : (runBefore env (dao.beforeFor kind) dao m
      (prelude kind m (w.log (.opCall 1 dao)))).1 = some e := hb
  rcases h with ⟨h, _⟩ | ⟨_, e2, h, h1, h2, _, _, h5, h6, _⟩ | ⟨_, h, _⟩ | ⟨_, h, _⟩
  · have : guardFails kind m w = true := h
    rw [hg] at this; cases this
  · rw [hb2] at h
    injection h with h
    subst h
    rw [failRetry_first_error dao _ maxRetries w e h1 hl]
    refine ⟨rfl, h5, h6, ?_⟩
    rw [World.log_trace, h2, World.log_trace]
    simp only [List.append_assoc]
  · rw [hb2] at h; cases h
  · rw [hb2] at h; cases h

/-- C6 (as amended): a before-callback error that is not the lock error aborts the
operation. When the before-callback of the first attempt returns an error `e` whose
message does not contain "database is locked", `Save`/`Delete` returns exactly `e`,
the database is untouched and the log gains no storage write and no after-callback
invocation (only the call of `op`, the before-callback invocation and the return). -/
theorem C6_before_error_aborts (env : Hooks) (dao : Dao) (kind : WriteKind) (m : Ptr)
    (w : World) (e : GoError)
    (hl : isLocked e = false)
    (hkind : kind = .delete ∨ kind = saveKind (w.models m))
    (hguard : kind ≠ .insert → (w.models m).HasId = true)
    (hb : firstBeforeResult env dao kind m w = some e) :
    (dao.perform env kind m w).1 = some e ∧
    (dao.perform env kind m w).2.store = w.store ∧
    (dao.perform env kind m w).2.tx = w.tx ∧
    ∃ evs, (dao.perform env kind m w).2.trace = w.trace ++ evs ∧
      ∀ ev ∈ evs, ev.isWrite = false ∧ ev.isAfterCall = false := by
  obtain ⟨hg, hp⟩ := perform_eq env dao kind m w hkind hguard
  rw [hp]
  obtain ⟨h1, h2, h3, h4⟩ := before_error_aborts env dao kind m w DefaultMaxFailRetries e hl hg hb
  refine ⟨h1, h2, h3, _, h4, ?_⟩
  intro ev hev
  simp only [List.mem_append, List.mem_singleton] at hev
  rcases hev with (hev | hev) | hev
  · subst hev; exact ⟨rfl, rfl⟩
  · obtain ⟨g, hg2⟩ := beforeEvents_mem _ _ _ _ hev
    subst hg2; exact ⟨rfl, rfl⟩
  · subst hev; exact ⟨rfl, rfl⟩

/-- C6 at a sample input: a before-create callback failing with a constraint error. -/
theorem C6_before_error_aborts_witness :
    isLocked constraintError = false ∧
    (sampleDao.perform (abortingHooks constraintError) .insert 0 sampleWorld).1 =
      some constraintError :=
  ⟨by decide,
    (C6_before_error_aborts (abortingHooks constraintError) sampleDao .insert 0 sampleWorld
      constraintError (by decide) (Or.inr rfl) (fun h => absurd rfl h) rfl).1⟩

/-- C6 as stated fails: when the before-create callback returns an error whose
message is "database is locked", `Save` retries without before-callbacks, the insert
is written, the after-callback runs and `Save` returns nil instead of the error. -/
theorem C6_counterexample :
    firstBeforeResult (abortingHooks lockedError) sampleDao .insert 0 sampleWorld =
      some lockedError ∧
    (sampleDao.Save (abortingHooks lockedError) 0 sampleWorld).1 = none ∧
    Event.write .insert (.DB 1) 0 none ∈
      (sampleDao.Save (abortingHooks lockedError) 0 sampleWorld).2.trace ∧
    Event.afterCall (.user "afterCreate") sampleDao.withoutBeforeHooks 0 ∈
      (sampleDao.Save (abortingHooks lockedError) 0 sampleWorld).2.trace := by
  refine ⟨rfl, by decide, by decide, by decide⟩

theorem collected_append (slot : Nat) (xs ys : List Event) :
    collected slot (xs ++ ys) = collected slot xs ++ collected slot ys := by
  simp [collected]

theorem okWrites_append (xs ys : List Event) : okWrites (xs ++ ys) = okWrites xs ++ okWrites ys := by
  simp [okWrites]

theorem owedAfterCalls_append (dao : Dao) (xs ys : List Event) :
    owedAfterCalls dao (xs ++ ys) = owedAfterCalls dao xs ++ owedAfterCalls dao ys := by
  simp [owedAfterCalls, okWrites_append, List.flatMap_append]

theorem replayEvents_append (dao : Dao) (xs ys : List afterCallGroup) :
    replayEvents dao (xs ++ ys) = replayEvents dao xs ++ replayEvents dao ys := by
  simp [replayEvents, List.flatMap_append]

theorem GoodBody_nil (dao : Dao) (slot : Nat) : GoodBody dao slot [] :=
  ⟨fun f d m h => (by cases h), rfl, fun ev h => (by cases h)⟩

theorem GoodBody_append (dao : Dao) (slot : Nat) (xs ys : List Event)
    (hx : GoodBody dao slot xs) (hy : GoodBody dao slot ys) : GoodBody dao slot (xs ++ ys) := by
  obtain ⟨x1, x2, x3⟩ := hx
  obtain ⟨y1, y2, y3⟩ := hy
  refine ⟨?_, ?_, ?_⟩
  · intro f d m h
    rcases List.mem_append.mp h with h | h
    · exact x1 f d m h
    · exact y1 f d m h
  · rw [collected_append, replayEvents_append, owedAfterCalls_append, x2, y2]
  · intro ev h
    rcases List.mem_append.mp h with h | h
    · exact x3 ev h
    · exact y3 ev h

theorem GoodBody_beforeEvents (dao : Dao) (slot : Nat) (f : Option BeforeFunc) (d : Dao)
    (m : Ptr) : GoodBody dao slot (beforeEvents f d m) := by
  have hall : ∀ ev ∈ beforeEvents f d m, ∃ g, ev = .beforeCall g d m :=
    fun ev h => beforeEvents_mem f d m ev h
  refine ⟨?_, ?_, ?_⟩
  · intro g d2 m2 h
    obtain ⟨g2, hg⟩ := hall _ h
    cases hg
  · have h1 : collected slot (beforeEvents f d m) = [] := by
      apply List.filterMap_eq_nil_iff.mpr
      intro ev h
      obtain ⟨g2, hg⟩ := hall _ h
      subst hg; rfl
    have h2 : okWrites (beforeEvents f d m) = [] := by
      apply List.filterMap_eq_nil_iff.mpr
      intro ev h
      obtain ⟨g2, hg⟩ := hall _ h
      subst hg; rfl
    rw [h1, owedAfterCalls, h2]; rfl
  · intro ev h
    obtain ⟨g2, hg⟩ := hall _ h
    subst hg; rfl

theorem GoodBody_quiet (dao : Dao) (slot : Nat) (ev : Event)
    (h : ev.isRetryEvent = true) : GoodBody dao slot [ev] := by
  cases ev <;> first
    | (cases h; done)
    | exact ⟨fun f d m hm => by simp at hm, rfl, fun e he => by simp at he; subst he; rfl⟩

theorem GoodBody_failedWrite (dao : Dao) (slot : Nat) (kind : WriteKind) (db : Builder)
    (m : Ptr) (e : GoError) : GoodBody dao slot [.write kind db m (some e)] :=
  ⟨fun f d m hm => by simp at hm, rfl, fun e he => by simp at he; subst he; rfl⟩

theorem afterForAction_action (dao : Dao) (kind : WriteKind) :
    dao.afterForAction kind.action = dao.afterFor kind := by
  cases kind <;> simp [Dao.afterForAction, WriteKind.action, Dao.afterFor]

theorem BodyStep_refl (dao : Dao) (slot : Nat) (w : World) : BodyStep dao slot w w :=
  ⟨rfl, rfl, rfl, rfl, [], (by simp), GoodBody_nil dao slot, (by simp [collected])⟩

theorem BodyStep_trans (dao : Dao) (slot : Nat) (a b c : World)
    (h1 : BodyStep dao slot a b) (h2 : BodyStep dao slot b c) : BodyStep dao slot a c := by
  obtain ⟨a1, a2, a3, a4, xs, a5, a6, a7⟩ := h1
  obtain ⟨b1, b2, b3, b4, ys, b5, b6, b7⟩ := h2
  refine ⟨b1.trans a1, b2.trans a2, b3.trans a3, b4.trans a4, xs ++ ys, ?_,
    GoodBody_append dao slot xs ys a6 b6, ?_⟩
  · rw [b5, a5, List.append_assoc]
  · rw [b7, a7, collected_append, List.append_assoc]

theorem BodyStep_log (dao : Dao) (slot : Nat) (w : World) (ev : Event)
    (h : ev.isRetryEvent = true) : BodyStep dao slot w (w.log ev) := by
  refine ⟨rfl, rfl, rfl, rfl, [ev], rfl, GoodBody_quiet dao slot ev h, ?_⟩
  cases ev <;> first
    | (cases h; done)
    | simp [collected, World.log]

theorem BodyStep_sleep (dao : Dao) (slot : Nat) (w : World) (d : Int) :
    BodyStep dao slot w (time.Sleep d w) :=
  ⟨rfl, rfl, rfl, rfl, [.sleep d], rfl, GoodBody_quiet dao slot _ rfl,
    (by simp [collected, time.Sleep, World.log])⟩

theorem IsBodyDao_withoutBeforeHooks (dao : Dao) (slot tx : Nat) (d : Dao)
    (h : IsBodyDao dao slot tx d) : IsBodyDao dao slot tx d.withoutBeforeHooks :=
  ⟨h.1, fun kind => by rw [withoutBeforeHooks_afterFor]; exact h.2 kind⟩

theorem IsBodyDao_nestedTxDao (dao : Dao) (slot tx : Nat) (d : Dao)
    (h : IsBodyDao dao slot tx d) : IsBodyDao dao slot tx (d.nestedTxDao (.Tx tx)) :=
  ⟨rfl, fun kind => by
    rw [← h.2 kind]
    cases kind <;> rfl⟩

theorem IsBodyDao_topTxDao (dao : Dao) (slot tx : Nat) :
    IsBodyDao dao slot tx (dao.topTxDao slot (.Tx tx)) :=
  ⟨rfl, fun kind => by cases kind <;> rfl⟩

theorem GoodBody_success (dao : Dao) (slot tx : Nat) (d : Dao) (h : IsBodyDao dao slot tx d)
    (kind : WriteKind) (m : Ptr) :
    GoodBody dao slot ([.write kind d.nonconcurrentDB m none] ++ afterEvents (d.afterFor kind) d m) ∧
    collected slot ([.write kind d.nonconcurrentDB m none] ++ afterEvents (d.afterFor kind) d m) =
      ((dao.afterFor kind).map fun _ => (⟨kind.action, d, m⟩ : afterCallGroup)).toList := by
  rw [h.2 kind]
  cases hk : dao.afterFor kind with
  | none =>
    refine ⟨⟨fun f d2 m2 hm => by simp [afterEvents] at hm, ?_,
      fun e he => by simp [afterEvents] at he; subst he; rfl⟩, rfl⟩
    simp [afterEvents, collected, replayEvents, owedAfterCalls, okWrites, hk]
  | some g =>
    refine ⟨⟨fun f d2 m2 hm => ?_, ?_, fun e he => ?_⟩, ?_⟩
    · simp [afterEvents] at hm
      exact ⟨_, hm.1⟩
    · simp [afterEvents, collected, replayEvents, owedAfterCalls, okWrites, hk,
        afterForAction_action]
    · simp [afterEvents] at he
      rcases he with he | he <;> subst he <;> rfl
    · simp [afterEvents, collected]

theorem collectInto_slot (dao : Dao) (slot tx : Nat) (d : Dao) (h : IsBodyDao dao slot tx d)
    (kind : WriteKind) (m : Ptr) (slots : Nat → List afterCallGroup) :
    collectInto (d.afterFor kind) d m slots slot =
      slots slot ++ ((dao.afterFor kind).map fun _ => (⟨kind.action, d, m⟩ : afterCallGroup)).toList := by
  rw [h.2 kind]
  cases dao.afterFor kind <;> simp [collectInto]

theorem collected_beforeEvents (slot : Nat) (f : Option BeforeFunc) (d : Dao) (m : Ptr) :
    collected slot (beforeEvents f d m) = [] := by
  apply List.filterMap_eq_nil_iff.mpr
  intro ev h
  obtain ⟨g2, hg⟩ := beforeEvents_mem f d m ev h
  subst hg; rfl

theorem attempt_body (env : Hooks) (dao : Dao) (slot tx : Nat) (d : Dao)
    (h : IsBodyDao dao slot tx d) (kind : WriteKind) (m : Ptr) (w : World) :
    BodyStep dao slot w (attempt env kind m d w).2 := by
  obtain ⟨c1, c2, c3, c4, hc⟩ := attempt_cases env kind m d w
  have hstore := c4 (by rw [h.1]; intro c hcc; cases hcc)
  refine ⟨hstore, c2, c1, c3, ?_⟩
  rcases hc with ⟨_, hA⟩ | ⟨_, e, _, _, ht, ha, _⟩ | ⟨_, _, e, _, ht, ha, _⟩ | ⟨_, _, _, ht, ha, _⟩
  · rw [hA]
    exact ⟨[], (by simp), GoodBody_nil dao slot, (by simp [collected])⟩
  · refine ⟨_, ht, GoodBody_beforeEvents dao slot _ d m, ?_⟩
    rw [ha, collected_beforeEvents, List.append_nil]
  · refine ⟨beforeEvents (d.beforeFor kind) d m ++ [.write kind d.nonconcurrentDB m (some e)],
      (by rw [ht, List.append_assoc]),
      GoodBody_append _ _ _ _ (GoodBody_beforeEvents dao slot _ d m)
        (GoodBody_failedWrite dao slot kind _ m e), ?_⟩
    rw [ha, collected_append, collected_beforeEvents]
    simp [collected]
  · obtain ⟨g1, g2⟩ := GoodBody_success dao slot tx d h kind m
    refine ⟨beforeEvents (d.beforeFor kind) d m ++
      ([.write kind d.nonconcurrentDB m none] ++ afterEvents (d.afterFor kind) d m),
      (by rw [ht]; simp only [List.append_assoc]),
      GoodBody_append _ _ _ _ (GoodBody_beforeEvents dao slot _ d m) g1, ?_⟩
    rw [ha, collectInto_slot dao slot tx d h, collected_append, collected_beforeEvents, g2,
      List.nil_append]

theorem failRetryLoop_rel (R : World → World → Prop)
    (htrans : ∀ a b c, R a b → R b c → R a c)
    (hlog : ∀ w ev, ev.isRetryEvent = true → R w (w.log ev))
    (hsleep : ∀ w d, R w (time.Sleep d w))
    (dao : Dao) (op : Dao → World → Option GoError × World)
    (hop : ∀ d w, (d = dao ∨ d = dao.withoutBeforeHooks) → R w (op d w).2)
    (maxRetries : Int) :
    ∀ (fuel : Nat) (rd : Dao) (a : Int) (w : World),
      (rd = dao ∨ rd = dao.withoutBeforeHooks) →
      R w (dao.failRetryLoop op maxRetries fuel rd a w).2 := by
  intro fuel
  induction fuel with
  | zero =>
    intro rd a w hrd
    have hd : (if a = 2 then dao.withoutBeforeHooks else rd) = dao ∨
        (if a = 2 then dao.withoutBeforeHooks else rd) = dao.withoutBeforeHooks := by
      split
      · exact Or.inr rfl
      · exact hrd
    have h1 := hlog w (.opCall a (if a = 2 then dao.withoutBeforeHooks else rd)) rfl
    have h2 := hop _ (w.log (.opCall a (if a = 2 then dao.withoutBeforeHooks else rd))) hd
    rw [failRetryLoop_step]
    rcases hop2 : op (if a = 2 then dao.withoutBeforeHooks else rd)
      (w.log (.opCall a (if a = 2 then dao.withoutBeforeHooks else rd))) with ⟨r, w1⟩
    rw [hop2] at h2
    cases r with
    | none => exact htrans _ _ _ (htrans _ _ _ h1 h2) (hlog _ (.opReturn a none) rfl)
    | some err =>
      simp only
      split
      · exact htrans _ _ _ (htrans _ _ _ h1 h2) (hlog _ (.opReturn a (some err)) rfl)
      · exact htrans _ _ _ (htrans _ _ _ h1 h2) (hlog _ (.opReturn a (some err)) rfl)
  | succ n ih =>
    intro rd a w hrd
    have hd : (if a = 2 then dao.withoutBeforeHooks else rd) = dao ∨
        (if a = 2 then dao.withoutBeforeHooks else rd) = dao.withoutBeforeHooks := by
      split
      · exact Or.inr rfl
      · exact hrd
    have h1 := hlog w (.opCall a (if a = 2 then dao.withoutBeforeHooks else rd)) rfl
    have h2 := hop _ (w.log (.opCall a (if a = 2 then dao.withoutBeforeHooks else rd))) hd
    rw [failRetryLoop_step]
    rcases hop2 : op (if a = 2 then dao.withoutBeforeHooks else rd)
      (w.log (.opCall a (if a = 2 then dao.withoutBeforeHooks else rd))) with ⟨r, w1⟩
    rw [hop2] at h2
    cases r with
    | none => exact htrans _ _ _ (htrans _ _ _ h1 h2) (hlog _ (.opReturn a none) rfl)
    | some err =>
      simp only
      split
      · exact htrans _ _ _ (htrans _ _ _ (htrans _ _ _ (htrans _ _ _ h1 h2)
          (hlog _ (.opReturn a (some err)) rfl)) (hsleep _ _)) (ih _ _ _ hd)
      · exact htrans _ _ _ (htrans _ _ _ h1 h2) (hlog _ (.opReturn a (some err)) rfl)

theorem failRetry_body (env : Hooks) (dao : Dao) (slot tx : Nat) (d : Dao)
    (h : IsBodyDao dao slot tx d) (kind : WriteKind) (m : Ptr) (maxRetries : Int) (w : World) :
    BodyStep dao slot w (d.failRetry (attempt env kind m) maxRetries w).2 :=
  failRetryLoop_rel (BodyStep dao slot) (BodyStep_trans dao slot)
    (BodyStep_log dao slot) (BodyStep_sleep dao slot) d (attempt env kind m)
    (fun d2 v hd => by
      rcases hd with hd | hd
      · subst hd; exact attempt_body env dao slot tx _ h kind m v
      · subst hd
        exact attempt_body env dao slot tx _ (IsBodyDao_withoutBeforeHooks dao slot tx d h) kind m v)
    maxRetries _ d 1 w (Or.inl rfl)

theorem Save_body (env : Hooks) (dao : Dao) (slot tx : Nat) (d : Dao)
    (h : IsBodyDao dao slot tx d) (m : Ptr) (w : World) :
    BodyStep dao slot w (d.Save env m w).2 := by
  rw [Save_eq]
  exact failRetry_body env dao slot tx d h _ m _ w

theorem Delete_body (env : Hooks) (dao : Dao) (slot tx : Nat) (d : Dao)
    (h : IsBodyDao dao slot tx d) (m : Ptr) (w : World) :
    BodyStep dao slot w (d.Delete env m w).2 := by
  rw [Delete_eq]
  split
  · exact BodyStep_refl dao slot w
  · exact failRetry_body env dao slot tx d h _ m _ w

theorem RunInTransaction_nested (env : Hooks) (d : Dao) (tx : Nat)
    (fn : Dao → World → Option GoError × World) (w : World)
    (h : d.nonconcurrentDB = .Tx tx) :
    d.RunInTransaction env fn w = fn (d.nestedTxDao (.Tx tx)) w := by
  unfold Dao.RunInTransaction Dao.NonconcurrentDB
  rw [h]

theorem Script_body (env : Hooks) (dao : Dao) (slot tx : Nat) (body : Script) :
    ∀ (d : Dao) (w : World), IsBodyDao dao slot tx d →
      BodyStep dao slot w (body.run env d w).2 := by
  induction body with
  | ret err => intro d w _; exact BodyStep_refl dao slot w
  | save m next ih =>
    intro d w h
    rw [Script.run]
    exact BodyStep_trans _ _ _ _ _ (Save_body env dao slot tx d h m w) (ih _ _ _ _ h)
  | delete m next ih =>
    intro d w h
    rw [Script.run]
    exact BodyStep_trans _ _ _ _ _ (Delete_body env dao slot tx d h m w) (ih _ _ _ _ h)
  | runInTransaction inner next ih1 ih2 =>
    intro d w h
    rw [Script.run]
    have hn : BodyStep dao slot w
        (d.RunInTransaction env (fun innerDao => inner.run env innerDao) w).2 := by
      rw [RunInTransaction_nested env d tx _ w h.1]
      exact ih1 _ _ (IsBodyDao_nestedTxDao dao slot tx d h)
    exact BodyStep_trans _ _ _ _ _ hn (ih2 _ _ _ _ h)

theorem RunInTransaction_top (env : Hooks) (dao : Dao) (conn : Nat)
    (fn : Dao → World → Option GoError × World) (w : World)
    (h : dao.NonconcurrentDB = .DB conn) :
    dao.RunInTransaction env fn w =
      match fn (dao.topTxDao w.nextSlot (.Tx w.txCount)) (txStart w) with
      | (none, v) =>
        (none, dao.replayAfterCalls env (v.afterCalls w.nextSlot)
          (({ v with store := (v.tx.map Prod.snd).getD v.store, tx := none }).log
            (.commit w.txCount)))
      | (some e, v) => (some e, ({ v with tx := none }).log (.rollback w.txCount)) := by
  unfold Dao.RunInTransaction
  rw [h]
  simp only [Builder.Transactional, txStart]
  rcases fn (dao.topTxDao w.nextSlot (.Tx w.txCount)) _ with ⟨r, v⟩
  cases r <;> rfl

theorem replay_step (env : Hooks) (dao : Dao) (call : afterCallGroup)
    (rest : List afterCallGroup) (w : World) :
    dao.replayAfterCalls env (call :: rest) w =
      dao.replayAfterCalls env rest
        (runAfter env (dao.afterForAction call.Action) dao call.Model w) := by
  rw [Dao.replayAfterCalls]
  unfold Dao.afterForAction
  congr 1
  split
  · rfl
  · split
    · rfl
    · split <;> rfl

theorem replay_fields (env : Hooks) (dao : Dao) (calls : List afterCallGroup) :
    ∀ w : World,
      (dao.replayAfterCalls env calls w).trace = w.trace ++ replayEvents dao calls ∧
      (dao.replayAfterCalls env calls w).store = w.store ∧
      (dao.replayAfterCalls env calls w).tx = w.tx := by
  induction calls with
  | nil => intro w; simp [Dao.replayAfterCalls, replayEvents]
  | cons call rest ih =>
    intro w
    rw [replay_step]
    obtain ⟨h1, h2, h3⟩ := ih (runAfter env (dao.afterForAction call.Action) dao call.Model w)
    obtain ⟨a1, a2, a3, _⟩ := runAfter_fields env (dao.afterForAction call.Action) dao call.Model w
    refine ⟨?_, by rw [h2, a2], by rw [h3, a3]⟩
    rw [h1, a1, List.append_assoc]
    rfl

theorem top_body (env : Hooks) (dao : Dao) (body : Script) (w : World) :
    (body.run env (dao.topTxDao w.nextSlot (.Tx w.txCount)) (txStart w)).2.store = w.store ∧
    ∃ evs, (body.run env (dao.topTxDao w.nextSlot (.Tx w.txCount)) (txStart w)).2.trace =
        w.trace ++ [.begin w.txCount] ++ evs ∧
      GoodBody dao w.nextSlot evs ∧
      (body.run env (dao.topTxDao w.nextSlot (.Tx w.txCount)) (txStart w)).2.afterCalls
        w.nextSlot = collected w.nextSlot evs := by
  obtain ⟨b1, _, _, _, evs, b5, b6, b7⟩ := Script_body env dao w.nextSlot w.txCount body
    (dao.topTxDao w.nextSlot (.Tx w.txCount)) (txStart w)
    (IsBodyDao_topTxDao dao w.nextSlot w.txCount)
  refine ⟨b1, evs, b5, b6, ?_⟩
  rw [b7]
  simp [txStart, World.log]

theorem not_own_of_collector (dao : Dao) (w : World)
    (hwf : ∀ kind action slot, dao.afterFor kind = some (.collect action slot) →
      slot < w.nextSlot)
    (evs : List Event) (hg : GoodBody dao w.nextSlot evs) :
    ∀ f d m, Event.afterCall f d m ∈ evs → ∀ kind, dao.afterFor kind ≠ some f := by
  intro f d m hmem kind hk
  obtain ⟨action, hf⟩ := hg.1 f d m hmem
  subst hf
  exact absurd (hwf kind action _ hk) (lt_irrefl _)

/-- C1: after-hooks fire once per successful write, after commit, in order. For a
Dao on a plain handle whose callbacks are not closures of a transaction still to
come, and a body that returns nil, the log of a top-level `RunInTransaction` is:
the begin, what the body logged (no transaction boundary and no invocation of one
of the Dao's own after-callbacks), the commit, and then for each write that
succeeded in the body, in order, one invocation of the Dao's own after-callback for
that kind of write, with the Dao itself. -/
theorem C1_after_hooks_after_commit (env : Hooks) (dao : Dao) (conn : Nat) (body : Script)
    (w : World)
    (hdb : dao.NonconcurrentDB = .DB conn)
    (hwf : ∀ kind action slot, dao.afterFor kind = some (.collect action slot) →
      slot < w.nextSlot)
    (hfn : (body.run env (dao.topTxDao w.nextSlot (.Tx w.txCount)) (txStart w)).1 = none) :
    (dao.RunInTransaction env (fun txDao => body.run env txDao) w).1 = none ∧
    ∃ evs,
      (body.run env (dao.topTxDao w.nextSlot (.Tx w.txCount)) (txStart w)).2.trace =
        w.trace ++ [.begin w.txCount] ++ evs ∧
      (dao.RunInTransaction env (fun txDao => body.run env txDao) w).2.trace =
        w.trace ++ [.begin w.txCount] ++ evs ++ [.commit w.txCount] ++ owedAfterCalls dao evs ∧
      (∀ f d m, Event.afterCall f d m ∈ evs → ∀ kind, dao.afterFor kind ≠ some f) ∧
      (∀ ev ∈ evs, ev.isTxBoundary = false) := by
  obtain ⟨_, evs, b2, b3, b4⟩ := top_body env dao body w
  rw [RunInTransaction_top env dao conn _ w hdb]
  rcases hrun : body.run env (dao.topTxDao w.nextSlot (.Tx w.txCount)) (txStart w) with ⟨r, v⟩
  rw [hrun] at hfn b2 b4
  simp only at hfn b2 b4
  subst hfn
  simp only
  refine ⟨trivial, evs, b2, ?_, not_own_of_collector dao w hwf evs b3, b3.2.2⟩
  rw [(replay_fields env dao _ _).1, b4, b3.2.1, World.log_trace]
  simp only [b2]

/-- C1 at a sample input: one `Save` in the body. -/
theorem C1_after_hooks_after_commit_witness :
    (sampleDao.RunInTransaction sampleHooks (fun txDao => saveBody.run sampleHooks txDao)
      sampleWorld).1 = none :=
  (C1_after_hooks_after_commit sampleHooks sampleDao 1 saveBody sampleWorld rfl
    (by intro kind action slot h; cases kind <;> cases h) (by decide)).1

/-- C2: no after-hook on rollback. For a Dao on a plain handle (its callbacks not
closures of a transaction still to come) and a body that returns the error `e`,
`RunInTransaction` returns `e`; what it logs is the begin, the log of the body and
the rollback, and none of it is an invocation of one of the Dao's own
after-callbacks. -/
theorem C2_no_after_hooks_on_rollback (env : Hooks) (dao : Dao) (conn : Nat) (body : Script)
    (w : World) (e : GoError)
    (hdb : dao.NonconcurrentDB = .DB conn)
    (hwf : ∀ kind action slot, dao.afterFor kind = some (.collect action slot) →
      slot < w.nextSlot)
    (hfn : (body.run env (dao.topTxDao w.nextSlot (.Tx w.txCount)) (txStart w)).1 = some e) :
    (dao.RunInTransaction env (fun txDao => body.run env txDao) w).1 = some e ∧
    ∃ evs,
      (dao.RunInTransaction env (fun txDao => body.run env txDao) w).2.trace =
        w.trace ++ ([.begin w.txCount] ++ evs ++ [.rollback w.txCount]) ∧
      ∀ f d m, Event.afterCall f d m ∈ [.begin w.txCount] ++ evs ++ [.rollback w.txCount] →
        ∀ kind, dao.afterFor kind ≠ some f := by
  obtain ⟨_, evs, b2, b3, _⟩ := top_body env dao body w
  rw [RunInTransaction_top env dao conn _ w hdb]
  rcases hrun : body.run env (dao.topTxDao w.nextSlot (.Tx w.txCount)) (txStart w) with ⟨r, v⟩
  rw [hrun] at hfn b2
  simp only at hfn b2
  subst hfn
  simp only
  refine ⟨trivial, evs, ?_, ?_⟩
  · rw [World.log_trace]
    simp only [b2, List.append_assoc]
  · intro f d m hmem
    simp only [List.mem_append, List.mem_singleton] at hmem
    rcases hmem with (hmem | hmem) | hmem
    · cases hmem
    · exact not_own_of_collector dao w hwf evs b3 f d m hmem
    · cases hmem

/-- C2 at a sample input: the body saves and then returns an error. -/
theorem C2_no_after_hooks_on_rollback_witness :
    (sampleDao.RunInTransaction sampleHooks (fun txDao => failingBody.run sampleHooks txDao)
      sampleWorld).1 = some constraintError :=
  (C2_no_after_hooks_on_rollback sampleHooks sampleDao 1 failingBody sampleWorld
    constraintError rfl (by intro kind action slot h; cases kind <;> cases h) (by decide)).1

/-- C3: a nested call joins the transaction. For a Dao whose nonconcurrent handle is
the transaction handle `tx`, `RunInTransaction` is exactly one call of `fn`, on a
Dao whose two handles are both `tx` and whose six callbacks are those of the
caller: same result, same world, nothing begun. -/
theorem C3_nested_joins_transaction (env : Hooks) (dao : Dao) (tx : Nat)
    (fn : Dao → World → Option GoError × World) (w : World)
    (htx : dao.NonconcurrentDB = .Tx tx) :
    dao.RunInTransaction env fn w =
      fn { concurrentDB := .Tx tx
           nonconcurrentDB := .Tx tx
           BeforeCreateFunc := dao.BeforeCreateFunc
           AfterCreateFunc := dao.AfterCreateFunc
           BeforeUpdateFunc := dao.BeforeUpdateFunc
           AfterUpdateFunc := dao.AfterUpdateFunc
           BeforeDeleteFunc := dao.BeforeDeleteFunc
           AfterDeleteFunc := dao.AfterDeleteFunc } w := by
  unfold Dao.RunInTransaction
  rw [htx]
  rfl

/-- C3 at a sample input: a body that only returns, on a Dao bound to transaction 0. -/
theorem C3_nested_joins_transaction_witness :
    sampleTxDao.RunInTransaction sampleHooks (fun _ v => (none, v)) sampleWorld =
      (none, sampleWorld) :=
  C3_nested_joins_transaction sampleHooks sampleTxDao 0 (fun _ v => (none, v)) sampleWorld rfl

theorem failing_body_rolls_back (env : Hooks) (dao : Dao) (conn : Nat) (body : Script)
    (w : World) (e : GoError)
    (hdb : dao.NonconcurrentDB = .DB conn)
    (hfn : (body.run env (dao.topTxDao w.nextSlot (.Tx w.txCount)) (txStart w)).1 = some e) :
    (dao.RunInTransaction env (fun txDao => body.run env txDao) w).1 = some e ∧
    (dao.RunInTransaction env (fun txDao => body.run env txDao) w).2.store = w.store ∧
    (dao.RunInTransaction env (fun txDao => body.run env txDao) w).2.tx = none := by
  obtain ⟨b1, _⟩ := top_body env dao body w
  rw [RunInTransaction_top env dao conn _ w hdb]
  rcases hrun : body.run env (dao.topTxDao w.nextSlot (.Tx w.txCount)) (txStart w) with ⟨r, v⟩
  rw [hrun] at hfn b1
  simp only at hfn b1
  subst hfn
  exact ⟨rfl, b1, rfl⟩

/-- C4 (as amended): a failing body rolls everything back. For a Dao on a plain
handle and any body, with nested `RunInTransaction` calls or not, that returns an
error, the committed rows after the top-level `RunInTransaction` are the rows
before it and no transaction is left open. In particular, for the body that saves
`m` through `txDao`, calls `txDao.RunInTransaction(inner)` and returns what that
call returns: whenever the nested call fails, the writes of the outer and of the
inner body are gone. -/
theorem C4_failed_body_rolls_back (env : Hooks) (dao : Dao) (conn : Nat) (body inner : Script)
    (m : Ptr) (w : World) (e : GoError)
    (hdb : dao.NonconcurrentDB = .DB conn) :
    ((body.run env (dao.topTxDao w.nextSlot (.Tx w.txCount)) (txStart w)).1 = some e →
      (dao.RunInTransaction env (fun txDao => body.run env txDao) w).1 = some e ∧
      (dao.RunInTransaction env (fun txDao => body.run env txDao) w).2.store = w.store ∧
      (dao.RunInTransaction env (fun txDao => body.run env txDao) w).2.tx = none) ∧
    (((dao.topTxDao w.nextSlot (.Tx w.txCount)).RunInTransaction env
        (fun innerDao => inner.run env innerDao)
        ((dao.topTxDao w.nextSlot (.Tx w.txCount)).Save env m (txStart w)).2).1 = some e →
      (dao.RunInTransaction env (fun txDao =>
        (Script.save m fun _ _ => .runInTransaction inner fun r _ => .ret r).run env txDao)
        w).1 = some e ∧
      (dao.RunInTransaction env (fun txDao =>
        (Script.save m fun _ _ => .runInTransaction inner fun r _ => .ret r).run env txDao)
        w).2.store = w.store) := by
  refine ⟨fun hfn => failing_body_rolls_back env dao conn body w e hdb hfn, fun hin => ?_⟩
  have h := failing_body_rolls_back env dao conn
    (Script.save m fun _ _ => .runInTransaction inner fun r _ => .ret r) w e hdb hin
  exact ⟨h.1, h.2.1⟩

/-- C4 at a sample input: the outer body saves and returns the error of a nested
call that saved and failed; the database is as before. -/
theorem C4_failed_body_rolls_back_witness :
    (sampleDao.RunInTransaction sampleHooks (fun txDao => propagatingBody.run sampleHooks txDao)
      sampleWorld).2.store = sampleWorld.store :=
  ((C4_failed_body_rolls_back sampleHooks sampleDao 1 propagatingBody failingBody 1
    sampleWorld constraintError rfl).1 (by decide)).2.1

/-- C4 as stated fails: the nested call fails (it returns the constraint error on
every world), yet the outer body ignores that error and returns nil, so the
transaction commits and the rows written by the outer and by the inner body stay. -/
theorem C4_counterexample :
    (∀ v, ((sampleDao.topTxDao 0 (.Tx 0)).RunInTransaction sampleHooks
      (fun d => failingBody.run sampleHooks d) v).1 = some constraintError) ∧
    sampleWorld.store = [] ∧
    (sampleDao.RunInTransaction sampleHooks (fun txDao => swallowingBody.run sampleHooks txDao)
      sampleWorld).2.store.length = 2 := by
  refine ⟨fun v => ?_, rfl, by decide⟩
  rw [RunInTransaction_nested sampleHooks _ 0 _ v rfl]
  rfl

theorem failRetryLoop_success_tail (env : Hooks) (dao : Dao) (kind : WriteKind) (m : Ptr)
    (maxRetries : Int) :
    ∀ (fuel : Nat) (rd : Dao) (a : Int) (w : World),
      (dao.failRetryLoop (attempt env kind m) maxRetries fuel rd a w).1 = none →
      ∃ pre k dN, (dN = rd ∨ dN = dao.withoutBeforeHooks) ∧
        (dao.failRetryLoop (attempt env kind m) maxRetries fuel rd a w).2.trace =
          w.trace ++ pre ++ [.write kind dN.nonconcurrentDB m none] ++
            afterEvents (dN.afterFor kind) dN m ++ [.opReturn k none] := by
  intro fuel
  induction fuel with
  | zero =>
    intro rd a w hres
    have hd : (if a = 2 then dao.withoutBeforeHooks else rd) = rd ∨
        (if a = 2 then dao.withoutBeforeHooks else rd) = dao.withoutBeforeHooks := by
      split
      · exact Or.inr rfl
      · exact Or.inl rfl
    obtain ⟨_, _, _, _, hc⟩ := attempt_cases env kind m
      (if a = 2 then dao.withoutBeforeHooks else rd)
      (w.log (.opCall a (if a = 2 then dao.withoutBeforeHooks else rd)))
    rw [failRetryLoop_step] at hres ⊢
    rcases hop : attempt env kind m (if a = 2 then dao.withoutBeforeHooks else rd)
      (w.log (.opCall a (if a = 2 then dao.withoutBeforeHooks else rd))) with ⟨r, w1⟩
    rw [hop] at hres hc
    cases r with
    | none =>
      rcases hc with ⟨_, hA⟩ | ⟨_, e, _, hB, _⟩ | ⟨_, _, e, hC, _⟩ | ⟨_, _, _, ht, _⟩
      · cases hA
      · cases hB
      · cases hC
      · refine ⟨[.opCall a (if a = 2 then dao.withoutBeforeHooks else rd)] ++
          beforeEvents ((if a = 2 then dao.withoutBeforeHooks else rd).beforeFor kind)
            (if a = 2 then dao.withoutBeforeHooks else rd) m, a, _, hd, ?_⟩
        simp only at ht ⊢
        rw [World.log_trace, ht, World.log_trace]
        simp only [List.append_assoc]
    | some err =>
      simp only at hres
      split at hres <;> cases hres
  | succ n ih =>
    intro rd a w hres
    have hd : (if a = 2 then dao.withoutBeforeHooks else rd) = rd ∨
        (if a = 2 then dao.withoutBeforeHooks else rd) = dao.withoutBeforeHooks := by
      split
      · exact Or.inr rfl
      · exact Or.inl rfl
    obtain ⟨_, _, _, _, hc⟩ := attempt_cases env kind m
      (if a = 2 then dao.withoutBeforeHooks else rd)
      (w.log (.opCall a (if a = 2 then dao.withoutBeforeHooks else rd)))
    obtain ⟨evs0, hq0, _⟩ := attempt_quiet env kind m
      (if a = 2 then dao.withoutBeforeHooks else rd)
      (w.log (.opCall a (if a = 2 then dao.withoutBeforeHooks else rd)))
    rw [failRetryLoop_step] at hres ⊢
    rcases hop : attempt env kind m (if a = 2 then dao.withoutBeforeHooks else rd)
      (w.log (.opCall a (if a = 2 then dao.withoutBeforeHooks else rd))) with ⟨r, w1⟩
    rw [hop] at hres hc hq0
    cases r with
    | none =>
      rcases hc with ⟨_, hA⟩ | ⟨_, e, _, hB, _⟩ | ⟨_, _, e, hC, _⟩ | ⟨_, _, _, ht, _⟩
      · cases hA
      · cases hB
      · cases hC
      · refine ⟨[.opCall a (if a = 2 then dao.withoutBeforeHooks else rd)] ++
          beforeEvents ((if a = 2 then dao.withoutBeforeHooks else rd).beforeFor kind)
            (if a = 2 then dao.withoutBeforeHooks else rd) m, a, _, hd, ?_⟩
        simp only at ht ⊢
        rw [World.log_trace, ht, World.log_trace]
        simp only [List.append_assoc]
    | some err =>
      simp only at hres hq0 ⊢
      split at hres
      · rename_i hcond
        rw [if_pos hcond]
        obtain ⟨pre, k, dN, hdN, ht⟩ := ih _ _ _ hres
        refine ⟨[.opCall a (if a = 2 then dao.withoutBeforeHooks else rd)] ++ evs0 ++
          [.opReturn a (some err), .sleep (200 * a * time.Millisecond)] ++ pre, k, dN, ?_, ?_⟩
        · rcases hdN with h | h
          · rw [h]; exact hd
          · exact Or.inr h
        · rw [ht, time.Sleep_trace, World.log_trace, hq0, World.log_trace]
          simp only [List.append_assoc, List.cons_append, List.nil_append]
      · cases hres

theorem nested_success_tail (env : Hooks) (d : Dao) (tx : Nat) (kind : WriteKind) (m : Ptr)
    (w : World)
    (hres : ((d.nestedTxDao (.Tx tx)).failRetry (attempt env kind m) DefaultMaxFailRetries
      w).1 = none) :
    ∃ pre k dN, dN.concurrentDB = .Tx tx ∧ dN.nonconcurrentDB = .Tx tx ∧
      ((d.nestedTxDao (.Tx tx)).failRetry (attempt env kind m) DefaultMaxFailRetries w).2.trace =
        w.trace ++ pre ++ [.write kind (.Tx tx) m none] ++
          afterEvents (d.afterFor kind) dN m ++ [.opReturn k none] := by
  obtain ⟨pre, k, dN, hdN, ht⟩ := failRetryLoop_success_tail env (d.nestedTxDao (.Tx tx)) kind m
    DefaultMaxFailRetries _ _ 1 w hres
  have hf : dN.concurrentDB = .Tx tx ∧ dN.nonconcurrentDB = .Tx tx ∧
      dN.afterFor kind = d.afterFor kind := by
    rcases hdN with h | h <;> subst h <;> refine ⟨rfl, rfl, ?_⟩ <;> cases kind <;> rfl
  refine ⟨pre, k, dN, hf.1, hf.2.1, ?_⟩
  have ht2 := ht
  rw [hf.2.1, hf.2.2] at ht2
  exact ht2

/-- C5 (as amended): inside a nested call the Dao's own after-callback runs at once,
and under a top-level transaction that callback is the collecting closure. For a
Dao bound to the transaction handle `tx`, a `Save` or `Delete` made in a nested
`RunInTransaction` that returns nil has logged, as its last events, the successful
write through `tx`, the invocation of the caller's after-callback for that kind of
write (with a Dao bound to `tx`) and the return of the operation: the callback runs
before the operation returns. For the Dao handed to the body of a top-level
`RunInTransaction` of `dao`, every after-callback invoked that way is a closure
collecting into the transaction's `afterCalls`, never a callback of the
application. -/
theorem C5_nested_after_hooks (env : Hooks) (d : Dao) (tx : Nat) (m : Ptr) (w : World)
    (htx : d.NonconcurrentDB = .Tx tx) :
    ((d.RunInTransaction env (fun txDao => txDao.Save env m) w).1 = none →
      ∃ pre k dN, dN.concurrentDB = .Tx tx ∧ dN.nonconcurrentDB = .Tx tx ∧
        (d.RunInTransaction env (fun txDao => txDao.Save env m) w).2.trace =
          w.trace ++ pre ++ [.write (saveKind (w.models m)) (.Tx tx) m none] ++
            afterEvents (d.afterFor (saveKind (w.models m))) dN m ++ [.opReturn k none]) ∧
    ((d.RunInTransaction env (fun txDao => txDao.Delete env m) w).1 = none →
      ∃ pre k dN, dN.concurrentDB = .Tx tx ∧ dN.nonconcurrentDB = .Tx tx ∧
        (d.RunInTransaction env (fun txDao => txDao.Delete env m) w).2.trace =
          w.trace ++ pre ++ [.write .delete (.Tx tx) m none] ++
            afterEvents (d.afterFor .delete) dN m ++ [.opReturn k none]) ∧
    (∀ (dao : Dao) (slot : Nat), d = dao.topTxDao slot (.Tx tx) →
      (∀ kind, d.afterFor kind =
        (dao.afterFor kind).map fun _ => AfterFunc.collect kind.action slot) ∧
      (∃ evs, (d.RunInTransaction env (fun txDao => txDao.Save env m) w).2.trace =
          w.trace ++ evs ∧
        ∀ f d2 m2, Event.afterCall f d2 m2 ∈ evs → ∃ action, f = .collect action slot) ∧
      (∃ evs, (d.RunInTransaction env (fun txDao => txDao.Delete env m) w).2.trace =
          w.trace ++ evs ∧
        ∀ f d2 m2, Event.afterCall f d2 m2 ∈ evs → ∃ action, f = .collect action slot)) := by
  have hn : ∀ fn, d.RunInTransaction env fn w = fn (d.nestedTxDao (.Tx tx)) w :=
    fun fn => RunInTransaction_nested env d tx fn w htx
  refine ⟨?_, ?_, ?_⟩
  · rw [hn, Save_eq]
    exact nested_success_tail env d tx _ m w
  · rw [hn, Delete_eq]
    split
    · intro h; cases h
    · exact nested_success_tail env d tx _ m w
  · intro dao slot hd
    have hb : IsBodyDao dao slot tx d := hd ▸ IsBodyDao_topTxDao dao slot tx
    have hb2 := IsBodyDao_nestedTxDao dao slot tx d hb
    refine ⟨hb.2, ?_, ?_⟩
    · rw [hn]
      obtain ⟨_, _, _, _, evs, h1, h2, _⟩ := Save_body env dao slot tx _ hb2 m w
      exact ⟨evs, h1, h2.1⟩
    · rw [hn]
      obtain ⟨_, _, _, _, evs, h1, h2, _⟩ := Delete_body env dao slot tx _ hb2 m w
      exact ⟨evs, h1, h2.1⟩

/-- C5 at a sample input: a `Save` in a nested call on a Dao bound to the open
transaction 0; the after-create callback is invoked before `Save` returns. -/
theorem C5_nested_after_hooks_witness :
    ∃ pre k dN, dN.concurrentDB = .Tx 0 ∧ dN.nonconcurrentDB = .Tx 0 ∧
      (sampleTxDao.RunInTransaction sampleHooks (fun txDao => txDao.Save sampleHooks 0)
        { sampleWorld with tx := some (0, []) }).2.trace =
        ({ sampleWorld with tx := some (0, []) } : World).trace ++ pre ++
          [.write .insert (.Tx 0) 0 none] ++
          afterEvents (some (.user "afterCreate")) dN 0 ++ [.opReturn k none] :=
  (C5_nested_after_hooks sampleHooks sampleTxDao 0 0 { sampleWorld with tx := some (0, []) }
    rfl).1 (by decide)

/-- C5 as stated fails for the Dao handed to the body of a top-level
`RunInTransaction`: a `Save` made in a nested call on it returns (the `opReturn`
event) having invoked only the collecting closure, and the application's
after-create callback is invoked after the commit. -/
theorem C5_counterexample :
    (sampleDao.RunInTransaction sampleHooks (fun txDao => nestedSaveBody.run sampleHooks txDao)
      sampleWorld).2.trace =
      [.begin 0,
       .opCall 1 ((sampleDao.topTxDao 0 (.Tx 0)).nestedTxDao (.Tx 0)),
       .beforeCall (.forward (.user "beforeCreate"))
         ((sampleDao.topTxDao 0 (.Tx 0)).nestedTxDao (.Tx 0)) 0,
       .beforeCall (.user "beforeCreate") ((sampleDao.topTxDao 0 (.Tx 0)).nestedTxDao (.Tx 0)) 0,
       .write .insert (.Tx 0) 0 none,
       .afterCall (.collect "create" 0) ((sampleDao.topTxDao 0 (.Tx 0)).nestedTxDao (.Tx 0)) 0,
       .opReturn 1 none,
       .commit 0,
       .afterCall (.user "afterCreate") sampleDao 0] := by
  decide

theorem failRetryLoop_inv (J : World → Prop) (dao : Dao)
    (op : Dao → World → Option GoError × World) (maxRetries : Int)
    (hcall : ∀ v k d, J v → J (v.log (.opCall k d)))
    (hstep : ∀ d v k dur, (d = dao ∨ d = dao.withoutBeforeHooks) → J v →
      J (time.Sleep dur ((op d v).2.log (.opReturn k (op d v).1)))) :
    ∀ (fuel : Nat) (rd : Dao) (a : Int) (w : World),
      (rd = dao ∨ rd = dao.withoutBeforeHooks) → J w →
      ∃ d v k, (d = dao ∨ d = dao.withoutBeforeHooks) ∧ J v ∧
        dao.failRetryLoop op maxRetries fuel rd a w =
          ((op d v).1, (op d v).2.log (.opReturn k (op d v).1)) := by
  intro fuel
  induction fuel with
  | zero =>
    intro rd a w hrd hJ
    have hd : (if a = 2 then dao.withoutBeforeHooks else rd) = dao ∨
        (if a = 2 then dao.withoutBeforeHooks else rd) = dao.withoutBeforeHooks := by
      split
      · exact Or.inr rfl
      · exact hrd
    refine ⟨_, w.log (.opCall a (if a = 2 then dao.withoutBeforeHooks else rd)), a, hd,
      hcall _ _ _ hJ, ?_⟩
    rw [failRetryLoop_step]
    rcases op (if a = 2 then dao.withoutBeforeHooks else rd)
      (w.log (.opCall a (if a = 2 then dao.withoutBeforeHooks else rd))) with ⟨r, w1⟩
    cases r with
    | none => rfl
    | some err =>
      simp only
      split <;> rfl
  | succ n ih =>
    intro rd a w hrd hJ
    have hd : (if a = 2 then dao.withoutBeforeHooks else rd) = dao ∨
        (if a = 2 then dao.withoutBeforeHooks else rd) = dao.withoutBeforeHooks := by
      split
      · exact Or.inr rfl
      · exact hrd
    have hJ1 := hcall w a (if a = 2 then dao.withoutBeforeHooks else rd) hJ
    have hJ2 := hstep _ _ a (200 * a * time.Millisecond) hd hJ1
    rw [failRetryLoop_step]
    rcases hop : op (if a = 2 then dao.withoutBeforeHooks else rd)
      (w.log (.opCall a (if a = 2 then dao.withoutBeforeHooks else rd))) with ⟨r, w1⟩
    rw [hop] at hJ2
    cases r with
    | none =>
      refine ⟨_, w.log (.opCall a (if a = 2 then dao.withoutBeforeHooks else rd)), a, hd,
        hJ1, ?_⟩
      rw [hop]
    | some err =>
      simp only
      split
      · exact ih _ _ _ hd hJ2
      · refine ⟨_, w.log (.opCall a (if a = 2 then dao.withoutBeforeHooks else rd)), a, hd,
          hJ1, ?_⟩
        rw [hop]

theorem callBefore_proj {α : Type} (env : Hooks) (proj : Model → α) (hk : HooksKeep env proj)
    (f : BeforeFunc) (d : Dao) (m : Ptr) (w : World) :
    proj ((callBefore env f d m w).2.models m) = proj (w.models m) ∧
    (callBefore env f d m w).2.clock = w.clock ∧
    (callBefore env f d m w).2.seed = w.seed := by
  induction f generalizing w with
  | user name => simp [callBefore, World.setModel, World.log, (hk _ _ _ _).1]
  | forward f ih =>
    rw [callBefore]
    obtain ⟨h1, h2, h3⟩ := ih (w.log (.beforeCall (.forward f) d m))
    exact ⟨h1, h2, h3⟩

theorem runBefore_proj {α : Type} (env : Hooks) (proj : Model → α) (hk : HooksKeep env proj)
    (f : Option BeforeFunc) (d : Dao) (m : Ptr) (w : World) :
    proj ((runBefore env f d m w).2.models m) = proj (w.models m) ∧
    (runBefore env f d m w).2.clock = w.clock ∧
    (runBefore env f d m w).2.seed = w.seed := by
  cases f with
  | none => exact ⟨rfl, rfl, rfl⟩
  | some f => exact callBefore_proj env proj hk f d m w

theorem runAfter_proj {α : Type} (env : Hooks) (proj : Model → α) (hk : HooksKeep env proj)
    (f : Option AfterFunc) (d : Dao) (m : Ptr) (w : World) :
    proj ((runAfter env f d m w).models m) = proj (w.models m) ∧
    (runAfter env f d m w).clock = w.clock ∧
    (runAfter env f d m w).seed = w.seed := by
  cases f with
  | none => exact ⟨rfl, rfl, rfl⟩
  | some f =>
    cases f with
    | user name => simp [runAfter, callAfter, World.setModel, World.log, (hk _ _ _ _).2]
    | collect action slot => exact ⟨rfl, rfl, rfl⟩

theorem exec_clock_seed (db : Builder) (kind : WriteKind) (m : Ptr) (table id : String)
    (cols : List (String × Value)) (w : World) :
    (db.exec kind m table id cols w).2.clock = w.clock ∧
    (db.exec kind m table id cols w).2.seed = w.seed := by
  cases db with
  | nil => exact ⟨rfl, rfl⟩
  | DB c =>
    simp only [Builder.exec]
    split <;> exact ⟨rfl, rfl⟩
  | Tx i =>
    simp only [Builder.exec]
    split
    · split <;> exact ⟨rfl, rfl⟩
    · exact ⟨rfl, rfl⟩

theorem prelude_model (kind : WriteKind) (m : Ptr) (w : World) :
    (prelude kind m w).models m = preludeModel kind (w.models m) w.seed w.clock ∧
    (prelude kind m w).clock = w.clock := by
  cases kind
  · simp only [prelude, preludeModel]
    split <;> split <;> split <;>
      simp_all [RefreshId, MarkAsNew, RefreshCreated, RefreshUpdated, World.setModel]
  · simp only [prelude, preludeModel]
    split <;> simp_all [RefreshCreated, RefreshUpdated, World.setModel]
  · exact ⟨rfl, rfl⟩

theorem postWrite_model (kind : WriteKind) (m : Ptr) (w : World) :
    (postWrite kind m w).models m = postModel kind (w.models m) ∧
    (postWrite kind m w).clock = w.clock ∧ (postWrite kind m w).seed = w.seed := by
  cases kind <;> simp [postWrite, postModel, MarkAsNotNew, World.setModel]

theorem attempt_guard (env : Hooks) (kind : WriteKind) (m : Ptr) (d : Dao) (w : World)
    (hg : guardFails kind m w = true) :
    attempt env kind m d w = (some (errors.New "ID is not set"), w) := by
  rw [attempt_eq, if_pos hg]

theorem attempt_proj {α : Type} (env : Hooks) (proj : Model → α) (hk : HooksKeep env proj)
    (kind : WriteKind)
    (hpost : ∀ a b, proj a = proj b → proj (postModel kind a) = proj (postModel kind b))
    (m : Ptr) (d : Dao) (w : World) (hg : guardFails kind m w = false) :
    (attempt env kind m d w).2.clock = w.clock ∧
    (attempt env kind m d w).2.seed = (prelude kind m w).seed ∧
    (∀ e, (attempt env kind m d w).1 = some e →
      proj ((attempt env kind m d w).2.models m) =
        proj (preludeModel kind (w.models m) w.seed w.clock)) ∧
    ((attempt env kind m d w).1 = none →
      proj ((attempt env kind m d w).2.models m) =
        proj (postModel kind (preludeModel kind (w.models m) w.seed w.clock))) := by
  rw [attempt_eq]
  simp only [hg, Bool.false_eq_true, if_false]
  obtain ⟨p1, p2⟩ := prelude_model kind m w
  obtain ⟨b1, b2, b3⟩ := runBefore_proj env proj hk (d.beforeFor kind) d m (prelude kind m w)
  rcases hb : runBefore env (d.beforeFor kind) d m (prelude kind m w) with ⟨rb, w1⟩
  rw [hb] at b1 b2 b3
  simp only at b1 b2 b3
  cases rb with
  | some e =>
    simp only
    exact ⟨by rw [b2, p2], b3, fun _ _ => by rw [b1, p1], fun h => by cases h⟩
  | none =>
    simp only
    obtain ⟨table, id, cols, hw⟩ := opWrite_eq_exec kind d m w1
    have x1 := exec_models d.nonconcurrentDB kind m table id cols w1
    obtain ⟨x2, x3⟩ := exec_clock_seed d.nonconcurrentDB kind m table id cols w1
    rw [← hw] at x1 x2 x3
    rcases hx : opWrite kind d m w1 with ⟨rx, w2⟩
    rw [hx] at x1 x2 x3
    simp only at x1 x2 x3
    cases rx with
    | some e =>
      simp only
      exact ⟨by rw [x2, b2, p2], by rw [x3, b3], fun _ _ => by rw [x1, b1, p1],
        fun h => by cases h⟩
    | none =>
      simp only
      obtain ⟨q1, q2, q3⟩ := postWrite_model kind m w2
      obtain ⟨a1, a2, a3⟩ := runAfter_proj env proj hk (d.afterFor kind) d m (postWrite kind m w2)
      refine ⟨by rw [a2, q2, x2, b2, p2], by rw [a3, q3, x3, b3], fun e h => (by cases h),
        fun _ => ?_⟩
      rw [a1, q1]
      apply hpost
      rw [x1, b1, p1]

theorem failRetry_attempt_last (env : Hooks) (dao : Dao) (kind : WriteKind) (m : Ptr)
    (maxRetries : Int) (w : World) (J I : World → Prop)
    (hcall : ∀ v k d, J v → J (v.log (.opCall k d)))
    (hatt : ∀ d v, (d = dao ∨ d = dao.withoutBeforeHooks) → J v → I (attempt env kind m d v).2)
    (hret : ∀ x k r, I x → I (x.log (.opReturn k r)))
    (hsleep : ∀ x dur, I x → J (time.Sleep dur x))
    (hJ : J w) :
    I (dao.failRetry (attempt env kind m) maxRetries w).2 ∧
    ∃ d v k, (d = dao ∨ d = dao.withoutBeforeHooks) ∧ J v ∧
      dao.failRetry (attempt env kind m) maxRetries w =
        ((attempt env kind m d v).1,
          (attempt env kind m d v).2.log (.opReturn k (attempt env kind m d v).1)) := by
  obtain ⟨d, v, k, hd, hv, heq⟩ := failRetryLoop_inv J dao (attempt env kind m) maxRetries hcall
    (fun d v k dur hd hv => hsleep _ _ (hret _ _ _ (hatt d v hd hv)))
    (maxRetries - 1).toNat dao 1 w (Or.inl rfl) hJ
  refine ⟨?_, d, v, k, hd, hv, heq⟩
  unfold Dao.failRetry
  rw [heq]
  exact hret _ _ _ (hatt d v hd hv)

theorem randomString_ne_empty (seed : Nat) : (security.RandomString 15 seed != "") = true := by
  have h : security.RandomString 15 seed ≠ "" := by
    intro h
    have hl := congrArg String.length h
    simp [security.RandomString, String.length] at hl
  simpa using h

theorem preludeModel_insert_hasId (mv : Model) (seed clock : Nat) :
    (preludeModel .insert mv seed clock).HasId = true := by
  have hr := randomString_ne_empty seed
  cases hh : mv.HasId <;>
    simp only [preludeModel, hh] <;> (repeat' split) <;>
    simp_all [Model.HasId, Model.GetId, Model.RefreshId, Model.MarkAsNew, Model.RefreshCreated,
      Model.RefreshUpdated]

theorem preludeModel_id (kind : WriteKind) (mv : Model) (seed clock : Nat)
    (h : mv.HasId = true ∨ kind ≠ .insert) : (preludeModel kind mv seed clock).Id = mv.Id := by
  cases kind
  · have hh : mv.HasId = true := by
      rcases h with h | h
      · exact h
      · exact absurd rfl h
    simp only [preludeModel, hh]
    (repeat' split) <;>
      simp_all [Model.RefreshId, Model.MarkAsNew, Model.RefreshCreated, Model.RefreshUpdated]
  · simp only [preludeModel]
    split <;> simp [Model.RefreshCreated, Model.RefreshUpdated]
  · rfl

theorem preludeModel_isNew (kind : WriteKind) (mv : Model) (seed clock : Nat) :
    (preludeModel kind mv seed clock).isNew =
      match kind with
      | .insert => true
      | _ => mv.isNew := by
  cases kind
  · simp only [preludeModel]
    (repeat' split) <;>
      simp_all [Model.RefreshId, Model.MarkAsNew, Model.RefreshCreated, Model.RefreshUpdated]
  · simp only [preludeModel]
    split <;> simp [Model.RefreshCreated, Model.RefreshUpdated]
  · rfl

theorem preludeModel_updated (kind : WriteKind) (mv : Model) (seed clock : Nat) :
    (preludeModel kind mv seed clock).Updated =
      match kind with
      | .insert => if mv.Updated.isNone then some clock else mv.Updated
      | .update => some clock
      | .delete => mv.Updated := by
  cases kind
  · simp only [preludeModel]
    (repeat' split) <;>
      simp_all [Model.RefreshId, Model.MarkAsNew, Model.RefreshCreated, Model.RefreshUpdated,
        Model.GetUpdated, DateTime.IsZero, Model.GetCreated]
  · simp only [preludeModel]
    split <;> simp [Model.RefreshCreated, Model.RefreshUpdated]
  · rfl

theorem prelude_seed (kind : WriteKind) (m : Ptr) (w : World)
    (h : (w.models m).HasId = true ∨ kind ≠ .insert) : (prelude kind m w).seed = w.seed := by
  cases kind
  · have hh : (w.models m).HasId = true := by
      rcases h with h | h
      · exact h
      · exact absurd rfl h
    simp only [prelude, hh]
    (repeat' split) <;>
      simp_all [RefreshId, MarkAsNew, RefreshCreated, RefreshUpdated, World.setModel]
  · simp only [prelude]
    split <;> simp [RefreshCreated, RefreshUpdated, World.setModel]
  · rfl

theorem postModel_id (kind : WriteKind) (mv : Model) : (postModel kind mv).Id = mv.Id := by
  cases kind <;> rfl

theorem postModel_updated (kind : WriteKind) (mv : Model) :
    (postModel kind mv).Updated = mv.Updated := by
  cases kind <;> rfl

theorem postModel_isNew (kind : WriteKind) (mv : Model) :
    (postModel kind mv).isNew =
      match kind with
      | .insert => false
      | _ => mv.isNew := by
  cases kind <;> rfl

theorem hasId_of_id (a b : Model) (h : a.Id = b.Id) : a.HasId = b.HasId := by
  simp [Model.HasId, Model.GetId, h]

theorem sampleHooks_keep {α : Type} (proj : Model → α) : HooksKeep sampleHooks proj :=
  fun _ _ _ _ => ⟨rfl, rfl⟩

theorem attempt_proj_same {α : Type} (env : Hooks) (proj : Model → α) (hk : HooksKeep env proj)
    (kind : WriteKind) (m : Ptr) (d : Dao) (w : World)
    (hpre : proj (preludeModel kind (w.models m) w.seed w.clock) = proj (w.models m))
    (hpost : ∀ a b, proj a = proj b → proj (postModel kind a) = proj b) :
    proj ((attempt env kind m d w).2.models m) = proj (w.models m) := by
  by_cases hg : guardFails kind m w = true
  · rw [attempt_guard env kind m d w hg]
  · have hg : guardFails kind m w = false := by simpa using hg
    obtain ⟨_, _, h1, h2⟩ := attempt_proj env proj hk kind
      (fun a b hab => (hpost a b hab).trans (hpost b b rfl).symm) m d w hg
    cases hr : (attempt env kind m d w).1 with
    | none => rw [h2 hr]; exact hpost _ _ hpre
    | some e => rw [h1 e hr, hpre]

theorem failRetry_attempt_same {α : Type} (env : Hooks) (proj : Model → α)
    (hk : HooksKeep env proj) (dao : Dao) (kind : WriteKind) (m : Ptr) (maxRetries : Int)
    (w : World)
    (hpre : ∀ mv s c, proj mv = proj (w.models m) → proj (preludeModel kind mv s c) = proj mv)
    (hpost : ∀ a b, proj a = proj b → proj (postModel kind a) = proj b) :
    proj ((dao.failRetry (attempt env kind m) maxRetries w).2.models m) = proj (w.models m) :=
  (failRetry_attempt_last env dao kind m maxRetries w
    (fun v => proj (v.models m) = proj (w.models m))
    (fun v => proj (v.models m) = proj (w.models m))
    (fun _ _ _ h => h)
    (fun d v _ hv => by
      show proj ((attempt env kind m d v).2.models m) = proj (w.models m)
      rw [attempt_proj_same env proj hk kind m d v (hpre _ _ _ hv) hpost]
      exact hv)
    (fun _ _ _ h => h) (fun _ _ h => h) rfl).1

/-- C11 (as amended): a new model leaves `Save` with an identifier, and not new
exactly when the insert succeeded. For every model with `IsNew()` true, with or
without identifier, and callbacks that leave identifier and flag alone: after
`Save` the identifier is non-empty; `IsNew()` is false when `Save` returned nil
and still true when it returned an error. -/
theorem C11_new_model_gets_identifier (env : Hooks) (dao : Dao) (m : Ptr) (w : World)
    (hnew : (w.models m).IsNew = true)
    (hid : HooksKeep env Model.Id) (hflag : HooksKeep env Model.isNew) :
    ((dao.Save env m w).2.models m).HasId = true ∧
    ((dao.Save env m w).1 = none → ((dao.Save env m w).2.models m).IsNew = false) ∧
    (∀ e, (dao.Save env m w).1 = some e → ((dao.Save env m w).2.models m).IsNew = true) := by
  have hkind : saveKind (w.models m) = .insert := by simp [saveKind, hnew]
  rw [Save_eq, hkind]
  obtain ⟨_, d, v, k, _, _, heq⟩ := failRetry_attempt_last env dao .insert m
    DefaultMaxFailRetries w (fun _ => True) (fun _ => True) (fun _ _ _ h => h)
    (fun _ _ _ _ => trivial) (fun _ _ _ h => h) (fun _ _ h => h) trivial
  rw [heq]
  obtain ⟨_, _, i1, i2⟩ := attempt_proj env Model.Id hid .insert (fun a b hab => hab) m d v rfl
  obtain ⟨_, _, f1, f2⟩ := attempt_proj env Model.isNew hflag .insert (fun a b _ => rfl) m d v rfl
  refine ⟨?_, fun hr => ?_, fun e hr => ?_⟩
  · show ((attempt env .insert m d v).2.models m).HasId = true
    cases hr : (attempt env .insert m d v).1 with
    | none =>
      rw [hasId_of_id _ _ (i2 hr)]
      exact preludeModel_insert_hasId _ _ _
    | some e =>
      rw [hasId_of_id _ _ (i1 e hr)]
      exact preludeModel_insert_hasId _ _ _
  · exact f2 hr
  · have := f1 e hr
    rw [preludeModel_isNew] at this
    exact this

/-- C11 at a sample input: saving a new model without identifier on a working
storage engine. -/
theorem C11_new_model_gets_identifier_witness :
    ((sampleDao.Save sampleHooks 0 sampleWorld).2.models 0).HasId = true :=
  (C11_new_model_gets_identifier sampleHooks sampleDao 0 sampleWorld rfl
    (sampleHooks_keep _) (sampleHooks_keep _)).1

/-- C11 as stated fails twice over: when the insert of a new model without
identifier fails with a constraint error the model is still new after `Save`; and a
model without identifier that is not new is rejected and still has no identifier
after `Save`. -/
theorem C11_counterexample :
    (sampleModel.HasId = false ∧
      ((sampleDao.Save sampleHooks 0
        { sampleWorld with faults := [some constraintError] }).2.models 0).IsNew = true) ∧
    (({ sampleModel with isNew := false } : Model).HasId = false ∧
      ((sampleDao.Save sampleHooks 0
        { sampleWorld with models := fun _ => { sampleModel with isNew := false } }).2.models
          0).HasId = false) := by
  decide

theorem attempt_writes (env : Hooks) (kind : WriteKind) (m : Ptr) (d : Dao) (w : World) :
    ∃ evs, (attempt env kind m d w).2.trace = w.trace ++ evs ∧
      ∀ e ∈ evs, e.isWrite = true → ∃ r, e = .write kind d.nonconcurrentDB m r := by
  obtain ⟨_, _, _, _, hc⟩ := attempt_cases env kind m d w
  rcases hc with ⟨_, h⟩ | ⟨_, e, _, _, h, _⟩ | ⟨_, _, e, _, h, _⟩ | ⟨_, _, _, h, _⟩
  · exact ⟨[], by rw [h]; simp, fun e he => (by cases he)⟩
  · refine ⟨_, h, fun ev hev hw => ?_⟩
    obtain ⟨g, hg⟩ := beforeEvents_mem _ _ _ _ hev
    subst hg
    cases hw
  · refine ⟨beforeEvents (d.beforeFor kind) d m ++ [.write kind d.nonconcurrentDB m (some e)],
      by rw [h, List.append_assoc], fun ev hev hw => ?_⟩
    rcases List.mem_append.mp hev with hev | hev
    · obtain ⟨g, hg⟩ := beforeEvents_mem _ _ _ _ hev
      subst hg
      cases hw
    · exact ⟨some e, by simpa using hev⟩
  · refine ⟨beforeEvents (d.beforeFor kind) d m ++ [.write kind d.nonconcurrentDB m none] ++
      afterEvents (d.afterFor kind) d m, by rw [h]; simp, fun ev hev hw => ?_⟩
    rcases List.mem_append.mp hev with hev | hev
    · rcases List.mem_append.mp hev with hev | hev
      · obtain ⟨g, hg⟩ := beforeEvents_mem _ _ _ _ hev
        subst hg
        cases hw
      · exact ⟨none, by simpa using hev⟩
    · cases hf : d.afterFor kind with
      | none => rw [hf] at hev; cases hev
      | some f =>
        rw [hf] at hev
        simp only [afterEvents, List.mem_singleton] at hev
        subst hev
        cases hw

theorem failRetry_writes (env : Hooks) (dao : Dao) (kind : WriteKind) (m : Ptr)
    (maxRetries : Int) (w : World) :
    ∃ evs, (dao.failRetry (attempt env kind m) maxRetries w).2.trace = w.trace ++ evs ∧
      ∀ e ∈ evs, e.isWrite = true → ∃ r, e = .write kind dao.nonconcurrentDB m r := by
  refine failRetryLoop_rel
    (fun a b => ∃ evs, b.trace = a.trace ++ evs ∧
      ∀ e ∈ evs, e.isWrite = true → ∃ r, e = .write kind dao.nonconcurrentDB m r)
    ?_ ?_ ?_ dao (attempt env kind m) ?_ maxRetries (maxRetries - 1).toNat dao 1 w (Or.inl rfl)
  · rintro a b c ⟨e1, h1, p1⟩ ⟨e2, h2, p2⟩
    refine ⟨e1 ++ e2, by rw [h2, h1, List.append_assoc], fun e he hw => ?_⟩
    rcases List.mem_append.mp he with he | he
    · exact p1 e he hw
    · exact p2 e he hw
  · intro v ev hev
    refine ⟨[ev], rfl, fun e he hw => ?_⟩
    simp only [List.mem_singleton] at he
    subst he
    cases e <;> simp_all [Event.isRetryEvent, Event.isWrite]
  · intro v d
    refine ⟨[.sleep d], rfl, fun e he hw => ?_⟩
    simp only [List.mem_singleton] at he
    subst he
    cases hw
  · intro d v hd
    obtain ⟨evs, h, p⟩ := attempt_writes env kind m d v
    refine ⟨evs, h, fun e he hw => ?_⟩
    obtain ⟨r, hr⟩ := p e he hw
    rcases hd with rfl | rfl
    · exact ⟨r, hr⟩
    · exact ⟨r, hr⟩

/-- C12: `Save` of a model that is not new issues only update writes. For every
model with `IsNew()` false (with or without identifier), every storage write among
the events `Save` adds to the log, in the first attempt and in every retry, is an
update of that model through the Dao's nonconcurrent handle, never an insert; and
when `Save` returns nil a successful update write is among them. -/
theorem C12_not_new_model_is_updated (env : Hooks) (dao : Dao) (m : Ptr) (w : World)
    (hnot : (w.models m).IsNew = false) :
    ∃ evs, (dao.Save env m w).2.trace = w.trace ++ evs ∧
      (∀ e ∈ evs, e.isWrite = true → ∃ r, e = .write .update dao.nonconcurrentDB m r) ∧
      ((dao.Save env m w).1 = none → .write .update dao.nonconcurrentDB m none ∈ evs) := by
  have hkind : saveKind (w.models m) = .update := by simp [saveKind, hnot]
  rw [Save_eq, hkind]
  obtain ⟨evs, h, p⟩ := failRetry_writes env dao .update m DefaultMaxFailRetries w
  refine ⟨evs, h, p, fun hr => ?_⟩
  obtain ⟨pre, k, dN, hd, ht⟩ := failRetryLoop_success_tail env dao .update m
    DefaultMaxFailRetries (DefaultMaxFailRetries - 1).toNat dao 1 w hr
  have hdb : dN.nonconcurrentDB = dao.nonconcurrentDB := by
    rcases hd with rfl | rfl <;> rfl
  have h2 : (dao.failRetry (attempt env .update m) DefaultMaxFailRetries w).2.trace =
      w.trace ++ (pre ++ [.write .update dN.nonconcurrentDB m none] ++
        afterEvents (dN.afterFor .update) dN m ++ [.opReturn k none]) := by
    rw [show dao.failRetry (attempt env .update m) DefaultMaxFailRetries w =
      dao.failRetryLoop (attempt env .update m) DefaultMaxFailRetries
        (DefaultMaxFailRetries - 1).toNat dao 1 w from rfl, ht]
    simp
  rw [h] at h2
  have := List.append_cancel_left h2
  rw [this, hdb]
  simp

/-- C12 at a sample input: saving the stored model. -/
theorem C12_not_new_model_is_updated_witness :
    ∃ evs, (sampleDao.Save sampleHooks 0 storedWorld).2.trace = storedWorld.trace ++ evs ∧
      (∀ e ∈ evs, e.isWrite = true →
        ∃ r, e = .write .update sampleDao.nonconcurrentDB 0 r) ∧
      ((sampleDao.Save sampleHooks 0 storedWorld).1 = none →
        .write .update sampleDao.nonconcurrentDB 0 none ∈ evs) :=
  C12_not_new_model_is_updated sampleHooks sampleDao 0 storedWorld rfl

/-- C13: an operation on a model without identifier that needs one is rejected
before anything happens. `Delete` of a model with empty identifier returns the error
'ID is not set' and leaves the world as it was: no callback, no write, no call of
the retried closure, no wait, model unchanged. `Save` of such a model that is not
new returns the same error after one call of the closure, which returns at its
first statement: the world differs from the one before only by the two log entries
of that call and its return, so no callback ran, no write was issued, no retry or
wait happened and the model, timestamps included, is unchanged. -/
theorem C13_missing_identifier_rejected (env : Hooks) (dao : Dao) (m : Ptr) (w : World)
    (hid : (w.models m).HasId = false) :
    dao.Delete env m w = (some (errors.New "ID is not set"), w) ∧
    ((w.models m).IsNew = false →
      dao.Save env m w = (some (errors.New "ID is not set"),
        (w.log (.opCall 1 dao)).log (.opReturn 1 (some (errors.New "ID is not set")))) ∧
      (dao.Save env m w).2.models = w.models ∧
      (dao.Save env m w).2.store = w.store ∧
      (dao.Save env m w).2.clock = w.clock) := by
  constructor
  · rw [Delete_eq]
    simp [hid]
  · intro hnot
    have hkind : saveKind (w.models m) = .update := by simp [saveKind, hnot]
    have hg : guardFails .update m (w.log (.opCall 1 dao)) = true := by
      simp [guardFails, World.log, hid]
    have hatt := attempt_guard env .update m dao (w.log (.opCall 1 dao)) hg
    have hsave : dao.Save env m w = (some (errors.New "ID is not set"),
        (w.log (.opCall 1 dao)).log (.opReturn 1 (some (errors.New "ID is not set")))) := by
      rw [Save_eq, hkind]
      have := failRetry_first_error dao (attempt env .update m) DefaultMaxFailRetries w
        (errors.New "ID is not set") (by rw [hatt]) (by decide)
      rw [this, hatt]
    rw [hsave]
    exact ⟨rfl, rfl, rfl, rfl⟩

/-- C13 at a sample input: a model without identifier that is not new. -/
theorem C13_missing_identifier_rejected_witness :
    sampleDao.Delete sampleHooks 0
        { sampleWorld with models := fun _ => { sampleModel with isNew := false } } =
      (some (errors.New "ID is not set"),
        { sampleWorld with models := fun _ => { sampleModel with isNew := false } }) :=
  (C13_missing_identifier_rejected sampleHooks sampleDao 0
    { sampleWorld with models := fun _ => { sampleModel with isNew := false } } rfl).1

/-- C14: the new flag is cleared only by a successful insert and never set again.
With callbacks that leave the flag alone: for a new model, after `Save` the flag is
false exactly when `Save` returned nil; for a model that is not new, the flag is
still false after `Save`; and `Delete` never changes the flag. -/
theorem C14_isNew_cleared_by_insert_only (env : Hooks) (dao : Dao) (m : Ptr) (w : World)
    (hflag : HooksKeep env Model.isNew) :
    ((w.models m).IsNew = true →
      ((dao.Save env m w).1 = none ↔ ((dao.Save env m w).2.models m).IsNew = false)) ∧
    ((w.models m).IsNew = false → ((dao.Save env m w).2.models m).IsNew = false) ∧
    ((dao.Delete env m w).2.models m).IsNew = (w.models m).IsNew := by
  refine ⟨fun hnew => ?_, fun hnot => ?_, ?_⟩
  · have hkind : saveKind (w.models m) = .insert := by simp [saveKind, hnew]
    rw [Save_eq, hkind]
    obtain ⟨_, d, v, k, _, _, heq⟩ := failRetry_attempt_last env dao .insert m
      DefaultMaxFailRetries w (fun _ => True) (fun _ => True) (fun _ _ _ h => h)
      (fun _ _ _ _ => trivial) (fun _ _ _ h => h) (fun _ _ h => h) trivial
    rw [heq]
    obtain ⟨_, _, f1, f2⟩ :=
      attempt_proj env Model.isNew hflag .insert (fun a b _ => rfl) m d v rfl
    constructor
    · intro hr
      exact f2 hr
    · intro hn
      cases hr : (attempt env .insert m d v).1 with
      | none => rfl
      | some e =>
        have h1 := f1 e hr
        rw [preludeModel_isNew] at h1
        have h2 : ((attempt env .insert m d v).2.models m).isNew = false := hn
        rw [h1] at h2
        cases h2
  · have hkind : saveKind (w.models m) = .update := by simp [saveKind, hnot]
    rw [Save_eq, hkind]
    have := failRetry_attempt_same env Model.isNew hflag dao .update m DefaultMaxFailRetries w
      (fun mv s c _ => preludeModel_isNew .update mv s c) (fun a b hab => hab)
    exact this.trans hnot
  · rw [Delete_eq]
    split
    · rfl
    · exact failRetry_attempt_same env Model.isNew hflag dao .delete m DefaultMaxFailRetries w
        (fun mv s c _ => preludeModel_isNew .delete mv s c) (fun a b hab => hab)

/-- C14 at a sample input: a successful `Save` of a new model clears the flag. -/
theorem C14_isNew_cleared_by_insert_only_witness :
    (sampleDao.Save sampleHooks 0 sampleWorld).1 = none ↔
      ((sampleDao.Save sampleHooks 0 sampleWorld).2.models 0).IsNew = false :=
  (C14_isNew_cleared_by_insert_only sampleHooks sampleDao 0 sampleWorld
    (sampleHooks_keep _)).1 rfl

/-- C15 (as amended): the insert path sets `updated` only when it is zero, the
update path always. With callbacks that leave `updated` alone: after `Save` of a
new model, `updated` is the time `Save` was called when it was zero before and the
value it held before otherwise, whether the insert succeeded or not; after a
successful `Save` of a model that is not new, `updated` is the time of the update
that succeeded. -/
theorem C15_updated_refreshed_when_zero (env : Hooks) (dao : Dao) (m : Ptr) (w : World)
    (hk : HooksKeep env Model.Updated) :
    ((w.models m).IsNew = true →
      ((dao.Save env m w).2.models m).Updated =
        if (w.models m).Updated.isNone then some w.clock else (w.models m).Updated) ∧
    ((w.models m).IsNew = false → (dao.Save env m w).1 = none →
      ((dao.Save env m w).2.models m).Updated = some (dao.Save env m w).2.clock) := by
  refine ⟨fun hnew => ?_, fun hnot hres => ?_⟩
  · have hkind : saveKind (w.models m) = .insert := by simp [saveKind, hnew]
    rw [Save_eq, hkind]
    refine (failRetry_attempt_last env dao .insert m DefaultMaxFailRetries w
      (fun v => ((v.models m).Updated = (w.models m).Updated ∧ v.clock = w.clock) ∨
        (v.models m).Updated =
          if (w.models m).Updated.isNone then some w.clock else (w.models m).Updated)
      (fun v => (v.models m).Updated =
          if (w.models m).Updated.isNone then some w.clock else (w.models m).Updated)
      (fun _ _ _ h => h) ?_ (fun _ _ _ h => h) (fun _ _ h => Or.inr h) (Or.inl ⟨rfl, rfl⟩)).1
    intro d v _ hv
    obtain ⟨_, _, f1, f2⟩ := attempt_proj env Model.Updated hk .insert
      (fun a b hab => hab) m d v rfl
    have hval : Model.Updated ((attempt env .insert m d v).2.models m) =
        if (v.models m).Updated.isNone then some v.clock else (v.models m).Updated := by
      cases hr : (attempt env .insert m d v).1 with
      | none => rw [f2 hr, postModel_updated, preludeModel_updated]
      | some e => rw [f1 e hr, preludeModel_updated]
    show Model.Updated ((attempt env .insert m d v).2.models m) = _
    rw [hval]
    rcases hv with ⟨h1, h2⟩ | h
    · rw [h1, h2]
    · rw [h]
      cases hu : (w.models m).Updated <;> simp
  · have hkind : saveKind (w.models m) = .update := by simp [saveKind, hnot]
    rw [Save_eq, hkind] at hres ⊢
    obtain ⟨_, d, v, k, _, _, heq⟩ := failRetry_attempt_last env dao .update m
      DefaultMaxFailRetries w (fun _ => True) (fun _ => True) (fun _ _ _ h => h)
      (fun _ _ _ _ => trivial) (fun _ _ _ h => h) (fun _ _ h => h) trivial
    rw [heq] at hres ⊢
    have hr : (attempt env .update m d v).1 = none := hres
    have hg : guardFails .update m v = false := by
      cases hg : guardFails .update m v
      · rfl
      · rw [attempt_guard env .update m d v hg] at hr
        cases hr
    obtain ⟨c1, _, _, f2⟩ := attempt_proj env Model.Updated hk .update
      (fun a b hab => hab) m d v hg
    show Model.Updated ((attempt env .update m d v).2.models m) =
      some (attempt env .update m d v).2.clock
    rw [f2 hr, postModel_updated, preludeModel_updated, c1]

/-- C15 at a sample input: a new model whose `updated` is already set. -/
theorem C15_updated_refreshed_when_zero_witness :
    ((sampleDao.Save sampleHooks 0 presetWorld).2.models 0).Updated =
      if (presetWorld.models 0).Updated.isNone then some presetWorld.clock
      else (presetWorld.models 0).Updated :=
  (C15_updated_refreshed_when_zero sampleHooks sampleDao 0 presetWorld
    (sampleHooks_keep _)).1 rfl

/-- C15 as stated fails: a new model whose `updated` timestamp is already set is
inserted successfully at time 1000 and keeps its old timestamp 5. -/
theorem C15_counterexample :
    presetModel.IsNew = true ∧ presetWorld.clock = 1000 ∧
    (sampleDao.Save sampleHooks 0 presetWorld).1 = none ∧
    (sampleDao.Save sampleHooks 0 presetWorld).2.clock = 1000 ∧
    ((sampleDao.Save sampleHooks 0 presetWorld).2.models 0).Updated = some 5 := by
  decide

theorem failRetry_keeps_id (env : Hooks) (hk : HooksKeep env Model.Id) (dao : Dao)
    (kind : WriteKind) (m : Ptr) (maxRetries : Int) (w : World)
    (h : (w.models m).HasId = true ∨ kind ≠ .insert) :
    ((dao.failRetry (attempt env kind m) maxRetries w).2.models m).Id = (w.models m).Id ∧
    (dao.failRetry (attempt env kind m) maxRetries w).2.seed = w.seed := by
  refine (failRetry_attempt_last env dao kind m maxRetries w
    (fun v => (v.models m).Id = (w.models m).Id ∧ v.seed = w.seed)
    (fun v => (v.models m).Id = (w.models m).Id ∧ v.seed = w.seed)
    (fun _ _ _ h => h) ?_ (fun _ _ _ h => h) (fun _ _ h => h) ⟨rfl, rfl⟩).1
  intro d v _ hv
  have hv2 : (v.models m).HasId = true ∨ kind ≠ .insert := by
    rcases h with h | h
    · exact Or.inl ((hasId_of_id _ _ hv.1).trans h)
    · exact Or.inr h
  constructor
  · have := attempt_proj_same env Model.Id hk kind m d v (preludeModel_id kind _ _ _ hv2)
      (fun a b hab => (postModel_id kind a).trans hab)
    exact this.trans hv.1
  · by_cases hg : guardFails kind m v = true
    · rw [attempt_guard env kind m d v hg]
      exact hv.2
    · have hg : guardFails kind m v = false := by simpa using hg
      obtain ⟨_, s, _, _⟩ := attempt_proj env Model.Id hk kind
        (fun a b hab => (postModel_id kind a).trans (hab.trans (postModel_id kind b).symm))
        m d v hg
      show (attempt env kind m d v).2.seed = w.seed
      rw [s, prelude_seed kind m v hv2]
      exact hv.2

/-- C16: the Dao never changes an assigned identifier and generates one only for a
new model that has none. With callbacks that leave the identifier alone: `Delete`
leaves the identifier of every model as it was and never consults the identifier
generator; `Save` of a model that has an identifier, or that is not new, leaves the
identifier as it was and never consults the generator, whether it succeeds or
fails. -/
theorem C16_identifier_immutable (env : Hooks) (dao : Dao) (m : Ptr) (w : World)
    (hk : HooksKeep env Model.Id) :
    (((dao.Delete env m w).2.models m).Id = (w.models m).Id ∧
      (dao.Delete env m w).2.seed = w.seed) ∧
    ((w.models m).HasId = true ∨ (w.models m).IsNew = false →
      ((dao.Save env m w).2.models m).Id = (w.models m).Id ∧
      (dao.Save env m w).2.seed = w.seed) := by
  constructor
  · rw [Delete_eq]
    split
    · exact ⟨rfl, rfl⟩
    · exact failRetry_keeps_id env hk dao .delete m DefaultMaxFailRetries w
        (Or.inr (by decide))
  · intro h
    rw [Save_eq]
    apply failRetry_keeps_id env hk dao _ m DefaultMaxFailRetries w
    rcases h with h | h
    · exact Or.inl h
    · right
      simp [saveKind, h]

/-- C16 at a sample input: saving and deleting the stored model. -/
theorem C16_identifier_immutable_witness :
    (((sampleDao.Delete sampleHooks 0 storedWorld).2.models 0).Id = (storedWorld.models 0).Id ∧
      (sampleDao.Delete sampleHooks 0 storedWorld).2.seed = storedWorld.seed) ∧
    ((storedWorld.models 0).HasId = true ∨ (storedWorld.models 0).IsNew = false →
      ((sampleDao.Save sampleHooks 0 storedWorld).2.models 0).Id = (storedWorld.models 0).Id ∧
      (sampleDao.Save sampleHooks 0 storedWorld).2.seed = storedWorld.seed) :=
  C16_identifier_immutable sampleHooks sampleDao 0 storedWorld (sampleHooks_keep _)

theorem ReadOnly.refl (w : World) : ReadOnly w w := ⟨rfl, rfl, rfl, rfl, rfl, rfl, rfl, rfl, rfl⟩

theorem ReadOnly.trans {a b c : World} (h1 : ReadOnly a b) (h2 : ReadOnly b c) : ReadOnly a c := by
  obtain ⟨a1, a2, a3, a4, a5, a6, a7, a8, a9⟩ := h1
  obtain ⟨b1, b2, b3, b4, b5, b6, b7, b8, b9⟩ := h2
  exact ⟨b1.trans a1, b2.trans a2, b3.trans a3, b4.trans a4, b5.trans a5, b6.trans a6,
    b7.trans a7, b8.trans a8, b9.trans a9⟩

theorem rows_congr (db : Builder) (v w : World) (hs : v.store = w.store) (ht : v.tx = w.tx) :
    db.rows v = db.rows w := by
  unfold Builder.rows
  rw [hs, ht]

theorem run_cases (q : SelectQuery) (w : World) :
    (∃ e, q.run w = (([], some e), w) ∧ q.db.rows w = none) ∨
    (∃ e rows, q.db.rows w = some rows ∧ w.queryFaults.headD none = some e ∧
      q.run w = (([], some e), w.answered)) ∨
    (∃ rows, q.db.rows w = some rows ∧ w.queryFaults.headD none = none ∧
      q.run w = ((rows.filter q.selectsRow, none), w.answered)) := by
  unfold SelectQuery.run
  cases hr : q.db.rows w with
  | none => exact Or.inl ⟨_, rfl, rfl⟩
  | some rows =>
    cases hq : w.queryFaults.headD none with
    | none => exact Or.inr (Or.inr ⟨_, rfl, rfl, rfl⟩)
    | some e => exact Or.inr (Or.inl ⟨e, _, rfl, rfl, rfl⟩)

theorem run_readOnly (q : SelectQuery) (w : World) :
    ReadOnly w (q.run w).2 ∧ (q.run w).2.models = w.models ∧
      (q.run w).2.nextPtr = w.nextPtr := by
  rcases run_cases q w with ⟨e, h, _⟩ | ⟨e, rows, _, _, h⟩ | ⟨rows, _, _, h⟩ <;> rw [h] <;>
    exact ⟨ReadOnly.refl _, rfl, rfl⟩

theorem One_readOnly (q : SelectQuery) (m : Ptr) (w : World) :
    ReadOnly w (q.One m w).2 ∧ (q.One m w).2.nextPtr = w.nextPtr := by
  obtain ⟨h1, _, h3⟩ := run_readOnly q w
  unfold SelectQuery.One
  rcases hr : q.run w with ⟨⟨rows, err⟩, v⟩
  rw [hr] at h1 h3
  cases rows <;> cases err <;> exact ⟨h1, h3⟩

theorem alloc_readOnly (w : World) (v : Model) : ReadOnly w (w.alloc v).2 :=
  ⟨rfl, rfl, rfl, rfl, rfl, rfl, rfl, rfl, rfl⟩

theorem TotalUsers_cases (dao : Dao) (w : World) (rows : List Row)
    (hrows : dao.DB.rows w = some rows) :
    (∀ e, w.queryFaults.headD none = some e →
      dao.TotalUsers w = ((0, some e), w.answered)) ∧
    (w.queryFaults.headD none = none →
      dao.TotalUsers w = ((((userRows rows).length : Int), none), w.answered)) := by
  have hdb : (dao.UserQuery.Select ["count(*)"]).db = dao.DB := rfl
  have hsel : (dao.UserQuery.Select ["count(*)"]).selectsRow = fun r => r.table == "users" := by
    funext r
    simp [SelectQuery.selectsRow, Dao.UserQuery, Dao.ModelQuery, SelectQuery.Select,
      SelectQuery.From, Builder.Select, Model.TableName, model.User]
  unfold Dao.TotalUsers SelectQuery.Row
  rcases run_cases (dao.UserQuery.Select ["count(*)"]) w with
    ⟨e, _, h2⟩ | ⟨e, rows2, h1, h2, h3⟩ | ⟨rows2, h1, h2, h3⟩
  · rw [hdb, hrows] at h2
    cases h2
  · rw [hdb, hrows] at h1
    refine ⟨fun e2 he2 => ?_, fun hn => ?_⟩
    · rw [h2] at he2
      cases he2
      rw [h3]
    · rw [h2] at hn
      cases hn
  · rw [hdb, hrows] at h1
    cases h1
    refine ⟨fun e2 he2 => ?_, fun _ => ?_⟩
    · rw [h2] at he2
      cases he2
    · rw [h3, hsel]
      rfl

theorem exec_rows (db : Builder) (kind : WriteKind) (m : Ptr) (table id : String)
    (cols : List (String × Value)) (w : World)
    (h : (db.exec kind m table id cols w).1 = none) :
    db.rows (db.exec kind m table id cols w).2 =
      (db.rows w).map (applyWrite kind table id cols) := by
  cases db with
  | nil => simp [Builder.exec] at h
  | DB c =>
    simp only [Builder.exec] at h ⊢
    split at h
    · cases h
    · next hq =>
      simp [hq, Builder.rows, World.log]
  | Tx i =>
    simp only [Builder.exec] at h ⊢
    split at h
    · next htx =>
      split at h
      · cases h
      · next hq =>
        simp only [htx, if_true, hq, Builder.rows, World.log]
        cases hx : w.tx with
        | none => rw [hx] at htx; cases htx
        | some t =>
          rw [hx] at htx
          simp at htx
          simp [htx]
    · cases h

theorem Delete_first_ok (env : Hooks) (dao : Dao) (m : Ptr) (w : World)
    (hk : HooksKeep env fun mv => (mv.tableName, mv.Id))
    (hid : (w.models m).HasId = true)
    (hb : firstBeforeResult env dao .delete m w = none)
    (hu : dao.nonconcurrentDB.usable w = true) (hf : w.faults.headD none = none) :
    (dao.Delete env m w).1 = none ∧
    dao.nonconcurrentDB.rows (dao.Delete env m w).2 =
      (dao.nonconcurrentDB.rows w).map fun rows =>
        rows.filter fun r => !(r.is (w.models m).tableName (w.models m).Id) := by
  rw [Delete_eq, if_neg (by simp [hid])]
  unfold Dao.failRetry
  rw [failRetryLoop_step]
  simp only [show ¬ ((1 : Int) = 2) by decide, if_false]
  rw [attempt_eq]
  simp only [guardFails, Bool.false_eq_true, if_false]
  unfold firstBeforeResult at hb
  obtain ⟨b1, b2, b3, b4, b5, b6, b7⟩ :=
    runBefore_fields env (dao.beforeFor .delete) dao m (prelude .delete m (w.log (.opCall 1 dao)))
  obtain ⟨k1, _, _⟩ := runBefore_proj env (fun mv => (mv.tableName, mv.Id)) hk
    (dao.beforeFor .delete) dao m (prelude .delete m (w.log (.opCall 1 dao)))
  rcases hrb : runBefore env (dao.beforeFor .delete) dao m
    (prelude .delete m (w.log (.opCall 1 dao))) with ⟨r, w1⟩
  rw [hrb] at hb b2 b3 b5 k1
  simp only at hb b2 b3 b5 k1
  subst hb
  simp only
  have hmodel : (w1.models m).tableName = (w.models m).tableName ∧
      (w1.models m).Id = (w.models m).Id := by
    have := k1
    simp only [prelude, World.log, Prod.mk.injEq] at this
    exact this
  have hu1 : dao.nonconcurrentDB.usable w1 = true := by
    rw [← hu]
    cases hdb : dao.nonconcurrentDB <;> simp [Builder.usable, b3, prelude, World.log]
  have hexec : opWrite .delete dao m w1 = dao.nonconcurrentDB.exec .delete m
      (w1.models m).tableName (w1.models m).Id [] w1 := rfl
  obtain ⟨_, _, _, _, _, _, e7⟩ := exec_fields dao.nonconcurrentDB .delete m
    (w1.models m).tableName (w1.models m).Id [] w1
  obtain ⟨e8, e9⟩ := e7 hu1
  have hres : (dao.nonconcurrentDB.exec .delete m (w1.models m).tableName (w1.models m).Id []
      w1).1 = none := by
    rw [e8, b5]
    simpa [prelude, World.log] using hf
  have hrows := exec_rows dao.nonconcurrentDB .delete m (w1.models m).tableName
    (w1.models m).Id [] w1 hres
  rw [hexec]
  rcases hex : dao.nonconcurrentDB.exec .delete m (w1.models m).tableName (w1.models m).Id []
    w1 with ⟨r2, w2⟩
  rw [hex] at hres hrows
  simp only at hres hrows
  subst hres
  simp only
  refine ⟨trivial, ?_⟩
  obtain ⟨_, a2, a3, _⟩ := runAfter_fields env (dao.afterFor .delete) dao m
    (postWrite .delete m w2)
  rw [rows_congr dao.nonconcurrentDB _ w2 (by simpa [World.log, postWrite] using a2)
    (by simpa [World.log, postWrite] using a3), hrows,
    rows_congr dao.nonconcurrentDB w1 w (by simpa [prelude, World.log] using b2)
      (by simpa [prelude, World.log] using b3), hmodel.1, hmodel.2]
  rfl

/-- C17: `DeleteUser` keeps the only user. Let the Dao's default handle see the
rows `rows`. When the storage engine fails the count of the users, `DeleteUser`
returns that error; when the count is answered and exactly one user record is
among the rows, it returns the error 'you cannot delete the only existing user'.
In both cases the world afterwards is the one before with the answer to the query
used up: no delete was issued, no callback ran, the record is still in the store.
Otherwise `DeleteUser` is `Delete` of the given user; when the user has an
identifier, the callbacks keep table and identifier, the before-callback returns
nil and the storage engine performs the write, `DeleteUser` returns nil and the
rows with the identifier of the user are gone from its table. -/
theorem C17_only_user_is_kept (env : Hooks) (dao : Dao) (user : Ptr) (w : World)
    (rows : List Row) (hrows : dao.DB.rows w = some rows) :
    (∀ e, w.queryFaults.headD none = some e →
      dao.DeleteUser env user w = (some e, w.answered)) ∧
    (w.queryFaults.headD none = none →
      ((userRows rows).length = 1 →
        dao.DeleteUser env user w =
          (some (errors.New "you cannot delete the only existing user"), w.answered)) ∧
      (2 ≤ (userRows rows).length →
        dao.DeleteUser env user w = dao.Delete env user w.answered ∧
        ((w.models user).HasId = true →
          HooksKeep env (fun mv => (mv.tableName, mv.Id)) →
          firstBeforeResult env dao .delete user w.answered = none →
          dao.nonconcurrentDB.usable w = true → w.faults.headD none = none →
          (dao.DeleteUser env user w).1 = none ∧
          dao.nonconcurrentDB.rows (dao.DeleteUser env user w).2 =
            (dao.nonconcurrentDB.rows w).map fun rows =>
              rows.filter fun r => !(r.is (w.models user).tableName (w.models user).Id)))) := by
  obtain ⟨t1, t2⟩ := TotalUsers_cases dao w rows hrows
  refine ⟨fun e he => ?_, fun hn => ⟨fun h1 => ?_, fun h2 => ?_⟩⟩
  · unfold Dao.DeleteUser
    rw [t1 e he]
  · unfold Dao.DeleteUser
    rw [t2 hn, h1]
    rfl
  · have hd : dao.DeleteUser env user w = dao.Delete env user w.answered := by
      unfold Dao.DeleteUser
      rw [t2 hn]
      simp only
      rw [if_neg]
      intro h
      have : (userRows rows).length = 1 := by exact_mod_cast h
      omega
    refine ⟨hd, fun hid hk hb hu hf => ?_⟩
    rw [hd]
    exact Delete_first_ok env dao user w.answered hk hid hb hu hf

/-- C17 at a sample input: the only user of a store is not deleted. -/
theorem C17_only_user_is_kept_witness :
    sampleDao.DeleteUser sampleHooks 0 oneUserWorld =
      (some (errors.New "you cannot delete the only existing user"), oneUserWorld.answered) :=
  ((C17_only_user_is_kept sampleHooks sampleDao 0 oneUserWorld [userRow "u1" "k1"] rfl).2
    rfl).1 (by decide)

theorem One_cases (q : SelectQuery) (m : Ptr) (w : World) :
    (∃ e, (q.One m w).1 = some e ∧ (q.One m w).2.models = w.models) ∨
    (∃ r, q.selectsRow r = true ∧ (q.One m w).1 = none ∧
      (q.One m w).2.models = Function.update w.models m ((w.models m).scan r.cols)) := by
  unfold SelectQuery.One
  rcases run_cases q w with ⟨e, h, _⟩ | ⟨e, rows, _, _, h⟩ | ⟨rows, _, _, h⟩
  · rw [h]
    exact Or.inl ⟨e, rfl, rfl⟩
  · rw [h]
    exact Or.inl ⟨e, rfl, rfl⟩
  · rw [h]
    cases hf : rows.filter q.selectsRow with
    | nil => exact Or.inl ⟨_, rfl, rfl⟩
    | cons r rest =>
      have hr : r ∈ rows.filter q.selectsRow := by rw [hf]; exact List.mem_cons_self _ _
      exact Or.inr ⟨r, (List.mem_filter.mp hr).2, rfl, rfl⟩

theorem scan_id (mv : Model) (cols : List (String × Value)) (id : String)
    (h : cols.lookup "id" = some (.str id)) : (mv.scan cols).Id = id := by
  simp [Model.scan, h]

theorem FindUserById_cases (dao : Dao) (id : String) (w : World) :
    (∃ e, (dao.FindUserById id w).1 = (none, some e)) ∨
    ((dao.FindUserById id w).1 = (some w.nextPtr, none) ∧
      ((dao.FindUserById id w).2.models w.nextPtr).Id = id ∧
      ((dao.FindUserById id w).2.models w.nextPtr).IsNew = false ∧
      ((dao.FindUserById id w).2.models w.nextPtr).tableName = "users") := by
  unfold Dao.FindUserById
  simp only [World.alloc]
  rcases One_cases ((dao.UserQuery.AndWhere ("id", .str id)).Limit 1) w.nextPtr
    { w.setModel w.nextPtr model.User with nextPtr := w.nextPtr + 1 } with
    ⟨e, h1, _⟩ | ⟨r, hsel, h1, h2⟩
  · rcases hone : ((dao.UserQuery.AndWhere ("id", .str id)).Limit 1).One w.nextPtr
      { w.setModel w.nextPtr model.User with nextPtr := w.nextPtr + 1 } with ⟨res, v⟩
    rw [hone] at h1
    simp only at h1
    subst h1
    exact Or.inl ⟨e, rfl⟩
  · rcases hone : ((dao.UserQuery.AndWhere ("id", .str id)).Limit 1).One w.nextPtr
      { w.setModel w.nextPtr model.User with nextPtr := w.nextPtr + 1 } with ⟨res, v⟩
    rw [hone] at h1 h2
    simp only at h1 h2
    subst h1
    right
    have hid : r.cols.lookup "id" = some (.str id) := by
      have := hsel
      simp only [SelectQuery.selectsRow, SelectQuery.Limit, SelectQuery.AndWhere, Dao.UserQuery,
        Dao.ModelQuery, SelectQuery.From, Builder.Select, List.nil_append, List.all_cons,
        List.all_nil, Bool.and_true, Bool.and_eq_true, beq_iff_eq] at this
      exact this.2
    refine ⟨rfl, ?_, ?_, ?_⟩
    · simp only [MarkAsNotNew, World.setModel, h2, Function.update_same, Model.MarkAsNotNew]
      exact scan_id _ _ _ hid
    · simp [MarkAsNotNew, World.setModel, Model.MarkAsNotNew, Model.IsNew]
    · simp [MarkAsNotNew, World.setModel, h2, Model.MarkAsNotNew, Model.scan, model.User]

/-- C18: `FindUserByToken` returns a user or an error, never both and never
neither. For every token, base key and world the result is a user with a nil error
or no user with an error. When a user is returned, the unverified claims of the
token were parsed without error and hold a non-empty string 'id', `FindUserById`
found that user for the claimed id, the token verifies under the key made of the
token key of the found user followed by the base key, and the user returned has
the claimed id, the token key that was verified, and is not new. -/
theorem C18_FindUserByToken_user_or_error (sec : security.Jwt) (dao : Dao)
    (token baseTokenKey : String) (w : World) :
    ((∃ u, (dao.FindUserByToken sec token baseTokenKey w).1 = (some u, none)) ∨
      (∃ e, (dao.FindUserByToken sec token baseTokenKey w).1 = (none, some e))) ∧
    (∀ u, (dao.FindUserByToken sec token baseTokenKey w).1.1 = some u →
      (sec.ParseUnverifiedJWT token).2 = none ∧
      (sec.ParseUnverifiedJWT token).1.stringAt "id" ≠ "" ∧
      (dao.FindUserById ((sec.ParseUnverifiedJWT token).1.stringAt "id") w).1 = (some u, none) ∧
      (sec.ParseJWT token
        (((dao.FindUserById ((sec.ParseUnverifiedJWT token).1.stringAt "id") w).2.models
          u).TokenKey ++ baseTokenKey)).2 = none ∧
      ((dao.FindUserByToken sec token baseTokenKey w).2.models u).Id =
        (sec.ParseUnverifiedJWT token).1.stringAt "id" ∧
      ((dao.FindUserByToken sec token baseTokenKey w).2.models u).TokenKey =
        ((dao.FindUserById ((sec.ParseUnverifiedJWT token).1.stringAt "id") w).2.models
          u).TokenKey ∧
      ((dao.FindUserByToken sec token baseTokenKey w).2.models u).IsNew = false) := by
  unfold Dao.FindUserByToken
  rcases hp : sec.ParseUnverifiedJWT token with ⟨claims, perr⟩
  cases perr with
  | some e => exact ⟨Or.inr ⟨e, rfl⟩, fun u hu => (by cases hu)⟩
  | none =>
    simp only
    by_cases hid : claims.stringAt "id" = ""
    · rw [if_pos hid]
      exact ⟨Or.inr ⟨_, rfl⟩, fun u hu => (by cases hu)⟩
    · rw [if_neg hid]
      rcases FindUserById_cases dao (claims.stringAt "id") w with ⟨e, hf⟩ | ⟨hf, h1, h2, _⟩
      · rcases hfind : dao.FindUserById (claims.stringAt "id") w with ⟨⟨fu, fe⟩, v⟩
        rw [hfind] at hf
        simp only [Prod.mk.injEq] at hf
        obtain ⟨rfl, rfl⟩ := hf
        exact ⟨Or.inr ⟨e, rfl⟩, fun u hu => (by cases hu)⟩
      · rcases hfind : dao.FindUserById (claims.stringAt "id") w with ⟨⟨fu, fe⟩, v⟩
        rw [hfind] at hf h1 h2
        simp only [Prod.mk.injEq] at hf h1 h2
        obtain ⟨rfl, rfl⟩ := hf
        simp only
        cases hv : (sec.ParseJWT token ((v.models w.nextPtr).TokenKey ++ baseTokenKey)).2 with
        | some e => exact ⟨Or.inr ⟨e, rfl⟩, fun u hu => (by cases hu)⟩
        | none =>
          refine ⟨Or.inl ⟨_, rfl⟩, fun u hu => ?_⟩
          simp only [Option.some.injEq] at hu
          subst hu
          refine ⟨trivial, hid, rfl, hv, ?_, ?_, ?_⟩
          · simpa [MarkAsNotNew, World.setModel, Model.MarkAsNotNew] using h1
          · simp [MarkAsNotNew, World.setModel, Model.MarkAsNotNew, Model.TokenKey,
              Model.stringField]
          · simp [MarkAsNotNew, World.setModel, Model.MarkAsNotNew, Model.IsNew]

theorem string_append_right_cancel (k k2 s : String) (h : k ++ s = k2 ++ s) : k = k2 := by
  have := congrArg String.data h
  simp only [String.data_append] at this
  exact String.ext (List.append_cancel_right this)

theorem string_append_left_cancel (s k k2 : String) (h : s ++ k = s ++ k2) : k = k2 := by
  have := congrArg String.data h
  simp only [String.data_append] at this
  exact String.ext (List.append_cancel_left this)

theorem FindUserByToken_eq (sec : security.Jwt) (dao : Dao) (token baseTokenKey : String)
    (w : World) (u : Ptr)
    (hparse : (sec.ParseUnverifiedJWT token).2 = none)
    (hid : (sec.ParseUnverifiedJWT token).1.stringAt "id" ≠ "")
    (hfind : (dao.FindUserById ((sec.ParseUnverifiedJWT token).1.stringAt "id") w).1 =
      (some u, none)) :
    (dao.FindUserByToken sec token baseTokenKey w).1 =
      match (sec.ParseJWT token
        (((dao.FindUserById ((sec.ParseUnverifiedJWT token).1.stringAt "id") w).2.models
          u).TokenKey ++ baseTokenKey)).2 with
      | some e => (none, some e)
      | none => (some u, none) := by
  unfold Dao.FindUserByToken
  rcases hp : sec.ParseUnverifiedJWT token with ⟨claims, perr⟩
  rw [hp] at hparse hid hfind
  simp only at hparse hid hfind
  subst hparse
  simp only
  rw [if_neg hid]
  rcases hf : dao.FindUserById (claims.stringAt "id") w with ⟨⟨fu, fe⟩, v⟩
  rw [hf] at hfind
  simp only [Prod.mk.injEq] at hfind
  obtain ⟨rfl, rfl⟩ := hfind
  simp only
  cases (sec.ParseJWT token ((v.models u).TokenKey ++ baseTokenKey)).2 <;> rfl

theorem sampleJwt_sound (claims : jwt.MapClaims) (key : String) (dur : Int) (tok key2 : String)
    (h : sampleJwt.NewToken claims key dur = (tok, none))
    (hv : (sampleJwt.ParseJWT tok key2).2 = none) : key2 = key := by
  simp only [sampleJwt] at h hv
  split at h
  · simp only [Prod.mk.injEq, and_true] at h
    subst h
    split at hv
    · next heq => exact (string_append_left_cancel _ _ _ heq).symm
    · cases hv
  · simp at h

theorem sampleJwt_valid (claims : jwt.MapClaims) (key : String) (dur : Int) (tok : String)
    (h : sampleJwt.NewToken claims key dur = (tok, none)) :
    (sampleJwt.ParseUnverifiedJWT tok).2 = none ∧
    (sampleJwt.ParseUnverifiedJWT tok).1.stringAt "id" = claims.stringAt "id" ∧
    (sampleJwt.ParseJWT tok key).2 = none := by
  simp only [sampleJwt] at h ⊢
  split at h
  · next hc =>
    simp only [Prod.mk.injEq, and_true] at h
    subst h
    have h3 : ("u1." ++ key).data.take 3 = ['u', '1', '.'] := by
      simp [String.data_append]
    rw [if_pos h3, if_pos rfl, hc]
    exact ⟨rfl, rfl, rfl⟩
  · simp at h

/-- C19: rotating the token key revokes the tokens issued before. Issuing signs
with the token key of the user followed by the secret of the settings, lookup
verifies with the token key of the stored user followed by the base key it is
given, and for a fixed secret the composite key determines the token key. Assume
that a token verifies only under the key it was signed with, and that an issued
token parses to its 'id' claim and verifies under its own key. Let a token be
issued to a user with a non-empty identifier, and let the user later found in the
store under that identifier have a different token key: `FindUserByToken` with
the secret as base key fails for the old token, and returns the stored user for a
token issued to the stored user. -/
theorem C19_token_key_rotation (sec : security.Jwt) (dao : Dao) (app : BaseApp)
    (s : settings.Settings) (issuedTo : Model) (oldToken : String) (w : World) (u : Ptr)
    (happ : app.Settings = some s)
    (hsound : ∀ claims key dur tok key2, sec.NewToken claims key dur = (tok, none) →
      (sec.ParseJWT tok key2).2 = none → key2 = key)
    (hvalid : ∀ claims key dur tok, sec.NewToken claims key dur = (tok, none) →
      (sec.ParseUnverifiedJWT tok).2 = none ∧
      (sec.ParseUnverifiedJWT tok).1.stringAt "id" = claims.stringAt "id" ∧
      (sec.ParseJWT tok key).2 = none)
    (hissued : tokens.NewUserAuthToken sec app issuedTo = (oldToken, none))
    (hid : issuedTo.Id ≠ "")
    (hfind : (dao.FindUserById issuedTo.Id w).1 = (some u, none)) :
    tokens.NewUserAuthToken sec app issuedTo =
      sec.NewToken [("id", .str issuedTo.Id), ("type", .str tokens.TypeUser)]
        (issuedTo.TokenKey ++ s.UserAuthToken.Secret) s.UserAuthToken.Duration ∧
    (∀ k k2 : String, k ++ s.UserAuthToken.Secret = k2 ++ s.UserAuthToken.Secret → k = k2) ∧
    (((dao.FindUserById issuedTo.Id w).2.models u).TokenKey ≠ issuedTo.TokenKey →
      ∃ e, (dao.FindUserByToken sec oldToken s.UserAuthToken.Secret w).1 = (none, some e)) ∧
    (∀ newToken,
      tokens.NewUserAuthToken sec app ((dao.FindUserById issuedTo.Id w).2.models u) =
        (newToken, none) →
      (dao.FindUserByToken sec newToken s.UserAuthToken.Secret w).1 = (some u, none)) := by
  have hnew : ∀ usr : Model, tokens.NewUserAuthToken sec app usr =
      sec.NewToken [("id", .str usr.Id), ("type", .str tokens.TypeUser)]
        (usr.TokenKey ++ s.UserAuthToken.Secret) s.UserAuthToken.Duration := by
    intro usr
    unfold tokens.NewUserAuthToken
    rw [happ]
  have hclaim : ∀ usr : Model, jwt.MapClaims.stringAt
      [("id", .str usr.Id), ("type", .str tokens.TypeUser)] "id" = usr.Id := by
    intro usr
    simp [jwt.MapClaims.stringAt, List.lookup]
  refine ⟨hnew issuedTo, fun k k2 h => string_append_right_cancel k k2 _ h, fun hne => ?_,
    fun newToken hnt => ?_⟩
  · rw [hnew] at hissued
    obtain ⟨v1, v2, _⟩ := hvalid _ _ _ _ hissued
    rw [hclaim] at v2
    have hfind2 := hfind
    rw [← v2] at hfind2 hid
    rw [FindUserByToken_eq sec dao oldToken _ w u v1 hid hfind2, v2]
    cases hv : (sec.ParseJWT oldToken
        (((dao.FindUserById issuedTo.Id w).2.models u).TokenKey ++
          s.UserAuthToken.Secret)).2 with
    | some e => exact ⟨e, rfl⟩
    | none =>
      exact absurd (string_append_right_cancel _ _ _ (hsound _ _ _ _ _ hissued hv)) hne
  · rw [hnew] at hnt
    obtain ⟨v1, v2, v3⟩ := hvalid _ _ _ _ hnt
    rw [hclaim] at v2
    have hstored : ((dao.FindUserById issuedTo.Id w).2.models u).Id = issuedTo.Id := by
      rcases FindUserById_cases dao issuedTo.Id w with ⟨e, he⟩ | ⟨h1, h2, _⟩
      · rw [he] at hfind
        cases hfind
      · rw [h1] at hfind
        simp only [Prod.mk.injEq, Option.some.injEq, and_true] at hfind
        subst hfind
        exact h2
    rw [hstored] at v2
    have hfind2 := hfind
    rw [← v2] at hfind2 hid
    rw [FindUserByToken_eq sec dao newToken _ w u v1 hid hfind2, v2, v3]

/-- C19 at a sample input: a token issued to the user "u1" under the token key
"k0", looked up when the stored token key is "k1". -/
theorem C19_token_key_rotation_witness :
    ∃ e, (sampleDao.FindUserByToken sampleJwt "u1.k0secret" "secret" usersWorld).1 =
      (none, some e) :=
  (C19_token_key_rotation sampleJwt sampleDao sampleApp sampleSettings (userModel "u1" "k0")
    "u1.k0secret" usersWorld 100 rfl sampleJwt_sound sampleJwt_valid (by decide) (by decide)
    (by decide)).2.2.1 (by decide)

/-- C18 at a sample input: the lookup of a token of the stored user "u1". -/
theorem C18_FindUserByToken_user_or_error_witness :
    (∃ u, (sampleDao.FindUserByToken sampleJwt "u1.k1secret" "secret" usersWorld).1 =
      (some u, none)) ∨
    (∃ e, (sampleDao.FindUserByToken sampleJwt "u1.k1secret" "secret" usersWorld).1 =
      (none, some e)) :=
  (C18_FindUserByToken_user_or_error sampleJwt sampleDao "u1.k1secret" "secret" usersWorld).1

theorem setModel_readOnly (w : World) (m : Ptr) (v : Model) : ReadOnly w (w.setModel m v) :=
  ⟨rfl, rfl, rfl, rfl, rfl, rfl, rfl, rfl, rfl⟩

theorem paramQuery_selectsRow (dao : Dao) (key : String) (r : Row) :
    ((dao.ParamQuery.AndWhere ("key", .str key)).Limit 1).selectsRow r = r.isParam key := by
  simp [SelectQuery.selectsRow, SelectQuery.Limit, SelectQuery.AndWhere, Dao.ParamQuery,
    Dao.ModelQuery, SelectQuery.From, Builder.Select, Row.isParam, Model.TableName, model.Param]

theorem One_no_rows (q : SelectQuery) (m : Ptr) (w : World) (rows : List Row)
    (hrows : q.db.rows w = some rows) (hnone : rows.filter q.selectsRow = []) :
    (∃ e, (q.One m w).1 = some e) ∧
    (w.queryFaults.headD none = none → (q.One m w).1 = some sql.ErrNoRows) := by
  unfold SelectQuery.One
  rcases run_cases q w with ⟨e, h, _⟩ | ⟨e, rows2, _, h2, h⟩ | ⟨rows2, h1, _, h⟩
  · rw [h]
    exact ⟨⟨e, rfl⟩, fun _ => (by rw [hrows] at *; simp_all)⟩
  · rw [h]
    exact ⟨⟨e, rfl⟩, fun hq => (by rw [h2] at hq; cases hq)⟩
  · rw [hrows] at h1
    cases h1
    rw [h, hnone]
    exact ⟨⟨_, rfl⟩, fun _ => rfl⟩

theorem FindParamByKey_cases (dao : Dao) (key : String) (w : World) :
    ReadOnly w (dao.FindParamByKey key w).2 ∧
    ((∃ e, (dao.FindParamByKey key w).1 = (none, some e)) ∨
      (dao.FindParamByKey key w).1 = (some w.nextPtr, none)) := by
  unfold Dao.FindParamByKey
  simp only [World.alloc]
  obtain ⟨h1, _⟩ := One_readOnly ((dao.ParamQuery.AndWhere ("key", .str key)).Limit 1) w.nextPtr
    { w.setModel w.nextPtr (model.Param "") with nextPtr := w.nextPtr + 1 }
  have h0 : ReadOnly w { w.setModel w.nextPtr (model.Param "") with nextPtr := w.nextPtr + 1 } :=
    ⟨rfl, rfl, rfl, rfl, rfl, rfl, rfl, rfl, rfl⟩
  rcases hone : ((dao.ParamQuery.AndWhere ("key", .str key)).Limit 1).One w.nextPtr
    { w.setModel w.nextPtr (model.Param "") with nextPtr := w.nextPtr + 1 } with ⟨res, v⟩
  rw [hone] at h1
  cases res with
  | some e => exact ⟨h0.trans h1, Or.inl ⟨e, rfl⟩⟩
  | none => exact ⟨h0.trans h1, Or.inr rfl⟩

theorem FindParamByKey_missing (dao : Dao) (key : String) (w : World) (rows : List Row)
    (hrows : dao.DB.rows w = some rows) (hnone : ∀ r ∈ rows, r.isParam key = false) :
    (∃ e, (dao.FindParamByKey key w).1 = (none, some e)) ∧
    (w.queryFaults.headD none = none →
      (dao.FindParamByKey key w).1 = (none, some sql.ErrNoRows)) := by
  unfold Dao.FindParamByKey
  simp only [World.alloc]
  have hf : rows.filter ((dao.ParamQuery.AndWhere ("key", .str key)).Limit 1).selectsRow = [] := by
    apply List.filter_eq_nil_iff.mpr
    intro r hr
    rw [paramQuery_selectsRow, hnone r hr]
    simp
  obtain ⟨⟨e, h1⟩, h2⟩ := One_no_rows ((dao.ParamQuery.AndWhere ("key", .str key)).Limit 1)
    w.nextPtr { w.setModel w.nextPtr (model.Param "") with nextPtr := w.nextPtr + 1 } rows
    hrows hf
  rcases hone : ((dao.ParamQuery.AndWhere ("key", .str key)).Limit 1).One w.nextPtr
    { w.setModel w.nextPtr (model.Param "") with nextPtr := w.nextPtr + 1 } with ⟨res, v⟩
  rw [hone] at h1 h2
  simp only at h1 h2
  subst h1
  refine ⟨⟨e, rfl⟩, fun hq => ?_⟩
  have := h2 hq
  simp only [Option.some.injEq] at this
  subst this
  rfl

theorem FindSettings_cases (lib : settings.Lib) (dao : Dao) (w : World) :
    ReadOnly w (dao.FindSettings lib w).2 ∧
    ((∃ e, (dao.FindSettings lib w).1 = (none, some e)) ∨
      (∃ s, (dao.FindSettings lib w).1 = (some s, none))) := by
  obtain ⟨h1, h2⟩ := FindParamByKey_cases dao model.ParamAppSettings w
  unfold Dao.FindSettings
  rcases hp : dao.FindParamByKey model.ParamAppSettings w with ⟨⟨fp, fe⟩, v⟩
  rw [hp] at h1 h2
  rcases h2 with ⟨e, he⟩ | he
  · simp only [Prod.mk.injEq] at he
    obtain ⟨rfl, rfl⟩ := he
    exact ⟨h1, Or.inl ⟨e, rfl⟩⟩
  · simp only [Prod.mk.injEq] at he
    obtain ⟨rfl, rfl⟩ := he
    simp only
    rcases lib.Unmarshal (v.models w.nextPtr).Value lib.New with ⟨res, err⟩
    cases err with
    | some e => exact ⟨h1, Or.inl ⟨_, rfl⟩⟩
    | none => exact ⟨h1, Or.inr ⟨res, rfl⟩⟩

theorem FindSettings_missing (lib : settings.Lib) (dao : Dao) (w : World) (rows : List Row)
    (hrows : dao.DB.rows w = some rows)
    (hnone : ∀ r ∈ rows, r.isParam model.ParamAppSettings = false)
    (hq : w.queryFaults.headD none = none) :
    (dao.FindSettings lib w).1 = (none, some sql.ErrNoRows) := by
  obtain ⟨_, h2⟩ := FindParamByKey_missing dao model.ParamAppSettings w rows hrows hnone
  have := h2 hq
  unfold Dao.FindSettings
  rcases hp : dao.FindParamByKey model.ParamAppSettings w with ⟨⟨fp, fe⟩, v⟩
  rw [hp] at this
  simp only [Prod.mk.injEq] at this
  obtain ⟨rfl, rfl⟩ := this
  rfl

theorem SaveParam_missing (env : Hooks) (lib : settings.Lib) (dao : Dao) (key : String)
    (value : settings.Settings) (w : World) (rows : List Row) (text : String)
    (hrows : dao.DB.rows w = some rows) (hnone : ∀ r ∈ rows, r.isParam key = false)
    (hscan : lib.Scan value = (text, none)) :
    ∃ p v, ReadOnly w v ∧ v.models p = (model.Param key).setValue text ∧
      dao.SaveParam env lib key value w = dao.Save env p v := by
  obtain ⟨⟨e, h1⟩, _⟩ := FindParamByKey_missing dao key w rows hrows hnone
  obtain ⟨hro, _⟩ := FindParamByKey_cases dao key w
  unfold Dao.SaveParam
  rcases hp : dao.FindParamByKey key w with ⟨⟨fp, fe⟩, v⟩
  rw [hp] at h1 hro
  simp only [Prod.mk.injEq] at h1
  obtain ⟨rfl, rfl⟩ := h1
  simp only [hscan]
  refine ⟨v.nextPtr, _, ?_, ?_, rfl⟩
  · exact hro.trans ((alloc_readOnly v (model.Param key)).trans (setModel_readOnly _ _ _))
  · simp [World.alloc, World.setModel]

/-- C25 (as amended): `Compare` compares the value taken as a string. For every
expected string and every value, the rule yields no error exactly when the value
taken as a string (the value itself when it is a string, the empty string
otherwise) equals the expected string, and otherwise it yields the
'validation_values_mismatch' error. So a string passes exactly when it equals the
expected string, and a value that is not a string passes exactly when the expected
string is empty. -/
theorem C25_Compare_string_form (expected : String) (value : GoAny) :
    (validators.Compare expected value = none ↔ value.string = expected) ∧
    (value.string ≠ expected →
      validators.Compare expected value =
        some (validation.NewError "validation_values_mismatch" "Values don\x27t match.")) ∧
    (∀ s, value = .str s → (validators.Compare expected value = none ↔ s = expected)) ∧
    (value.isString = false → (validators.Compare expected value = none ↔ expected = "")) := by
  have h1 : validators.Compare expected value = none ↔ value.string = expected := by
    unfold validators.Compare
    by_cases h : value.string = expected <;> simp [h]
  refine ⟨h1, fun hne => ?_, fun s hs => ?_, fun hns => ?_⟩
  · unfold validators.Compare
    simp [hne]
  · rw [h1, hs]
    rfl
  · rw [h1]
    cases value with
    | str s => cases hns
    | null => exact ⟨fun h => h.symm, fun h => h.symm⟩
    | int n => exact ⟨fun h => h.symm, fun h => h.symm⟩
    | bool b => exact ⟨fun h => h.symm, fun h => h.symm⟩

/-- C25 as stated fails: with the empty string expected, the rule yields no error
for nil and for the number 5, neither of which is a string. -/
theorem C25_counterexample :
    (validators.Compare "" .null = none ∧ GoAny.null.isString = false) ∧
    (validators.Compare "" (.int 5) = none ∧ (GoAny.int 5).isString = false) := by
  decide

theorem realUserIp_loop_rightmost (ips : List String) :
    ∀ n i ip, i < n → strings.TrimSpace (ips.getD i "") = ip → ip ≠ "" →
      (∀ j, i < j → j < n → strings.TrimSpace (ips.getD j "") = "") →
      realUserIp.loop ips n = some ip := by
  intro n
  induction n with
  | zero => intro i ip hi; omega
  | succ k ih =>
    intro i ip hi htrim hne hblank
    rw [realUserIp.loop]
    by_cases hik : i = k
    · subst hik
      show (if (strings.TrimSpace (ips.getD i "") != "") = true then _ else _) = _
      rw [htrim, if_pos (by simpa using hne)]
    · have hk := hblank k (by omega) (by omega)
      simp only [hk, bne_self_eq_false, Bool.false_eq_true, if_false]
      exact ih i ip (by omega) htrim hne fun j h1 h2 => hblank j h1 (by omega)

theorem realUserIp_loop_blank (ips : List String) :
    ∀ n, (∀ i, i < n → strings.TrimSpace (ips.getD i "") = "") →
      realUserIp.loop ips n = none := by
  intro n
  induction n with
  | zero => intro _; rfl
  | succ k ih =>
    intro hblank
    rw [realUserIp.loop]
    simp only [hblank k (by omega), bne_self_eq_false, Bool.false_eq_true, if_false]
    exact ih fun i hi => hblank i (by omega)

/-- C27: `realUserIp` picks the client address by fixed precedence. A non-empty
CF-Connecting-IP header is returned as it is; otherwise a non-empty X-Real-IP
header is returned as it is; otherwise, of the comma-separated entries of
X-Forwarded-For, the rightmost one that is non-empty after trimming white space is
returned trimmed; and when the first two headers are empty and every entry of
X-Forwarded-For is blank, as it is for an empty header, `fallbackIp` is returned. -/
theorem C27_realUserIp_precedence (r : http.Request) (fallbackIp : String) :
    (r.Header.Get "CF-Connecting-IP" ≠ "" →
      realUserIp r fallbackIp = r.Header.Get "CF-Connecting-IP") ∧
    (r.Header.Get "CF-Connecting-IP" = "" → r.Header.Get "X-Real-IP" ≠ "" →
      realUserIp r fallbackIp = r.Header.Get "X-Real-IP") ∧
    (r.Header.Get "CF-Connecting-IP" = "" → r.Header.Get "X-Real-IP" = "" →
      ∀ i ip, i < (strings.Split (r.Header.Get "X-Forwarded-For") ',').length →
        strings.TrimSpace ((strings.Split (r.Header.Get "X-Forwarded-For") ',').getD i "") = ip →
        ip ≠ "" →
        (∀ j, i < j → j < (strings.Split (r.Header.Get "X-Forwarded-For") ',').length →
          strings.TrimSpace
            ((strings.Split (r.Header.Get "X-Forwarded-For") ',').getD j "") = "") →
        realUserIp r fallbackIp = ip) ∧
    (r.Header.Get "CF-Connecting-IP" = "" → r.Header.Get "X-Real-IP" = "" →
      (∀ i, i < (strings.Split (r.Header.Get "X-Forwarded-For") ',').length →
        strings.TrimSpace
          ((strings.Split (r.Header.Get "X-Forwarded-For") ',').getD i "") = "") →
      realUserIp r fallbackIp = fallbackIp) ∧
    (r.Header.Get "X-Forwarded-For" = "" →
      ∀ i, i < (strings.Split (r.Header.Get "X-Forwarded-For") ',').length →
        strings.TrimSpace
          ((strings.Split (r.Header.Get "X-Forwarded-For") ',').getD i "") = "") := by
  have hempty : r.Header.Get "X-Forwarded-For" = "" →
      ∀ i, i < (strings.Split (r.Header.Get "X-Forwarded-For") ',').length →
        strings.TrimSpace
          ((strings.Split (r.Header.Get "X-Forwarded-For") ',').getD i "") = "" := by
    intro hx i hi
    rw [hx] at hi ⊢
    have hs : strings.Split "" ',' = [""] := by decide
    rw [hs] at hi ⊢
    have : i = 0 := by simpa using hi
    subst this
    decide
  refine ⟨fun h => ?_, fun h1 h2 => ?_, fun h1 h2 i ip hi htrim hne hblank => ?_,
    fun h1 h2 hblank => ?_, hempty⟩
  · unfold realUserIp
    simp [h]
  · unfold realUserIp
    simp [h1, h2]
  · have hx : r.Header.Get "X-Forwarded-For" ≠ "" := by
      intro hx
      exact hne (htrim.symm.trans (hempty hx i hi))
    unfold realUserIp
    simp only [h1, h2, bne_self_eq_false, Bool.false_eq_true, if_false]
    rw [if_pos (by simpa using hx)]
    simp only [realUserIp_loop_rightmost _ _ i ip hi htrim hne hblank]
  · unfold realUserIp
    have hfound : (if (r.Header.Get "X-Forwarded-For" != "") = true then
        realUserIp.loop (strings.Split (r.Header.Get "X-Forwarded-For") ',')
          (strings.Split (r.Header.Get "X-Forwarded-For") ',').length
        else none) = none := by
      split
      · exact realUserIp_loop_blank _ _ hblank
      · rfl
    simp only [h1, h2, bne_self_eq_false, Bool.false_eq_true, if_false, hfound]

/-- C27 at a sample input: the rightmost entry of X-Forwarded-For is blank, the one
before it is returned trimmed. -/
theorem C27_realUserIp_precedence_witness :
    realUserIp sampleRequest "127.0.0.1" = "10.0.0.1" :=
  (C27_realUserIp_precedence sampleRequest "127.0.0.1").2.2.1 (by decide) (by decide) 1
    "10.0.0.1" (by decide) (by decide) (by decide)
    (fun j h1 h2 => by
      have h3 : (strings.Split (sampleRequest.Header.Get "X-Forwarded-For") ',').length = 3 := by
        decide
      have : j = 2 := by omega
      subst this
      decide)

theorem failRetryLoop_success_dao (env : Hooks) (dao : Dao) (kind : WriteKind) (m : Ptr)
    (maxRetries : Int) :
    ∀ (fuel : Nat) (rd : Dao) (a : Int) (w : World),
      ((a = 1 ∧ rd = dao) ∨ (2 ≤ a ∧ (a = 2 ∨ rd = dao.withoutBeforeHooks))) →
      (dao.failRetryLoop (attempt env kind m) maxRetries fuel rd a w).1 = none →
      ∃ pre k, a ≤ k ∧
        (dao.failRetryLoop (attempt env kind m) maxRetries fuel rd a w).2.trace =
          w.trace ++ pre ++ [.opCall k (dao.retryDaoAt k)] ++
            beforeEvents ((dao.retryDaoAt k).beforeFor kind) (dao.retryDaoAt k) m ++
            [.write kind (dao.retryDaoAt k).nonconcurrentDB m none] ++
            afterEvents ((dao.retryDaoAt k).afterFor kind) (dao.retryDaoAt k) m ++
            [.opReturn k none] := by
  intro fuel
  induction fuel with
  | zero =>
    intro rd a w hinv hres
    have hd : (if a = 2 then dao.withoutBeforeHooks else rd) = dao.retryDaoAt a := by
      unfold Dao.retryDaoAt
      rcases hinv with ⟨h1, h2⟩ | ⟨h1, h2 | h2⟩
      · subst h1; simp [h2]
      · subst h2; simp
      · by_cases h : a = 2
        · simp [h]
        · have : a ≠ 1 := by omega
          simp [h, this, h2]
    obtain ⟨_, _, _, _, hc⟩ := attempt_cases env kind m (dao.retryDaoAt a)
      (w.log (.opCall a (dao.retryDaoAt a)))
    rw [failRetryLoop_step, hd] at hres ⊢
    rcases hop : attempt env kind m (dao.retryDaoAt a) (w.log (.opCall a (dao.retryDaoAt a)))
      with ⟨r, w1⟩
    rw [hop] at hres hc
    cases r with
    | some err =>
      simp only at hres
      split at hres <;> cases hres
    | none =>
      simp only at hc ⊢
      rcases hc with ⟨_, h⟩ | ⟨_, e, _, h, _⟩ | ⟨_, _, e, h, _⟩ | ⟨_, _, _, ht, _⟩
      · cases h
      · cases h
      · cases h
      · refine ⟨[], a, le_refl _, ?_⟩
        rw [World.log_trace, ht, World.log_trace]
        simp only [List.append_assoc, List.nil_append]
  | succ n ih =>
    intro rd a w hinv hres
    have hd : (if a = 2 then dao.withoutBeforeHooks else rd) = dao.retryDaoAt a := by
      unfold Dao.retryDaoAt
      rcases hinv with ⟨h1, h2⟩ | ⟨h1, h2 | h2⟩
      · subst h1; simp [h2]
      · subst h2; simp
      · by_cases h : a = 2
        · simp [h]
        · have : a ≠ 1 := by omega
          simp [h, this, h2]
    have hinv2 : ((a + 1 = 1 ∧ dao.retryDaoAt a = dao) ∨
        (2 ≤ a + 1 ∧ (a + 1 = 2 ∨ dao.retryDaoAt a = dao.withoutBeforeHooks))) := by
      right
      rcases hinv with ⟨h1, _⟩ | ⟨h1, _⟩
      · subst h1
        exact ⟨by decide, Or.inl (by decide)⟩
      · refine ⟨by omega, Or.inr ?_⟩
        unfold Dao.retryDaoAt
        rw [if_neg (by omega)]
    obtain ⟨_, _, _, _, hc⟩ := attempt_cases env kind m (dao.retryDaoAt a)
      (w.log (.opCall a (dao.retryDaoAt a)))
    obtain ⟨evs, hevs, _⟩ := attempt_writes env kind m (dao.retryDaoAt a)
      (w.log (.opCall a (dao.retryDaoAt a)))
    rw [failRetryLoop_step, hd] at hres ⊢
    rcases hop : attempt env kind m (dao.retryDaoAt a) (w.log (.opCall a (dao.retryDaoAt a)))
      with ⟨r, w1⟩
    rw [hop] at hres hc hevs
    cases r with
    | none =>
      simp only at hc ⊢
      rcases hc with ⟨_, h⟩ | ⟨_, e, _, h, _⟩ | ⟨_, _, e, h, _⟩ | ⟨_, _, _, ht, _⟩
      · cases h
      · cases h
      · cases h
      · refine ⟨[], a, le_refl _, ?_⟩
        rw [World.log_trace, ht, World.log_trace]
        simp only [List.append_assoc, List.nil_append]
    | some err =>
      simp only at hres hevs ⊢
      by_cases hcond : a < maxRetries ∧ isLocked err = true
      · rw [if_pos hcond] at hres ⊢
        obtain ⟨pre, k, hk, ht⟩ := ih _ _ _ hinv2 hres
        refine ⟨[.opCall a (dao.retryDaoAt a)] ++ evs ++ [.opReturn a (some err)] ++
          [.sleep (200 * a * time.Millisecond)] ++ pre, k, by omega, ?_⟩
        rw [ht, time.Sleep_trace, World.log_trace, hevs, World.log_trace]
        simp only [List.append_assoc, List.cons_append, List.nil_append]
      · rw [if_neg hcond] at hres
        cases hres

/-- C28: the Dao handed to the callbacks depends on the attempt. Whenever `Save` or
`Delete` returns nil, its log ends with the successful attempt: the call of the
retried closure numbered `k` with a Dao, the before-callbacks of that Dao, the
successful write through its nonconcurrent handle, its after-callback called with
that Dao, and the return. For `k = 1` that Dao is the calling Dao itself; for
`k` from 2 on it is the Dao with the same two handles and the same three
after-callbacks and no before-callback, which differs from the calling Dao as soon
as that one has a before-callback, and the attempt runs no before-callback. -/
theorem C28_callback_dao_by_attempt (env : Hooks) (dao : Dao) (kind : WriteKind) (m : Ptr)
    (w : World)
    (hkind : kind = .delete ∨ kind = saveKind (w.models m))
    (hres : (dao.perform env kind m w).1 = none) :
    (∃ pre k, 1 ≤ k ∧
      (dao.perform env kind m w).2.trace =
        w.trace ++ pre ++ [.opCall k (dao.retryDaoAt k)] ++
          beforeEvents ((dao.retryDaoAt k).beforeFor kind) (dao.retryDaoAt k) m ++
          [.write kind (dao.retryDaoAt k).nonconcurrentDB m none] ++
          afterEvents ((dao.retryDaoAt k).afterFor kind) (dao.retryDaoAt k) m ++
          [.opReturn k none]) ∧
    dao.retryDaoAt 1 = dao ∧
    (∀ k : Int, 2 ≤ k →
      (dao.retryDaoAt k).concurrentDB = dao.concurrentDB ∧
      (dao.retryDaoAt k).nonconcurrentDB = dao.nonconcurrentDB ∧
      (dao.retryDaoAt k).AfterCreateFunc = dao.AfterCreateFunc ∧
      (dao.retryDaoAt k).AfterUpdateFunc = dao.AfterUpdateFunc ∧
      (dao.retryDaoAt k).AfterDeleteFunc = dao.AfterDeleteFunc ∧
      (dao.retryDaoAt k).BeforeCreateFunc = none ∧
      (dao.retryDaoAt k).BeforeUpdateFunc = none ∧
      (dao.retryDaoAt k).BeforeDeleteFunc = none ∧
      beforeEvents ((dao.retryDaoAt k).beforeFor kind) (dao.retryDaoAt k) m = [] ∧
      ((dao.BeforeCreateFunc ≠ none ∨ dao.BeforeUpdateFunc ≠ none ∨
        dao.BeforeDeleteFunc ≠ none) → dao.retryDaoAt k ≠ dao)) := by
  have hguard : kind ≠ .insert → (w.models m).HasId = true := by
    intro hk
    cases hid : (w.models m).HasId
    · exfalso
      cases kind with
      | insert => exact hk rfl
      | update =>
        have hs : saveKind (w.models m) = .update := by
          rcases hkind with h | h
          · cases h
          · exact h.symm
        have hnot : (w.models m).IsNew = false := by
          cases hn : (w.models m).IsNew
          · rfl
          · simp [saveKind, hn] at hs
        have h13 : dao.Save env m w = (some (errors.New "ID is not set"),
            (w.log (.opCall 1 dao)).log (.opReturn 1 (some (errors.New "ID is not set")))) := by
          have hg : guardFails .update m (w.log (.opCall 1 dao)) = true := by
            simp [guardFails, World.log, hid]
          have hatt := attempt_guard env .update m dao (w.log (.opCall 1 dao)) hg
          rw [Save_eq, hs]
          have := failRetry_first_error dao (attempt env .update m) DefaultMaxFailRetries w
            (errors.New "ID is not set") (by rw [hatt]) (by decide)
          rw [this, hatt]
        have : (dao.perform env .update m w).1 = some (errors.New "ID is not set") := by
          show (dao.Save env m w).1 = _
          rw [h13]
        rw [this] at hres
        cases hres
      | delete =>
        have : (dao.perform env .delete m w).1 = some (errors.New "ID is not set") := by
          show (dao.Delete env m w).1 = _
          rw [Delete_eq]
          simp [hid]
        rw [this] at hres
        cases hres
    · rfl
  obtain ⟨_, hperf⟩ := perform_eq env dao kind m w hkind hguard
  rw [hperf] at hres ⊢
  refine ⟨?_, by simp [Dao.retryDaoAt], fun k hk => ?_⟩
  · exact failRetryLoop_success_dao env dao kind m DefaultMaxFailRetries
      (DefaultMaxFailRetries - 1).toNat dao 1 w (Or.inl ⟨rfl, rfl⟩) hres
  · have hwbh : dao.retryDaoAt k = dao.withoutBeforeHooks := by
      unfold Dao.retryDaoAt
      rw [if_neg (by omega)]
    rw [hwbh]
    refine ⟨rfl, rfl, rfl, rfl, rfl, rfl, rfl, rfl, ?_, ?_⟩
    · rw [withoutBeforeHooks_beforeFor]
      rfl
    · intro hb heq
      have h1 : dao.BeforeCreateFunc = none := by rw [← heq]; rfl
      have h2 : dao.BeforeUpdateFunc = none := by rw [← heq]; rfl
      have h3 : dao.BeforeDeleteFunc = none := by rw [← heq]; rfl
      rcases hb with hb | hb | hb
      · exact hb h1
      · exact hb h2
      · exact hb h3

/-- C28 at a sample input: a `Save` that succeeds at its first attempt. -/
theorem C28_callback_dao_by_attempt_witness :
    ∃ pre k, 1 ≤ k ∧
      (sampleDao.perform sampleHooks .insert 0 sampleWorld).2.trace =
        sampleWorld.trace ++ pre ++ [.opCall k (sampleDao.retryDaoAt k)] ++
          beforeEvents ((sampleDao.retryDaoAt k).beforeFor .insert) (sampleDao.retryDaoAt k) 0 ++
          [.write .insert (sampleDao.retryDaoAt k).nonconcurrentDB 0 none] ++
          afterEvents ((sampleDao.retryDaoAt k).afterFor .insert) (sampleDao.retryDaoAt k) 0 ++
          [.opReturn k none] :=
  (C28_callback_dao_by_attempt sampleHooks sampleDao .insert 0 sampleWorld (Or.inr rfl)
    (by decide)).1

theorem attempt_events (env : Hooks) (kind : WriteKind) (m : Ptr) (d : Dao) (w : World) :
    ∃ evs, (attempt env kind m d w).2.trace = w.trace ++ evs ∧
      ∀ ev ∈ evs, (∃ g, ev = .beforeCall g d m) ∨
        (∃ r, ev = .write kind d.nonconcurrentDB m r) ∨ (∃ g, ev = .afterCall g d m) := by
  have hbefore : ∀ ev ∈ beforeEvents (d.beforeFor kind) d m, (∃ g, ev = .beforeCall g d m) ∨
      (∃ r, ev = .write kind d.nonconcurrentDB m r) ∨ (∃ g, ev = .afterCall g d m) :=
    fun ev hev => Or.inl (beforeEvents_mem _ _ _ _ hev)
  have hafter : ∀ ev ∈ afterEvents (d.afterFor kind) d m, (∃ g, ev = .beforeCall g d m) ∨
      (∃ r, ev = .write kind d.nonconcurrentDB m r) ∨ (∃ g, ev = .afterCall g d m) := by
    intro ev hev
    cases hf : d.afterFor kind with
    | none => rw [hf] at hev; cases hev
    | some f =>
      rw [hf] at hev
      simp only [afterEvents, List.mem_singleton] at hev
      exact Or.inr (Or.inr ⟨f, hev⟩)
  obtain ⟨_, _, _, _, hc⟩ := attempt_cases env kind m d w
  rcases hc with ⟨_, h⟩ | ⟨_, e, _, _, h, _⟩ | ⟨_, _, e, _, h, _⟩ | ⟨_, _, _, h, _⟩
  · exact ⟨[], by rw [h]; simp, fun e he => (by cases he)⟩
  · exact ⟨_, h, hbefore⟩
  · refine ⟨beforeEvents (d.beforeFor kind) d m ++ [.write kind d.nonconcurrentDB m (some e)],
      by rw [h, List.append_assoc], fun ev hev => ?_⟩
    rcases List.mem_append.mp hev with hev | hev
    · exact hbefore ev hev
    · exact Or.inr (Or.inl ⟨some e, by simpa using hev⟩)
  · refine ⟨beforeEvents (d.beforeFor kind) d m ++ [.write kind d.nonconcurrentDB m none] ++
      afterEvents (d.afterFor kind) d m, by rw [h]; simp, fun ev hev => ?_⟩
    rcases List.mem_append.mp hev with hev | hev
    · rcases List.mem_append.mp hev with hev | hev
      · exact hbefore ev hev
      · exact Or.inr (Or.inl ⟨none, by simpa using hev⟩)
    · exact hafter ev hev

theorem CallsIn_refl (tx : Nat) (w : World) : CallsIn tx w w :=
  ⟨[], by simp, fun ev hev => (by cases hev)⟩

theorem CallsIn_trans (tx : Nat) (a b c : World) (h1 : CallsIn tx a b) (h2 : CallsIn tx b c) :
    CallsIn tx a c := by
  obtain ⟨e1, t1, p1⟩ := h1
  obtain ⟨e2, t2, p2⟩ := h2
  refine ⟨e1 ++ e2, by rw [t2, t1, List.append_assoc], fun ev hev => ?_⟩
  rcases List.mem_append.mp hev with hev | hev
  · exact p1 ev hev
  · exact p2 ev hev

theorem CallsIn_log (tx : Nat) (w : World) (ev : Event) (h : ev.isRetryEvent = true) :
    CallsIn tx w (w.log ev) := by
  refine ⟨[ev], rfl, fun e he => ?_⟩
  simp only [List.mem_singleton] at he
  subst he
  cases e <;> simp_all [Event.isRetryEvent, Event.calledIn]

theorem CallsIn_sleep (tx : Nat) (w : World) (d : Int) : CallsIn tx w (time.Sleep d w) := by
  refine ⟨[.sleep d], rfl, fun e he => ?_⟩
  simp only [List.mem_singleton] at he
  subst he
  trivial

theorem attempt_callsIn (env : Hooks) (tx : Nat) (d : Dao) (h : d.boundTo tx)
    (kind : WriteKind) (m : Ptr) (w : World) : CallsIn tx w (attempt env kind m d w).2 := by
  obtain ⟨evs, ht, p⟩ := attempt_events env kind m d w
  refine ⟨evs, ht, fun ev hev => ?_⟩
  rcases p ev hev with ⟨g, rfl⟩ | ⟨r, rfl⟩ | ⟨g, rfl⟩
  · exact h
  · trivial
  · exact h

theorem boundTo_withoutBeforeHooks (d : Dao) (tx : Nat) (h : d.boundTo tx) :
    d.withoutBeforeHooks.boundTo tx := h

theorem boundTo_nestedTxDao (d : Dao) (tx : Nat) : (d.nestedTxDao (.Tx tx)).boundTo tx :=
  ⟨rfl, rfl⟩

theorem boundTo_topTxDao (dao : Dao) (slot tx : Nat) : (dao.topTxDao slot (.Tx tx)).boundTo tx :=
  ⟨rfl, rfl⟩

theorem failRetry_callsIn (env : Hooks) (tx : Nat) (d : Dao) (h : d.boundTo tx)
    (kind : WriteKind) (m : Ptr) (maxRetries : Int) (w : World) :
    CallsIn tx w (d.failRetry (attempt env kind m) maxRetries w).2 :=
  failRetryLoop_rel (CallsIn tx) (CallsIn_trans tx) (CallsIn_log tx) (CallsIn_sleep tx) d
    (attempt env kind m)
    (fun d2 v hd => by
      rcases hd with hd | hd
      · subst hd; exact attempt_callsIn env tx _ h kind m v
      · subst hd
        exact attempt_callsIn env tx _ (boundTo_withoutBeforeHooks d tx h) kind m v)
    maxRetries _ d 1 w (Or.inl rfl)

theorem Script_callsIn (env : Hooks) (tx : Nat) (body : Script) :
    ∀ (d : Dao) (w : World), d.boundTo tx → CallsIn tx w (body.run env d w).2 := by
  induction body with
  | ret err => intro d w _; exact CallsIn_refl tx w
  | save m next ih =>
    intro d w h
    rw [Script.run]
    refine CallsIn_trans _ _ _ _ ?_ (ih _ _ _ _ h)
    rw [Save_eq]
    exact failRetry_callsIn env tx d h _ m _ w
  | delete m next ih =>
    intro d w h
    rw [Script.run]
    refine CallsIn_trans _ _ _ _ ?_ (ih _ _ _ _ h)
    rw [Delete_eq]
    split
    · exact CallsIn_refl tx w
    · exact failRetry_callsIn env tx d h _ m _ w
  | runInTransaction inner next ih1 ih2 =>
    intro d w h
    rw [Script.run]
    refine CallsIn_trans _ _ _ _ ?_ (ih2 _ _ _ _ h)
    rw [RunInTransaction_nested env d tx _ w h.2]
    exact ih1 _ _ (boundTo_nestedTxDao d tx)

theorem owedAfterCalls_mem (dao : Dao) (evs : List Event) (ev : Event)
    (h : ev ∈ owedAfterCalls dao evs) :
    ∃ kind f m, dao.afterFor kind = some f ∧ ev = .afterCall f dao m := by
  unfold owedAfterCalls at h
  obtain ⟨p, _, hp⟩ := List.mem_flatMap.mp h
  cases hf : dao.afterFor p.1 with
  | none => rw [hf] at hp; cases hp
  | some f =>
    rw [hf] at hp
    simp only [afterEvents, List.mem_singleton] at hp
    exact ⟨p.1, f, p.2, hf, hp⟩

/-- C23: the replayed after-hooks get the outer Dao, the before-hooks in the body a
Dao bound to the transaction. For a Dao on a plain handle and a body that returns
nil, the log of a top-level `RunInTransaction` is the begin, the log of the body,
the commit and the replayed after-callbacks. Every callback invoked in the body,
before-callbacks included, is called with a Dao whose two handles are the handle
of the new transaction. Every invocation after the commit is of one of the
receiver's own after-callbacks and is called with the receiver itself, whose
nonconcurrent handle is the plain handle; the receiver is not bound to the
transaction. -/
theorem C23_hook_dao_arguments (env : Hooks) (dao : Dao) (conn : Nat) (body : Script)
    (w : World)
    (hdb : dao.NonconcurrentDB = .DB conn)
    (hfn : (body.run env (dao.topTxDao w.nextSlot (.Tx w.txCount)) (txStart w)).1 = none) :
    ∃ evs,
      (dao.RunInTransaction env (fun txDao => body.run env txDao) w).2.trace =
        w.trace ++ [.begin w.txCount] ++ evs ++ [.commit w.txCount] ++ owedAfterCalls dao evs ∧
      (∀ f d m, Event.beforeCall f d m ∈ evs →
        d.concurrentDB = .Tx w.txCount ∧ d.nonconcurrentDB = .Tx w.txCount) ∧
      (∀ f d m, Event.afterCall f d m ∈ evs →
        d.concurrentDB = .Tx w.txCount ∧ d.nonconcurrentDB = .Tx w.txCount) ∧
      (∀ ev ∈ owedAfterCalls dao evs,
        ∃ kind f m, dao.afterFor kind = some f ∧ ev = .afterCall f dao m) ∧
      dao.nonconcurrentDB = .DB conn ∧ ¬ dao.boundTo w.txCount := by
  obtain ⟨_, evs, b2, b3, b4⟩ := top_body env dao body w
  obtain ⟨evs2, c2, c3⟩ := Script_callsIn env w.txCount body
    (dao.topTxDao w.nextSlot (.Tx w.txCount)) (txStart w) (boundTo_topTxDao dao _ _)
  have hevs : evs2 = evs := by
    rw [b2] at c2
    have : (txStart w).trace = w.trace ++ [.begin w.txCount] := rfl
    rw [this] at c2
    exact (List.append_cancel_left c2).symm
  subst hevs
  rw [RunInTransaction_top env dao conn _ w hdb]
  rcases hrun : body.run env (dao.topTxDao w.nextSlot (.Tx w.txCount)) (txStart w) with ⟨r, v⟩
  rw [hrun] at hfn b2 b4
  simp only at hfn b2 b4
  subst hfn
  simp only
  refine ⟨evs2, ?_, fun f d m hmem => c3 _ hmem, fun f d m hmem => c3 _ hmem,
    owedAfterCalls_mem dao evs2, hdb, fun hb => ?_⟩
  · rw [(replay_fields env dao _ _).1, b4, b3.2.1, World.log_trace]
    simp only [b2]
  · have h1 : dao.nonconcurrentDB = .DB conn := hdb
    rw [hb.2] at h1
    cases h1

/-- C23 at a sample input: one `Save` in the body. -/
theorem C23_hook_dao_arguments_witness :
    ∃ evs,
      (sampleDao.RunInTransaction sampleHooks (fun txDao => saveBody.run sampleHooks txDao)
        sampleWorld).2.trace =
        sampleWorld.trace ++ [.begin sampleWorld.txCount] ++ evs ++
          [.commit sampleWorld.txCount] ++ owedAfterCalls sampleDao evs ∧
      (∀ f d m, Event.beforeCall f d m ∈ evs →
        d.concurrentDB = .Tx sampleWorld.txCount ∧ d.nonconcurrentDB = .Tx sampleWorld.txCount) ∧
      (∀ f d m, Event.afterCall f d m ∈ evs →
        d.concurrentDB = .Tx sampleWorld.txCount ∧ d.nonconcurrentDB = .Tx sampleWorld.txCount) ∧
      (∀ ev ∈ owedAfterCalls sampleDao evs,
        ∃ kind f m, sampleDao.afterFor kind = some f ∧ ev = .afterCall f sampleDao m) ∧
      sampleDao.nonconcurrentDB = .DB 1 ∧ ¬ sampleDao.boundTo sampleWorld.txCount :=
  C23_hook_dao_arguments sampleHooks sampleDao 1 saveBody sampleWorld rfl (by decide)

theorem SameStorage_refl (w : World) : SameStorage w w :=
  ⟨rfl, rfl, rfl, rfl, rfl, rfl, rfl, rfl, rfl⟩

theorem SameStorage_log (v u : World) (e : Event) (h : SameStorage v u) :
    SameStorage (v.log e) (u.log e) := by
  obtain ⟨h1, h2, h3, h4, h5, h6, h7, h8, h9⟩ := h
  exact ⟨h1, h2, h3, h4, by simp [World.log, h5], h6, h7, h8, h9⟩

theorem callBefore_congr (env env2 : Hooks) (hb : env.before = env2.before) (f : BeforeFunc)
    (d : Dao) (m : Ptr) : ∀ w : World, callBefore env f d m w = callBefore env2 f d m w := by
  induction f with
  | user name => intro w; simp [callBefore, hb]
  | forward f ih => intro w; simp only [callBefore]; exact ih _

theorem runBefore_congr (env env2 : Hooks) (hb : env.before = env2.before)
    (f : Option BeforeFunc) (d : Dao) (m : Ptr) (w : World) :
    runBefore env f d m w = runBefore env2 f d m w := by
  cases f with
  | none => rfl
  | some f => exact callBefore_congr env env2 hb f d m w

theorem runAfter_sameStorage (env env2 : Hooks) (f : Option AfterFunc) (d : Dao) (m : Ptr)
    (w : World) : SameStorage (runAfter env f d m w) (runAfter env2 f d m w) := by
  cases f with
  | none => exact SameStorage_refl w
  | some f =>
    cases f with
    | user name => exact ⟨rfl, rfl, rfl, rfl, rfl, rfl, rfl, rfl, rfl⟩
    | collect action slot => exact SameStorage_refl _

theorem attempt_after_irrelevant (env env2 : Hooks) (hb : env.before = env2.before)
    (kind : WriteKind) (m : Ptr) (d : Dao) (w : World) :
    (attempt env kind m d w).1 = (attempt env2 kind m d w).1 ∧
    (∀ e, (attempt env kind m d w).1 = some e →
      attempt env kind m d w = attempt env2 kind m d w) ∧
    SameStorage (attempt env kind m d w).2 (attempt env2 kind m d w).2 := by
  rw [attempt_eq, attempt_eq, runBefore_congr env env2 hb]
  by_cases hg : guardFails kind m w = true
  · rw [if_pos hg, if_pos hg]
    exact ⟨rfl, fun _ _ => rfl, SameStorage_refl w⟩
  · rw [if_neg hg, if_neg hg]
    rcases runBefore env2 (d.beforeFor kind) d m (prelude kind m w) with ⟨r, w1⟩
    cases r with
    | some err => exact ⟨rfl, fun _ _ => rfl, SameStorage_refl w1⟩
    | none =>
      show (match opWrite kind d m w1 with
          | (some err, w2) => (some err, w2)
          | (none, w2) => (none, runAfter env (d.afterFor kind) d m (postWrite kind m w2))).1 =
        (match opWrite kind d m w1 with
          | (some err, w2) => (some err, w2)
          | (none, w2) => (none, runAfter env2 (d.afterFor kind) d m (postWrite kind m w2))).1 ∧
        (∀ e, (match opWrite kind d m w1 with
          | (some err, w2) => (some err, w2)
          | (none, w2) => (none, runAfter env (d.afterFor kind) d m (postWrite kind m w2))).1 =
            some e →
          (match opWrite kind d m w1 with
          | (some err, w2) => (some err, w2)
          | (none, w2) => (none, runAfter env (d.afterFor kind) d m (postWrite kind m w2))) =
          (match opWrite kind d m w1 with
          | (some err, w2) => (some err, w2)
          | (none, w2) => (none, runAfter env2 (d.afterFor kind) d m (postWrite kind m w2)))) ∧
        SameStorage (match opWrite kind d m w1 with
          | (some err, w2) => (some err, w2)
          | (none, w2) => (none, runAfter env (d.afterFor kind) d m (postWrite kind m w2))).2
          (match opWrite kind d m w1 with
          | (some err, w2) => (some err, w2)
          | (none, w2) => (none, runAfter env2 (d.afterFor kind) d m (postWrite kind m w2))).2
      rcases opWrite kind d m w1 with ⟨r2, w2⟩
      cases r2 with
      | some err => exact ⟨rfl, fun _ _ => rfl, SameStorage_refl w2⟩
      | none => exact ⟨rfl, fun e he => (by cases he), runAfter_sameStorage env env2 _ d m _⟩

theorem failRetryLoop_congr (dao : Dao) (op op2 : Dao → World → Option GoError × World)
    (maxRetries : Int)
    (hop : ∀ d v, (op d v).1 = (op2 d v).1 ∧ (∀ e, (op d v).1 = some e → op d v = op2 d v) ∧
      SameStorage (op d v).2 (op2 d v).2) :
    ∀ (fuel : Nat) (rd : Dao) (a : Int) (w : World),
      (dao.failRetryLoop op maxRetries fuel rd a w).1 =
        (dao.failRetryLoop op2 maxRetries fuel rd a w).1 ∧
      SameStorage (dao.failRetryLoop op maxRetries fuel rd a w).2
        (dao.failRetryLoop op2 maxRetries fuel rd a w).2 := by
  intro fuel
  induction fuel with
  | zero =>
    intro rd a w
    obtain ⟨h1, h2, h3⟩ := hop (if a = 2 then dao.withoutBeforeHooks else rd)
      (w.log (.opCall a (if a = 2 then dao.withoutBeforeHooks else rd)))
    rw [failRetryLoop_step, failRetryLoop_step]
    rcases hA : op (if a = 2 then dao.withoutBeforeHooks else rd)
      (w.log (.opCall a (if a = 2 then dao.withoutBeforeHooks else rd))) with ⟨r, w1⟩
    rw [hA] at h1 h2 h3
    cases r with
    | some err =>
      rw [← h2 err rfl]
      simp only
      exact ⟨trivial, SameStorage_refl _⟩
    | none =>
      rcases hB : op2 (if a = 2 then dao.withoutBeforeHooks else rd)
        (w.log (.opCall a (if a = 2 then dao.withoutBeforeHooks else rd))) with ⟨r2, w2⟩
      rw [hB] at h1 h3
      simp only at h1 h3
      subst h1
      exact ⟨rfl, SameStorage_log _ _ _ h3⟩
  | succ n ih =>
    intro rd a w
    obtain ⟨h1, h2, h3⟩ := hop (if a = 2 then dao.withoutBeforeHooks else rd)
      (w.log (.opCall a (if a = 2 then dao.withoutBeforeHooks else rd)))
    rw [failRetryLoop_step, failRetryLoop_step]
    rcases hA : op (if a = 2 then dao.withoutBeforeHooks else rd)
      (w.log (.opCall a (if a = 2 then dao.withoutBeforeHooks else rd))) with ⟨r, w1⟩
    rw [hA] at h1 h2 h3
    cases r with
    | some err =>
      rw [← h2 err rfl]
      simp only
      split
      · exact ih _ _ _
      · exact ⟨rfl, SameStorage_refl _⟩
    | none =>
      rcases hB : op2 (if a = 2 then dao.withoutBeforeHooks else rd)
        (w.log (.opCall a (if a = 2 then dao.withoutBeforeHooks else rd))) with ⟨r2, w2⟩
      rw [hB] at h1 h3
      simp only at h1 h3
      subst h1
      exact ⟨rfl, SameStorage_log _ _ _ h3⟩

theorem perform_after_irrelevant (env env2 : Hooks) (hb : env.before = env2.before)
    (dao : Dao) (m : Ptr) (w : World) :
    ((dao.Save env m w).1 = (dao.Save env2 m w).1 ∧
      SameStorage (dao.Save env m w).2 (dao.Save env2 m w).2) ∧
    ((dao.Delete env m w).1 = (dao.Delete env2 m w).1 ∧
      SameStorage (dao.Delete env m w).2 (dao.Delete env2 m w).2) := by
  constructor
  · rw [Save_eq, Save_eq]
    exact failRetryLoop_congr dao _ _ _
      (fun d v => attempt_after_irrelevant env env2 hb _ m d v) _ dao 1 w
  · rw [Delete_eq, Delete_eq]
    split
    · exact ⟨rfl, SameStorage_refl w⟩
    · exact failRetryLoop_congr dao _ _ _
        (fun d v => attempt_after_irrelevant env env2 hb _ m d v) _ dao 1 w

/-- C22: what the after-hooks return never reaches the caller. Take the Dao built
by `createDaoWithHooks` and two sets of handlers with the same handlers bound to
the three before-hooks; the handlers bound to `OnModelAfterCreate`,
`OnModelAfterUpdate` and `OnModelAfterDelete` may differ in any way, for instance
return nil in the one and an error in the other. Then `Save` returns the same
value under both, and so does `Delete`, and the worlds they leave agree on the
database (committed rows and open transaction), the pending answers of the storage
engine and the log: the write that came before the after-hook is there in both. -/
theorem C22_after_hook_errors_dropped (app : BaseApp) (concurrentDB nonconcurrentDB : Builder)
    (hooks hooks2 : AppHooks) (m : Ptr) (w : World)
    (hcreate : hooks.onModelBeforeCreate = hooks2.onModelBeforeCreate)
    (hupdate : hooks.onModelBeforeUpdate = hooks2.onModelBeforeUpdate)
    (hdelete : hooks.onModelBeforeDelete = hooks2.onModelBeforeDelete) :
    (((app.createDaoWithHooks concurrentDB nonconcurrentDB).Save hooks.callbacks m w).1 =
        ((app.createDaoWithHooks concurrentDB nonconcurrentDB).Save hooks2.callbacks m w).1 ∧
      SameStorage
        ((app.createDaoWithHooks concurrentDB nonconcurrentDB).Save hooks.callbacks m w).2
        ((app.createDaoWithHooks concurrentDB nonconcurrentDB).Save hooks2.callbacks m w).2) ∧
    (((app.createDaoWithHooks concurrentDB nonconcurrentDB).Delete hooks.callbacks m w).1 =
        ((app.createDaoWithHooks concurrentDB nonconcurrentDB).Delete hooks2.callbacks m w).1 ∧
      SameStorage
        ((app.createDaoWithHooks concurrentDB nonconcurrentDB).Delete hooks.callbacks m w).2
        ((app.createDaoWithHooks concurrentDB nonconcurrentDB).Delete hooks2.callbacks m w).2) := by
  have hb : hooks.callbacks.before = hooks2.callbacks.before := by
    simp only [AppHooks.callbacks, hcreate, hupdate, hdelete]
  exact perform_after_irrelevant hooks.callbacks hooks2.callbacks hb _ m w

/-- C22 at a sample input: saving a new model with no handler bound, and with a
handler on `OnModelAfterCreate` that returns an error. -/
theorem C22_after_hook_errors_dropped_witness :
    ((sampleApp.createDaoWithHooks (.DB 0) (.DB 1)).Save noHooks.callbacks 0 sampleWorld).1 =
      ((sampleApp.createDaoWithHooks (.DB 0) (.DB 1)).Save
        ({ noHooks with onModelAfterCreate := [fun _ _ mv => (mv, some constraintError)] }
          : AppHooks).callbacks 0 sampleWorld).1 :=
  (C22_after_hook_errors_dropped sampleApp (.DB 0) (.DB 1) noHooks
    { noHooks with onModelAfterCreate := [fun _ _ mv => (mv, some constraintError)] }
    0 sampleWorld rfl rfl rfl).1.1

theorem ResetBootstrapState_cases (app : BaseApp) (w : World) :
    (∃ e, (app.ResetBootstrapState w).1 = some e) ∨
    ((app.ResetBootstrapState w).1 = none ∧ (app.ResetBootstrapState w).2.1.dao = none ∧
      (app.ResetBootstrapState w).2.1.settings = none ∧
      (app.ResetBootstrapState w).2.1.databaseUrl = app.databaseUrl) := by
  unfold BaseApp.ResetBootstrapState
  simp only
  split
  · next err v _ => exact Or.inl ⟨err, rfl⟩
  · exact Or.inr ⟨rfl, rfl, rfl, rfl⟩

theorem initDB_cases (app : BaseApp) (w : World) :
    (app.initDB w).2.1.settings = app.settings ∧
    ((app.initDB w).1 = none → (app.initDB w).2.1.dao.isSome = true) := by
  unfold BaseApp.initDB
  rcases connectDB app.databaseUrl w with ⟨⟨db, err⟩, w1⟩
  cases err with
  | some e => cases db <;> exact ⟨rfl, fun h => (by cases h)⟩
  | none =>
    cases db with
    | none => exact ⟨rfl, fun h => (by cases h)⟩
    | some c =>
      simp only
      rcases connectDB app.databaseUrl w1 with ⟨⟨db2, err2⟩, w2⟩
      cases err2 with
      | some e => cases db2 <;> exact ⟨rfl, fun h => (by cases h)⟩
      | none =>
        cases db2 with
        | none => exact ⟨rfl, fun h => (by cases h)⟩
        | some c2 => exact ⟨rfl, fun _ => rfl⟩

/-- C21, the code at the failing input: `Bootstrap` leaves the settings unloaded.
For every app with no handler bound to the after-bootstrap hook, whenever
`Bootstrap` returns nil the app has a Dao and no settings, so `IsBootstrapped`
returns false. The other two cases of the claim hold: `IsBootstrapped` is false
for the app `NewBaseApp` returns, and after `ResetBootstrapState` returned nil. -/
theorem C21_Bootstrap_leaves_settings_unloaded (hooks : AppHooks) (app : BaseApp) (w : World)
    (hafter : hooks.onAfterBootstrap = [])
    (hres : (app.Bootstrap hooks w).1 = none) :
    ((app.Bootstrap hooks w).2.1.dao.isSome = true ∧
      (app.Bootstrap hooks w).2.1.settings = none ∧
      (app.Bootstrap hooks w).2.1.IsBootstrapped = false) ∧
    (∀ lib config, (NewBaseApp lib config).IsBootstrapped = false) ∧
    (∀ (a : BaseApp) (v : World), (a.ResetBootstrapState v).1 = none →
      (a.ResetBootstrapState v).2.1.IsBootstrapped = false) := by
  refine ⟨?_, fun lib config => rfl, fun a v hv => ?_⟩
  · unfold BaseApp.Bootstrap at hres ⊢
    rw [hafter] at hres ⊢
    rcases hT : hook.Trigger hooks.onBeforeBootstrap none (app, w) with ⟨⟨app1, w1⟩, err1⟩
    rw [hT] at hres
    cases err1 with
    | some e => cases hres
    | none =>
      simp only at hres ⊢
      rcases ResetBootstrapState_cases app1 w1 with ⟨e, he⟩ | ⟨h1, _, h3, _⟩
      · rcases hr : app1.ResetBootstrapState w1 with ⟨r, app2, w2⟩
        rw [hr] at he hres
        simp only at he
        subst he
        cases hres
      · rcases hr : app1.ResetBootstrapState w1 with ⟨r, app2, w2⟩
        rw [hr] at h1 h3 hres
        simp only at h1 h3
        subst h1
        simp only at hres ⊢
        obtain ⟨i1, i2⟩ := initDB_cases app2 w2
        rcases hi : app2.initDB w2 with ⟨r3, app3, w3⟩
        rw [hi] at i1 i2 hres
        cases r3 with
        | some e => cases hres
        | none =>
          simp only at i1 i2 hres ⊢
          have hs : app3.settings = none := by rw [i1, h3]
          simp only [hook.Trigger]
          exact ⟨i2 trivial, hs, by simp [BaseApp.IsBootstrapped, hs]⟩
  · rcases ResetBootstrapState_cases a v with ⟨e, he⟩ | ⟨_, h2, _, _⟩
    · rw [he] at hv
      cases hv
    · simp [BaseApp.IsBootstrapped, h2]

/-- C21 at the failing input: a new app with no handlers and a database server that
accepts the connections. `Bootstrap` returns nil and `IsBootstrapped` is false. -/
theorem C21_Bootstrap_leaves_settings_unloaded_witness :
    ((NewBaseApp sampleLib sampleConfig).Bootstrap noHooks sampleWorld).1 = none ∧
    ((NewBaseApp sampleLib sampleConfig).Bootstrap noHooks sampleWorld).2.1.IsBootstrapped =
      false :=
  ⟨by decide, (C21_Bootstrap_leaves_settings_unloaded noHooks (NewBaseApp sampleLib sampleConfig)
    sampleWorld rfl (by decide)).1.2.2⟩

theorem scan_isNew (mv : Model) (cols : List (String × Value)) :
    (mv.scan cols).isNew = mv.isNew := rfl

theorem FindParamByKey_found_isNew (dao : Dao) (key : String) (w : World) (p : Ptr)
    (h : (dao.FindParamByKey key w).1 = (some p, none)) :
    ((dao.FindParamByKey key w).2.models p).isNew = true := by
  unfold Dao.FindParamByKey at h ⊢
  simp only [World.alloc] at h ⊢
  rcases One_cases ((dao.ParamQuery.AndWhere ("key", .str key)).Limit 1) w.nextPtr
    { w.setModel w.nextPtr (model.Param "") with nextPtr := w.nextPtr + 1 } with
    ⟨e, h1, _⟩ | ⟨r, _, h1, h2⟩
  · rcases hone : ((dao.ParamQuery.AndWhere ("key", .str key)).Limit 1).One w.nextPtr
      { w.setModel w.nextPtr (model.Param "") with nextPtr := w.nextPtr + 1 } with ⟨res, v⟩
    rw [hone] at h1 h
    simp only at h1
    subst h1
    cases h
  · rcases hone : ((dao.ParamQuery.AndWhere ("key", .str key)).Limit 1).One w.nextPtr
      { w.setModel w.nextPtr (model.Param "") with nextPtr := w.nextPtr + 1 } with ⟨res, v⟩
    rw [hone] at h1 h2 h
    simp only at h1 h2
    subst h1
    simp only [Prod.mk.injEq, Option.some.injEq, and_true] at h
    subst h
    simp only [h2, Function.update_same, scan_isNew]
    simp [World.setModel, model.Param]

/-- C24, the code at the failing input: a stored `Param` is inserted again, not
updated. Whenever `FindParamByKey` finds a `Param` with the key, every storage
write that `SaveParam` issues is an insert of the found model through the
nonconcurrent handle, none is an update: the model `FindParamByKey` returns is
never marked as not new, unlike the one `FindUserById` returns, so `Save` takes the
insert path. -/
theorem C24_found_param_is_inserted (env : Hooks) (lib : settings.Lib) (dao : Dao)
    (key : String) (value : settings.Settings) (w : World) (p : Ptr)
    (hfound : (dao.FindParamByKey key w).1 = (some p, none)) :
    ∃ evs, (dao.SaveParam env lib key value w).2.trace = w.trace ++ evs ∧
      ∀ e ∈ evs, e.isWrite = true → ∃ r, e = .write .insert dao.nonconcurrentDB p r := by
  have hnew := FindParamByKey_found_isNew dao key w p hfound
  obtain ⟨hro, _⟩ := FindParamByKey_cases dao key w
  unfold Dao.SaveParam
  rcases hf : dao.FindParamByKey key w with ⟨⟨fp, fe⟩, v⟩
  rw [hf] at hfound hnew hro
  simp only [Prod.mk.injEq] at hfound
  obtain ⟨rfl, rfl⟩ := hfound
  simp only at hnew ⊢
  rcases lib.Scan value with ⟨text, serr⟩
  cases serr with
  | some e =>
    refine ⟨[], ?_, fun e he => (by cases he)⟩
    rw [List.append_nil]
    exact hro.2.2.2.2.1
  | none =>
    simp only
    have hkind : saveKind ((v.setModel p ((v.models p).setValue text)).models p) = .insert := by
      simp [saveKind, World.setModel, Model.setValue, Model.IsNew, hnew]
    rw [Save_eq, hkind]
    obtain ⟨evs, h1, h2⟩ := failRetry_writes env dao .insert p DefaultMaxFailRetries
      (v.setModel p ((v.models p).setValue text))
    refine ⟨evs, ?_, h2⟩
    rw [h1]
    show v.trace ++ evs = _
    rw [hro.2.2.2.2.1]

/-- C24 at the failing input: the settings record is stored and `SaveParam` is
called with its key. `SaveParam` returns nil and the store then holds two `Param`
rows with the key 'settings', the old one with its old value. -/
theorem C24_found_param_is_inserted_witness :
    (sampleDao.SaveParam sampleHooks sampleLib "settings" sampleSettings settingsWorld).1 = none ∧
    ((sampleDao.SaveParam sampleHooks sampleLib "settings" sampleSettings
      settingsWorld).2.store.filter fun r => r.isParam "settings") =
      [paramRow "abcdefghijklmno" "settings" "old",
        ⟨"params", [("id", .str "abcdefghijklmno"), ("created", .time (some 500)),
          ("updated", .time (some 500)), ("key", .str "settings"), ("value", .str "secret")]⟩] ∧
    ∃ evs, (sampleDao.SaveParam sampleHooks sampleLib "settings" sampleSettings
        settingsWorld).2.trace = settingsWorld.trace ++ evs ∧
      ∀ e ∈ evs, e.isWrite = true → ∃ r, e = .write .insert sampleDao.nonconcurrentDB 100 r :=
  ⟨by decide, by decide,
    C24_found_param_is_inserted sampleHooks sampleLib sampleDao "settings" sampleSettings
      settingsWorld 100 (by decide)⟩

/-- C26, the code at the failing input: the handlers answer without looking at
what `Save` returned. For every app with a Dao and every request of an
authenticated user, `logout` answers 200 and returns nil whatever `Save` returned,
and the world it leaves is the one `Save` left; `authRefresh` answers what
`authResponse` answers in that world, whatever `Save` returned. -/
theorem C26_save_result_ignored (env : Hooks) (sec : security.Jwt)
    (onUserAuthRequest : List (UserAuthEvent → UserAuthEvent × Option GoError))
    (app : BaseApp) (dao : Dao) (c : echo.Context) (user : Ptr) (w : World)
    (hdao : app.Dao = some dao) (huser : c.user = some user) :
    authApi.logout env app c w =
      ((none, c.NoContent 200), (dao.Save env user (RefreshTokenKey user w)).2) ∧
    authApi.authRefresh env sec onUserAuthRequest app c w =
      (authApi.authResponse sec onUserAuthRequest app c user
        (dao.Save env user (RefreshTokenKey user w)).2,
        (dao.Save env user (RefreshTokenKey user w)).2) := by
  unfold authApi.logout authApi.authRefresh
  simp only [huser, hdao]
  exact ⟨trivial, trivial⟩

/-- C26 at the failing input: the user "u1" with the stored token key "k1" logs out
while the storage engine fails the write. `Save` returns the error, `logout`
answers 200, the token key of the stored user is still "k1" and differs from the
newly generated key of the model. -/
theorem C26_save_result_ignored_witness :
    (sampleDao.Save sampleHooks 0 (RefreshTokenKey 0 brokenUsersWorld)).1 = some connectionError ∧
    (authApi.logout sampleHooks sampleApp sampleContext brokenUsersWorld).1 =
      (none, sampleContext.NoContent 200) ∧
    (authApi.logout sampleHooks sampleApp sampleContext brokenUsersWorld).2.store =
      [userRow "u1" "k1", userRow "u2" "k2"] ∧
    ((authApi.logout sampleHooks sampleApp sampleContext brokenUsersWorld).2.models 0).TokenKey ≠
      "k1" :=
  ⟨by decide,
    by rw [(C26_save_result_ignored sampleHooks sampleJwt [] sampleApp sampleDao sampleContext 0
      brokenUsersWorld rfl rfl).1],
    by decide, by decide⟩

theorem One_first_row (q : SelectQuery) (m : Ptr) (w : World) (rows : List Row) (r : Row)
    (rest : List Row) (hrows : q.db.rows w = some rows)
    (hf : rows.filter q.selectsRow = r :: rest) (hq : w.queryFaults.headD none = none) :
    q.One m w = (none, w.answered.setModel m ((w.answered.models m).scan r.cols)) := by
  unfold SelectQuery.One
  rcases run_cases q w with ⟨e, _, h⟩ | ⟨e, rows2, _, h2, _⟩ | ⟨rows2, h1, _, h⟩
  · rw [hrows] at h
    cases h
  · rw [hq] at h2
    cases h2
  · rw [hrows] at h1
    cases h1
    rw [h, hf]

theorem One_fault (q : SelectQuery) (m : Ptr) (w : World) (rows : List Row) (e : GoError)
    (hrows : q.db.rows w = some rows) (hq : w.queryFaults.headD none = some e) :
    q.One m w = (some e, w.answered) := by
  unfold SelectQuery.One
  rcases run_cases q w with ⟨e2, _, h⟩ | ⟨e2, rows2, _, h2, h⟩ | ⟨rows2, _, h2, _⟩
  · rw [hrows] at h
    cases h
  · rw [hq] at h2
    cases h2
    rw [h]
  · rw [hq] at h2
    cases h2

theorem FindParamByKey_found (dao : Dao) (key : String) (w : World) (rows : List Row)
    (r : Row) (rest : List Row) (hrows : dao.DB.rows w = some rows)
    (hf : (rows.filter fun x => x.isParam key) = r :: rest)
    (hq : w.queryFaults.headD none = none) :
    (dao.FindParamByKey key w).1 = (some w.nextPtr, none) ∧
    (dao.FindParamByKey key w).2.models w.nextPtr = (model.Param "").scan r.cols := by
  have hf2 : rows.filter ((dao.ParamQuery.AndWhere ("key", .str key)).Limit 1).selectsRow =
      r :: rest := by
    rw [← hf]
    congr 1
    funext x
    exact paramQuery_selectsRow dao key x
  unfold Dao.FindParamByKey
  simp only [World.alloc]
  rw [One_first_row ((dao.ParamQuery.AndWhere ("key", .str key)).Limit 1) w.nextPtr
    { w.setModel w.nextPtr (model.Param "") with nextPtr := w.nextPtr + 1 } rows r rest
    hrows hf2 hq]
  refine ⟨rfl, ?_⟩
  simp [World.setModel, World.answered]

theorem FindParamByKey_fault (dao : Dao) (key : String) (w : World) (rows : List Row)
    (e : GoError) (hrows : dao.DB.rows w = some rows)
    (hq : w.queryFaults.headD none = some e) :
    (dao.FindParamByKey key w).1 = (none, some e) := by
  unfold Dao.FindParamByKey
  simp only [World.alloc]
  rw [One_fault ((dao.ParamQuery.AndWhere ("key", .str key)).Limit 1) w.nextPtr
    { w.setModel w.nextPtr (model.Param "") with nextPtr := w.nextPtr + 1 } rows e
    hrows hq]

theorem FindSettings_found (lib : settings.Lib) (dao : Dao) (w : World) (rows : List Row)
    (r : Row) (rest : List Row) (hrows : dao.DB.rows w = some rows)
    (hf : (rows.filter fun x => x.isParam model.ParamAppSettings) = r :: rest)
    (hq : w.queryFaults.headD none = none) :
    (dao.FindSettings lib w).1 =
      match lib.Unmarshal ((model.Param "").scan r.cols).Value lib.New with
      | (_, some _) => (none, some (errors.New "failed to load the stored app settings"))
      | (result, none) => (some result, none) := by
  obtain ⟨h1, h2⟩ := FindParamByKey_found dao model.ParamAppSettings w rows r rest hrows hf hq
  unfold Dao.FindSettings
  rcases hp : dao.FindParamByKey model.ParamAppSettings w with ⟨⟨fp, fe⟩, v⟩
  rw [hp] at h1 h2
  simp only [Prod.mk.injEq] at h1
  obtain ⟨rfl, rfl⟩ := h1
  simp only at h2 ⊢
  rw [h2]
  rcases lib.Unmarshal ((model.Param "").scan r.cols).Value lib.New with ⟨res, err⟩
  cases err <;> rfl

theorem FindSettings_fault (lib : settings.Lib) (dao : Dao) (w : World) (rows : List Row)
    (e : GoError) (hrows : dao.DB.rows w = some rows)
    (hq : w.queryFaults.headD none = some e) :
    (dao.FindSettings lib w).1 = (none, some e) := by
  have h1 := FindParamByKey_fault dao model.ParamAppSettings w rows e hrows hq
  unfold Dao.FindSettings
  rcases hp : dao.FindParamByKey model.ParamAppSettings w with ⟨⟨fp, fe⟩, v⟩
  rw [hp] at h1
  simp only [Prod.mk.injEq] at h1
  obtain ⟨rfl, rfl⟩ := h1
  rfl

/-- C20: `RefreshSettings` treats a missing settings record as a first run. Let
the app have a Dao and let `current` be its settings, the defaults when it has
none. `FindSettings` writes nothing. When it fails with `sql.ErrNoRows`,
`RefreshSettings` returns what `SaveSettings(current)` returns, which is
`SaveParam` under the key 'settings'; when it fails with another error, one with
the same message included, `RefreshSettings` returns that error and the world is
the one `FindSettings` left, so nothing was saved; when it finds stored settings,
`RefreshSettings` merges them into the app settings, returns what the merge
returns, and again nothing was saved. The three cases are reached from the store:
a store whose rows hold no `Param` with key 'settings' makes `FindSettings` fail
with `sql.ErrNoRows` once the query is answered, and the save is then `Save` of a
new `Param` with key 'settings' whose value is the JSON text of `current`; a store
whose first `Param` with key 'settings' is the row `r` makes `FindSettings` return
the settings decoded from the value of `r` once the query is answered, which are
merged with nothing saved, and when the value does not decode `RefreshSettings`
returns the decoding error of `FindSettings` with nothing saved; and a query that
the storage engine fails with the error `e` makes `FindSettings` fail with `e`,
which `RefreshSettings` returns with nothing saved unless `e` is `sql.ErrNoRows`
itself. -/
theorem C20_missing_settings_is_first_run (env : Hooks) (lib : settings.Lib) (app : BaseApp)
    (dao : Dao) (w : World) (hdao : app.Dao = some dao) :
    ReadOnly w (dao.FindSettings lib w).2 ∧
    ((dao.FindSettings lib w).1.2 = some sql.ErrNoRows →
      BaseApp.RefreshSettings env lib app w =
        ((dao.SaveSettings env lib (app.settings.getD lib.New) (dao.FindSettings lib w).2).1,
          { app with settings := some (app.settings.getD lib.New) },
          (dao.SaveSettings env lib (app.settings.getD lib.New) (dao.FindSettings lib w).2).2) ∧
      dao.SaveSettings env lib (app.settings.getD lib.New) (dao.FindSettings lib w).2 =
        dao.SaveParam env lib "settings" (app.settings.getD lib.New)
          (dao.FindSettings lib w).2) ∧
    (∀ e, (dao.FindSettings lib w).1.2 = some e → e ≠ sql.ErrNoRows →
      BaseApp.RefreshSettings env lib app w =
        (some e, { app with settings := some (app.settings.getD lib.New) },
          (dao.FindSettings lib w).2)) ∧
    (∀ stored, (dao.FindSettings lib w).1.1 = some stored →
      BaseApp.RefreshSettings env lib app w =
        ((lib.Merge (app.settings.getD lib.New) stored).2,
          { app with settings := some (lib.Merge (app.settings.getD lib.New) stored).1 },
          (dao.FindSettings lib w).2)) ∧
    (∀ rows, dao.DB.rows w = some rows → (∀ r ∈ rows, r.isParam "settings" = false) →
      w.queryFaults.headD none = none →
      (dao.FindSettings lib w).1 = (none, some sql.ErrNoRows) ∧
      ∀ text, lib.Scan (app.settings.getD lib.New) = (text, none) →
        ∃ p v, ReadOnly w v ∧ v.models p = (model.Param "settings").setValue text ∧
          BaseApp.RefreshSettings env lib app w =
            ((dao.Save env p v).1, { app with settings := some (app.settings.getD lib.New) },
              (dao.Save env p v).2)) ∧
    (∀ rows r rest, dao.DB.rows w = some rows →
      (rows.filter fun x => x.isParam "settings") = r :: rest →
      w.queryFaults.headD none = none →
      (∀ stored, lib.Unmarshal ((model.Param "").scan r.cols).Value lib.New = (stored, none) →
        (dao.FindSettings lib w).1 = (some stored, none) ∧
        BaseApp.RefreshSettings env lib app w =
          ((lib.Merge (app.settings.getD lib.New) stored).2,
            { app with settings := some (lib.Merge (app.settings.getD lib.New) stored).1 },
            (dao.FindSettings lib w).2)) ∧
      (∀ x e, lib.Unmarshal ((model.Param "").scan r.cols).Value lib.New = (x, some e) →
        BaseApp.RefreshSettings env lib app w =
          (some (errors.New "failed to load the stored app settings"),
            { app with settings := some (app.settings.getD lib.New) },
            (dao.FindSettings lib w).2))) ∧
    (∀ rows e, dao.DB.rows w = some rows → w.queryFaults.headD none = some e →
      (dao.FindSettings lib w).1 = (none, some e) ∧
      (e ≠ sql.ErrNoRows →
        BaseApp.RefreshSettings env lib app w =
          (some e, { app with settings := some (app.settings.getD lib.New) },
            (dao.FindSettings lib w).2))) := by
  obtain ⟨hro, hcases⟩ := FindSettings_cases lib dao w
  have hdao2 : BaseApp.Dao { app with settings := some (app.settings.getD lib.New) } =
      some dao := hdao
  have hfirst : (dao.FindSettings lib w).1.2 = some sql.ErrNoRows →
      BaseApp.RefreshSettings env lib app w =
        ((dao.SaveSettings env lib (app.settings.getD lib.New) (dao.FindSettings lib w).2).1,
          { app with settings := some (app.settings.getD lib.New) },
          (dao.SaveSettings env lib (app.settings.getD lib.New)
            (dao.FindSettings lib w).2).2) := by
    intro herr
    unfold BaseApp.RefreshSettings
    simp only [hdao2]
    rcases hf : dao.FindSettings lib w with ⟨⟨fs, fe⟩, v⟩
    rw [hf] at herr hcases
    simp only at herr
    subst herr
    rcases hcases with ⟨e, he⟩ | ⟨s, hs⟩
    · simp only [Prod.mk.injEq] at he
      obtain ⟨rfl, _⟩ := he
      simp
    · simp at hs
  have hother : ∀ e, (dao.FindSettings lib w).1.2 = some e → e ≠ sql.ErrNoRows →
      BaseApp.RefreshSettings env lib app w =
        (some e, { app with settings := some (app.settings.getD lib.New) },
          (dao.FindSettings lib w).2) := by
    intro e herr hne
    unfold BaseApp.RefreshSettings
    simp only [hdao2]
    rcases hf : dao.FindSettings lib w with ⟨⟨fs, fe⟩, v⟩
    rw [hf] at herr
    simp only at herr
    subst herr
    have hne2 : ¬ (some e = some sql.ErrNoRows) := fun h => hne (Option.some.inj h)
    simp [hne2]
  have hfound : ∀ stored, (dao.FindSettings lib w).1.1 = some stored →
      BaseApp.RefreshSettings env lib app w =
        ((lib.Merge (app.settings.getD lib.New) stored).2,
          { app with settings := some (lib.Merge (app.settings.getD lib.New) stored).1 },
          (dao.FindSettings lib w).2) := by
    intro stored hst
    unfold BaseApp.RefreshSettings
    simp only [hdao2]
    rcases hf : dao.FindSettings lib w with ⟨⟨fs, fe⟩, v⟩
    rw [hf] at hst hcases
    simp only at hst
    subst hst
    rcases hcases with ⟨e, he⟩ | ⟨s, hs⟩
    · simp at he
    · simp only [Prod.mk.injEq] at hs
      obtain ⟨_, rfl⟩ := hs
      simp only [ne_eq, not_true_eq_false, false_and, if_false]
      rcases lib.Merge (app.settings.getD lib.New) stored with ⟨merged, merr⟩
      cases merr <;> rfl
  refine ⟨hro, fun herr => ⟨hfirst herr, rfl⟩, hother, hfound,
    fun rows hrows hnone hq => ?_, fun rows r rest hrows hf hq => ⟨fun stored hu => ?_,
      fun x e hu => ?_⟩, fun rows e hrows hq => ?_⟩
  · have hmiss := FindSettings_missing lib dao w rows hrows hnone hq
    refine ⟨hmiss, fun text hscan => ?_⟩
    have herr : (dao.FindSettings lib w).1.2 = some sql.ErrNoRows := by rw [hmiss]
    rw [hfirst herr]
    have hrows2 : dao.DB.rows (dao.FindSettings lib w).2 = some rows := by
      rw [rows_congr dao.DB _ w hro.1 hro.2.1, hrows]
    obtain ⟨p, v, h1, h2, h3⟩ := SaveParam_missing env lib dao "settings"
      (app.settings.getD lib.New) (dao.FindSettings lib w).2 rows text hrows2 hnone hscan
    refine ⟨p, v, hro.trans h1, h2, ?_⟩
    show (_, _, _) = _
    rw [show dao.SaveSettings env lib (app.settings.getD lib.New) (dao.FindSettings lib w).2 =
      dao.SaveParam env lib "settings" (app.settings.getD lib.New) (dao.FindSettings lib w).2
      from rfl, h3]
  · have h := FindSettings_found lib dao w rows r rest hrows hf hq
    rw [hu] at h
    exact ⟨h, hfound stored (by rw [h])⟩
  · have h := FindSettings_found lib dao w rows r rest hrows hf hq
    rw [hu] at h
    exact hother _ (by rw [h]) (by decide)
  · have h := FindSettings_fault lib dao w rows e hrows hq
    exact ⟨h, fun hne => hother e (by rw [h]) hne⟩

/-- C20 at sample inputs. On an empty store the sample app saves its settings: the
first run. On a store that holds the settings record with the value 'old' the
sample app merges the stored settings and saves nothing. When the storage engine
fails the read with an error that has the message of `sql.ErrNoRows` and is not
that value, the sample app returns that error and saves nothing. -/
theorem C20_missing_settings_is_first_run_witness :
    BaseApp.RefreshSettings sampleHooks sampleLib sampleApp sampleWorld =
      ((sampleDao.SaveSettings sampleHooks sampleLib (sampleApp.settings.getD sampleLib.New)
          (sampleDao.FindSettings sampleLib sampleWorld).2).1,
        { sampleApp with settings := some (sampleApp.settings.getD sampleLib.New) },
        (sampleDao.SaveSettings sampleHooks sampleLib (sampleApp.settings.getD sampleLib.New)
          (sampleDao.FindSettings sampleLib sampleWorld).2).2) ∧
    ((sampleDao.FindSettings sampleLib settingsWorld).1 =
        (some { sampleSettings with UserAuthToken := ⟨"old", 3600⟩ }, none) ∧
      BaseApp.RefreshSettings sampleHooks sampleLib sampleApp settingsWorld =
        (none, { sampleApp with
            settings := some { sampleSettings with UserAuthToken := ⟨"old", 3600⟩ } },
          (sampleDao.FindSettings sampleLib settingsWorld).2)) ∧
    ((sampleDao.FindSettings sampleLib lookalikeWorld).1 = (none, some noRowsLookalike) ∧
      BaseApp.RefreshSettings sampleHooks sampleLib sampleApp lookalikeWorld =
        (some noRowsLookalike, sampleApp,
          (sampleDao.FindSettings sampleLib lookalikeWorld).2)) ∧
    ReadOnly settingsWorld (sampleDao.FindSettings sampleLib settingsWorld).2 ∧
    ReadOnly lookalikeWorld (sampleDao.FindSettings sampleLib lookalikeWorld).2 ∧
    noRowsLookalike.msg = sql.ErrNoRows.msg ∧ noRowsLookalike ≠ sql.ErrNoRows :=
  ⟨((C20_missing_settings_is_first_run sampleHooks sampleLib sampleApp sampleDao sampleWorld
      rfl).2.1 (by decide)).1,
    ((C20_missing_settings_is_first_run sampleHooks sampleLib sampleApp sampleDao settingsWorld
      rfl).2.2.2.2.2.1
      [paramRow "abcdefghijklmno" "settings" "old"]
      (paramRow "abcdefghijklmno" "settings" "old") [] rfl rfl rfl).1
      { sampleSettings with UserAuthToken := ⟨"old", 3600⟩ } rfl,
    ⟨((C20_missing_settings_is_first_run sampleHooks sampleLib sampleApp sampleDao lookalikeWorld
      rfl).2.2.2.2.2.2
        [] noRowsLookalike rfl rfl).1,
      ((C20_missing_settings_is_first_run sampleHooks sampleLib sampleApp sampleDao lookalikeWorld
      rfl).2.2.2.2.2.2
        [] noRowsLookalike rfl rfl).2 (by decide)⟩,
    (C20_missing_settings_is_first_run sampleHooks sampleLib sampleApp sampleDao settingsWorld
      rfl).1,
    (C20_missing_settings_is_first_run sampleHooks sampleLib sampleApp sampleDao lookalikeWorld
      rfl).1,
    rfl, by decide⟩

theorem sleepsOf_append (xs ys : List Event) :
    sleepsOf (xs ++ ys) = sleepsOf xs ++ sleepsOf ys := by
  simp [sleepsOf, List.filterMap_append]

theorem opCalls_append (xs ys : List Event) : opCalls (xs ++ ys) = opCalls xs + opCalls ys := by
  simp [opCalls, List.filter_append]

theorem sleepsOf_quiet (evs : List Event) (h : retryLog evs = []) : sleepsOf evs = [] := by
  rw [← sleepsOf_retryLog, h]
  rfl

theorem opCalls_quiet (evs : List Event) (h : retryLog evs = []) : opCalls evs = 0 := by
  rw [← opCalls_retryLog, h]
  rfl

theorem attempt_clock (env : Hooks) (kind : WriteKind) (m : Ptr) (d : Dao) (w : World) :
    (attempt env kind m d w).2.clock = w.clock := by
  cases hg : guardFails kind m w with
  | true => rw [attempt_guard env kind m d w hg]
  | false =>
    exact (attempt_proj env (fun _ => ()) (fun _ _ _ _ => ⟨rfl, rfl⟩) kind (fun _ _ _ => rfl)
      m d w hg).1

theorem failRetryLoop_stop (dao : Dao) (op : Dao → World → Option GoError × World)
    (maxRetries : Int) (fuel : Nat) (retryDao : Dao) (attempts : Int) (v : World)
    (h : ∀ e, (op (if attempts = 2 then dao.withoutBeforeHooks else retryDao)
      (v.log (.opCall attempts
        (if attempts = 2 then dao.withoutBeforeHooks else retryDao)))).1 = some e →
      ¬ (attempts < maxRetries ∧ isLocked e = true)) :
    dao.failRetryLoop op maxRetries fuel retryDao attempts v =
      ((op (if attempts = 2 then dao.withoutBeforeHooks else retryDao)
        (v.log (.opCall attempts
          (if attempts = 2 then dao.withoutBeforeHooks else retryDao)))).1,
        (op (if attempts = 2 then dao.withoutBeforeHooks else retryDao)
          (v.log (.opCall attempts
            (if attempts = 2 then dao.withoutBeforeHooks else retryDao)))).2.log
          (.opReturn attempts
            (op (if attempts = 2 then dao.withoutBeforeHooks else retryDao)
              (v.log (.opCall attempts
                (if attempts = 2 then dao.withoutBeforeHooks else retryDao)))).1)) := by
  rw [failRetryLoop_step]
  rcases hop : op (if attempts = 2 then dao.withoutBeforeHooks else retryDao)
    (v.log (.opCall attempts (if attempts = 2 then dao.withoutBeforeHooks else retryDao)))
    with ⟨r, w1⟩
  rw [hop] at h
  cases r with
  | none => rfl
  | some e =>
    simp only
    rw [if_neg (h e rfl)]

theorem failRetryLoop_wait (dao : Dao) (op : Dao → World → Option GoError × World)
    (maxRetries : Int) (fuel : Nat) (retryDao : Dao) (attempts : Int) (v : World) (e : GoError)
    (h : (op (if attempts = 2 then dao.withoutBeforeHooks else retryDao)
      (v.log (.opCall attempts
        (if attempts = 2 then dao.withoutBeforeHooks else retryDao)))).1 = some e)
    (hlt : attempts < maxRetries) (hl : isLocked e = true)
    (hfuel : (maxRetries - attempts).toNat ≤ fuel) :
    dao.failRetryLoop op maxRetries fuel retryDao attempts v =
      dao.failRetryLoop op maxRetries fuel
        (if attempts = 2 then dao.withoutBeforeHooks else retryDao) (attempts + 1)
        (time.Sleep (200 * attempts * time.Millisecond)
          ((op (if attempts = 2 then dao.withoutBeforeHooks else retryDao)
            (v.log (.opCall attempts
              (if attempts = 2 then dao.withoutBeforeHooks else retryDao)))).2.log
            (.opReturn attempts (some e)))) := by
  obtain ⟨n, rfl⟩ : ∃ n, fuel = n + 1 := ⟨fuel - 1, by omega⟩
  rw [failRetryLoop_retry dao op maxRetries n retryDao attempts v e h hlt hl]
  exact failRetryLoop_fuel dao op maxRetries n (n + 1) _ _ _ (by omega) (by omega)

theorem backoffs_total (N : Nat) (hN : N ≤ 4) :
    ((backoffs 1 N).map Int.toNat).sum = 100 * N * (N + 1) * 1000000 ∧
    (backoffs 1 N).sum = 100 * (N : Int) * (N + 1) * time.Millisecond := by
  interval_cases N <;> exact ⟨by decide, by decide⟩

theorem backoff_run (env : Hooks) (dao : Dao) (kind : WriteKind) (m : Ptr) (maxRetries : Int)
    (last : Option GoError) (rest : List (Option GoError))
    (hnil : ∀ name d mv v, (env.before name d mv v).2 = none)
    (hid : ∀ name d mv v, (env.before name d mv v).1.Id = mv.Id) :
    ∀ (errs : List GoError) (fuel : Nat) (rd : Dao) (a : Int) (v : World),
      (rd = dao ∨ rd = dao.withoutBeforeHooks) →
      a + (errs.length : Int) ≤ maxRetries → errs.length ≤ fuel →
      (∀ e ∈ errs, isLocked e = true) →
      v.faults = errs.map some ++ last :: rest →
      (∀ e, last = some e → isLocked e = true → a + (errs.length : Int) = maxRetries) →
      dao.nonconcurrentDB.usable v = true →
      guardFails kind m v = false →
      (dao.failRetryLoop (attempt env kind m) maxRetries fuel rd a v).1 = last ∧
      (dao.failRetryLoop (attempt env kind m) maxRetries fuel rd a v).2.clock =
        v.clock + ((backoffs a errs.length).map Int.toNat).sum ∧
      ∃ evs, (dao.failRetryLoop (attempt env kind m) maxRetries fuel rd a v).2.trace =
          v.trace ++ evs ∧
        sleepsOf evs = backoffs a errs.length ∧ opCalls evs = errs.length + 1 := by
  intro errs
  induction errs with
  | nil =>
    intro fuel rd a v hrd hlen _ _ hf hlast hu hg
    obtain ⟨d, hd, hdd⟩ : ∃ d, (if a = 2 then dao.withoutBeforeHooks else rd) = d ∧
        (d = dao ∨ d = dao.withoutBeforeHooks) := by
      by_cases h : a = 2
      · exact ⟨_, rfl, by simp [h]⟩
      · exact ⟨_, rfl, by simpa [h] using hrd⟩
    have hnc : d.nonconcurrentDB = dao.nonconcurrentDB := by
      rcases hdd with h | h <;> subst h <;> rfl
    have hb := runBefore_nil env hnil (d.beforeFor kind) d m
      (prelude kind m (v.log (.opCall a d)))
    have hres : (attempt env kind m d (v.log (.opCall a d))).1 = last := by
      cases last with
      | none =>
        exact (attempt_ok env kind m d (v.log (.opCall a d)) hg hb (by rw [hnc]; exact hu) (by
          show v.faults.headD none = none
          rw [hf]; rfl)).1
      | some e =>
        exact (attempt_fail env kind m d (v.log (.opCall a d)) e hg hb (by rw [hnc]; exact hu)
          (by
            show v.faults.headD none = some e
            rw [hf]; rfl)).1
    obtain ⟨evs0, ht, hq⟩ := attempt_quiet env kind m d (v.log (.opCall a d))
    have hstop := failRetryLoop_stop dao (attempt env kind m) maxRetries fuel rd a v (by
      rw [hd, hres]
      intro e he hc
      have := hlast e he hc.2
      simp only [List.length_nil, Nat.cast_zero, add_zero] at this
      omega)
    rw [hd] at hstop
    rw [hstop]
    refine ⟨hres, ?_, [.opCall a d] ++ evs0 ++ [.opReturn a last], ?_, ?_, ?_⟩
    · show (attempt env kind m d (v.log (.opCall a d))).2.clock = _
      rw [attempt_clock]
      simp [backoffs, World.log]
    · rw [hres, World.log_trace, ht, World.log_trace]
      simp only [List.append_assoc]
    · rw [sleepsOf_append, sleepsOf_append, sleepsOf_quiet evs0 hq]
      rfl
    · rw [opCalls_append, opCalls_append, opCalls_quiet evs0 hq]
      rfl
  | cons e es ih =>
    intro fuel rd a v hrd hlen hfuel hlock hf hlast hu hg
    obtain ⟨d, hd, hdd⟩ : ∃ d, (if a = 2 then dao.withoutBeforeHooks else rd) = d ∧
        (d = dao ∨ d = dao.withoutBeforeHooks) := by
      by_cases h : a = 2
      · exact ⟨_, rfl, by simp [h]⟩
      · exact ⟨_, rfl, by simpa [h] using hrd⟩
    have hnc : d.nonconcurrentDB = dao.nonconcurrentDB := by
      rcases hdd with h | h <;> subst h <;> rfl
    have hb := runBefore_nil env hnil (d.beforeFor kind) d m
      (prelude kind m (v.log (.opCall a d)))
    simp only [List.length_cons, Nat.cast_add, Nat.cast_one] at hlen hlast
    obtain ⟨n, rfl⟩ : ∃ n, fuel = n + 1 := ⟨fuel - 1, by simp at hfuel; omega⟩
    obtain ⟨f1, _, f3, f4, f5⟩ := attempt_fail env kind m d (v.log (.opCall a d)) e hg hb
      (by rw [hnc]; exact hu) (by
        show v.faults.headD none = some e
        rw [hf]; rfl)
    obtain ⟨evs0, ht, hq⟩ := attempt_quiet env kind m d (v.log (.opCall a d))
    have hstep := failRetryLoop_retry dao (attempt env kind m) maxRetries n rd a v e
      (by rw [hd]; exact f1) (by omega) (hlock e (List.mem_cons_self _ _))
    rw [hd] at hstep
    rw [hstep]
    obtain ⟨r1, r2, evs, r3, r4, r5⟩ := ih n d (a + 1)
      (time.Sleep (200 * a * time.Millisecond)
        ((attempt env kind m d (v.log (.opCall a d))).2.log (.opReturn a (some e))))
      hdd (by omega) (by simp at hfuel; omega)
      (fun x hx => hlock x (List.mem_cons_of_mem _ hx))
      (by
        show (attempt env kind m d (v.log (.opCall a d))).2.faults = _
        rw [f3]
        show v.faults.tail = _
        rw [hf]; rfl)
      (fun x hx hl => by have := hlast x hx hl; omega)
      (by
        rw [← hu]
        exact usable_congr _ _ _ f5)
      (by
        cases kind
        · rfl
        · rw [← hg]
          apply guardFails_congr
          show ((attempt env .update m d (v.log (.opCall a d))).2.models m).Id = _
          rw [f4, runBefore_id env hid, prelude_id _ _ _ (by decide)]
          rfl
        · rfl)
    refine ⟨r1, ?_, [.opCall a d] ++ evs0 ++
      [.opReturn a (some e), .sleep (200 * a * time.Millisecond)] ++ evs, ?_, ?_, ?_⟩
    · rw [r2]
      show (attempt env kind m d (v.log (.opCall a d))).2.clock +
        (200 * a * time.Millisecond).toNat + _ = _
      rw [attempt_clock]
      show v.clock + _ + _ = _
      simp only [List.length_cons, backoffs, List.map_cons, List.sum_cons]
      omega
    · rw [r3, time.Sleep_trace, World.log_trace, ht, World.log_trace]
      simp only [List.append_assoc, List.cons_append, List.nil_append]
    · rw [sleepsOf_append, sleepsOf_append, sleepsOf_append, sleepsOf_quiet evs0 hq, r4]
      rfl
    · rw [opCalls_append, opCalls_append, opCalls_append, opCalls_quiet evs0 hq, r5]
      simp [opCalls, Event.isOpCall]
      omega

/-- C9: the backoff is linear, 200 ms times the number of the attempt. The rule of
one attempt, for every `op`: when the call of `op` in attempt `k` returns an error
containing "database is locked" and `k < maxRetries`, the loop goes on with attempt
`k + 1` in the world that call of `op` left, the return logged and `time.Sleep` of
`200 * k` milliseconds run, so the clock stands `200 * k` milliseconds after where
`op` left it; when the call returns nil, another error, or `k` is not below
`maxRetries`, the loop ends with what `op` returned in the world `op` left, the
return logged, and no wait. The whole run, for `Save` and `Delete` on a usable
handle whose before-callbacks return nil and leave the identifier alone: when the
storage engine fails the first `N <= 4` writes with the lock error and answers the
next write with `last` (success, another error, or for `N = 4` anything), the
operation returns `last` after `N + 1` attempts, its sleeps are those of
`backoffs 1 N`, 200 ms, 400 ms, ... and the clock has advanced by their sum,
`100 * N * (N + 1)` milliseconds, and by nothing else. Locked on all 5 attempts,
the operation returns the lock error of the fifth attempt, has slept 200, 400, 600
and 800 ms and the clock has advanced by 2000 ms. -/
theorem C9_linear_backoff (env : Hooks) (dao : Dao)
    (op : Dao → World → Option GoError × World) (maxRetries : Int) (kind : WriteKind)
    (m : Ptr) (w : World) :
    (∀ (fuel : Nat) (retryDao : Dao) (k : Int) (v : World) (e : GoError),
      (op (if k = 2 then dao.withoutBeforeHooks else retryDao)
        (v.log (.opCall k (if k = 2 then dao.withoutBeforeHooks else retryDao)))).1 = some e →
      k < maxRetries → isLocked e = true → (maxRetries - k).toNat ≤ fuel →
      dao.failRetryLoop op maxRetries fuel retryDao k v =
        dao.failRetryLoop op maxRetries fuel
          (if k = 2 then dao.withoutBeforeHooks else retryDao) (k + 1)
          (time.Sleep (200 * k * time.Millisecond)
            ((op (if k = 2 then dao.withoutBeforeHooks else retryDao)
              (v.log (.opCall k (if k = 2 then dao.withoutBeforeHooks else retryDao)))).2.log
              (.opReturn k (some e)))) ∧
      (time.Sleep (200 * k * time.Millisecond)
        ((op (if k = 2 then dao.withoutBeforeHooks else retryDao)
          (v.log (.opCall k (if k = 2 then dao.withoutBeforeHooks else retryDao)))).2.log
          (.opReturn k (some e)))).clock =
        (op (if k = 2 then dao.withoutBeforeHooks else retryDao)
          (v.log (.opCall k (if k = 2 then dao.withoutBeforeHooks else retryDao)))).2.clock +
          (200 * k * 1000000).toNat) ∧
    (∀ (fuel : Nat) (retryDao : Dao) (k : Int) (v : World),
      (∀ e, (op (if k = 2 then dao.withoutBeforeHooks else retryDao)
          (v.log (.opCall k (if k = 2 then dao.withoutBeforeHooks else retryDao)))).1 = some e →
        ¬ (k < maxRetries ∧ isLocked e = true)) →
      dao.failRetryLoop op maxRetries fuel retryDao k v =
        ((op (if k = 2 then dao.withoutBeforeHooks else retryDao)
          (v.log (.opCall k (if k = 2 then dao.withoutBeforeHooks else retryDao)))).1,
          (op (if k = 2 then dao.withoutBeforeHooks else retryDao)
            (v.log (.opCall k (if k = 2 then dao.withoutBeforeHooks else retryDao)))).2.log
            (.opReturn k
              (op (if k = 2 then dao.withoutBeforeHooks else retryDao)
                (v.log (.opCall k
                  (if k = 2 then dao.withoutBeforeHooks else retryDao)))).1))) ∧
    (∀ (N : Nat) (errs : List GoError) (last : Option GoError) (rest : List (Option GoError)),
      N ≤ 4 → errs.length = N → (∀ e ∈ errs, isLocked e = true) →
      w.faults = errs.map some ++ last :: rest →
      (N < 4 → ∀ e, last = some e → isLocked e = false) →
      dao.nonconcurrentDB.usable w = true →
      (kind = .delete ∨ kind = saveKind (w.models m)) →
      (kind ≠ .insert → (w.models m).HasId = true) →
      (∀ name d mv v, (env.before name d mv v).2 = none) →
      (∀ name d mv v, (env.before name d mv v).1.Id = mv.Id) →
      (dao.perform env kind m w).1 = last ∧
      (dao.perform env kind m w).2.clock = w.clock + 100 * N * (N + 1) * 1000000 ∧
      ∃ evs, (dao.perform env kind m w).2.trace = w.trace ++ evs ∧
        sleepsOf evs = backoffs 1 N ∧
        (sleepsOf evs).sum = 100 * (N : Int) * (N + 1) * time.Millisecond ∧
        opCalls evs = N + 1) ∧
    (∀ (e1 e2 e3 e4 e5 : GoError) (rest : List (Option GoError)),
      (∀ e ∈ [e1, e2, e3, e4, e5], isLocked e = true) →
      w.faults = [some e1, some e2, some e3, some e4, some e5] ++ rest →
      dao.nonconcurrentDB.usable w = true →
      (kind = .delete ∨ kind = saveKind (w.models m)) →
      (kind ≠ .insert → (w.models m).HasId = true) →
      (∀ name d mv v, (env.before name d mv v).2 = none) →
      (∀ name d mv v, (env.before name d mv v).1.Id = mv.Id) →
      (dao.perform env kind m w).1 = some e5 ∧
      (dao.perform env kind m w).2.clock = w.clock + 2000 * 1000000 ∧
      ∃ evs, (dao.perform env kind m w).2.trace = w.trace ++ evs ∧
        sleepsOf evs = [200 * time.Millisecond, 400 * time.Millisecond,
          600 * time.Millisecond, 800 * time.Millisecond] ∧
        (sleepsOf evs).sum = 2000 * time.Millisecond ∧
        opCalls evs = 5) := by
  have hrun : ∀ (N : Nat) (errs : List GoError) (last : Option GoError)
      (rest : List (Option GoError)),
      N ≤ 4 → errs.length = N → (∀ e ∈ errs, isLocked e = true) →
      w.faults = errs.map some ++ last :: rest →
      (N < 4 → ∀ e, last = some e → isLocked e = false) →
      dao.nonconcurrentDB.usable w = true →
      (kind = .delete ∨ kind = saveKind (w.models m)) →
      (kind ≠ .insert → (w.models m).HasId = true) →
      (∀ name d mv v, (env.before name d mv v).2 = none) →
      (∀ name d mv v, (env.before name d mv v).1.Id = mv.Id) →
      (dao.perform env kind m w).1 = last ∧
      (dao.perform env kind m w).2.clock = w.clock + 100 * N * (N + 1) * 1000000 ∧
      ∃ evs, (dao.perform env kind m w).2.trace = w.trace ++ evs ∧
        sleepsOf evs = backoffs 1 N ∧
        (sleepsOf evs).sum = 100 * (N : Int) * (N + 1) * time.Millisecond ∧
        opCalls evs = N + 1 := by
    intro N errs last rest hN hlen hlocked hfaults hlast husable hkind hguard hnil hid
    obtain ⟨hg, hp⟩ := perform_eq env dao kind m w hkind hguard
    rw [hp]
    unfold Dao.failRetry
    obtain ⟨r1, r2, evs, r3, r4, r5⟩ := backoff_run env dao kind m DefaultMaxFailRetries last
      rest hnil hid errs (DefaultMaxFailRetries - 1).toNat dao 1 w (Or.inl rfl)
      (by rw [hlen]; show (1 : Int) + (N : Int) ≤ 5; omega)
      (by rw [hlen]; show N ≤ ((5 : Int) - 1).toNat; omega) hlocked hfaults
      (fun e he hl => by
        rw [hlen]
        show (1 : Int) + (N : Int) = 5
        by_cases h4 : N < 4
        · rw [hlast h4 e he] at hl
          cases hl
        · omega)
      husable hg
    rw [hlen] at r2 r4 r5
    obtain ⟨t1, t2⟩ := backoffs_total N hN
    refine ⟨r1, ?_, evs, r3, r4, ?_, r5⟩
    · rw [r2, t1]
    · rw [r4, t2]
  refine ⟨fun fuel retryDao k v e he hlt hl hfuel =>
      ⟨failRetryLoop_wait dao op maxRetries fuel retryDao k v e he hlt hl hfuel, rfl⟩,
    fun fuel retryDao k v h => failRetryLoop_stop dao op maxRetries fuel retryDao k v h,
    hrun, ?_⟩
  intro e1 e2 e3 e4 e5 rest hlocked hfaults husable hkind hguard hnil hid
  exact hrun 4 [e1, e2, e3, e4] (some e5) rest (by decide) rfl
    (fun e he => hlocked e (by
      simp only [List.mem_cons, List.mem_singleton, List.not_mem_nil, or_false] at he ⊢
      rcases he with h | h | h | h <;> simp [h]))
    hfaults (fun h => absurd h (by decide)) husable hkind hguard hnil hid

/-- C9 at sample inputs. An `op` that is always locked, at attempt 1 of 5: the loop
goes on with attempt 2 after a sleep of 200 ms, the clock 200 ms later. A `Save` of
a new model whose five writes the storage engine fails with the lock error returns
that error with the clock advanced by 2000 ms. A `Save` whose first write is locked
and whose second succeeds returns nil with the clock advanced by 200 ms. -/
theorem C9_linear_backoff_witness :
    (sampleDao.failRetryLoop (fun _ v => (some lockedError, v)) 5 4 sampleDao 1 sampleWorld =
        sampleDao.failRetryLoop (fun _ v => (some lockedError, v)) 5 4 sampleDao 2
          (time.Sleep (200 * 1 * time.Millisecond)
            ((sampleWorld.log (.opCall 1 sampleDao)).log (.opReturn 1 (some lockedError)))) ∧
      (time.Sleep (200 * 1 * time.Millisecond)
        ((sampleWorld.log (.opCall 1 sampleDao)).log
          (.opReturn 1 (some lockedError)))).clock = 1000 + 200000000) ∧
    ((sampleDao.perform sampleHooks .insert 0
        { sampleWorld with faults := [some lockedError, some lockedError, some lockedError,
          some lockedError, some lockedError] }).1 = some lockedError ∧
      (sampleDao.perform sampleHooks .insert 0
        { sampleWorld with faults := [some lockedError, some lockedError, some lockedError,
          some lockedError, some lockedError] }).2.clock = 1000 + 2000 * 1000000 ∧
      ∃ evs, (sampleDao.perform sampleHooks .insert 0
          { sampleWorld with faults := [some lockedError, some lockedError, some lockedError,
            some lockedError, some lockedError] }).2.trace = [] ++ evs ∧
        sleepsOf evs = [200 * time.Millisecond, 400 * time.Millisecond,
          600 * time.Millisecond, 800 * time.Millisecond] ∧
        (sleepsOf evs).sum = 2000 * time.Millisecond ∧
        opCalls evs = 5) ∧
    ((sampleDao.perform sampleHooks .insert 0
        { sampleWorld with faults := [some lockedError, none] }).1 = none ∧
      (sampleDao.perform sampleHooks .insert 0
        { sampleWorld with faults := [some lockedError, none] }).2.clock =
        1000 + 100 * 1 * (1 + 1) * 1000000) :=
  ⟨(C9_linear_backoff sampleHooks sampleDao (fun _ v => (some lockedError, v)) 5 .insert 0
      sampleWorld).1
      4 sampleDao 1 sampleWorld lockedError rfl (by decide) (by decide) (by decide),
    (C9_linear_backoff sampleHooks sampleDao (fun _ v => (some lockedError, v)) 5 .insert 0
      { sampleWorld with faults := [some lockedError, some lockedError, some lockedError,
        some lockedError, some lockedError] }).2.2.2
      lockedError lockedError lockedError lockedError lockedError [] (by decide) rfl rfl
      (Or.inr rfl) (fun h => absurd rfl h) (fun _ _ _ _ => rfl) (fun _ _ _ _ => rfl),
    ⟨((C9_linear_backoff sampleHooks sampleDao (fun _ v => (some lockedError, v)) 5 .insert 0
      { sampleWorld with faults := [some lockedError, none] }).2.2.1
      1 [lockedError] none [] (by decide) rfl (by decide) rfl (fun _ _ h => (by cases h)) rfl
      (Or.inr rfl) (fun h => absurd rfl h) (fun _ _ _ _ => rfl) (fun _ _ _ _ => rfl)).1,
    ((C9_linear_backoff sampleHooks sampleDao (fun _ v => (some lockedError, v)) 5 .insert 0
      { sampleWorld with faults := [some lockedError, none] }).2.2.1
      1 [lockedError] none [] (by decide) rfl (by decide) rfl (fun _ _ h => (by cases h)) rfl
      (Or.inr rfl) (fun h => absurd rfl h) (fun _ _ _ _ => rfl) (fun _ _ _ _ => rfl)).2.1⟩⟩

end Ohmygo
